import Mathlib

/-!
# Corkle/parser-demo: the extraction primitives, the result pipeline and the page assembly

A shallow embedding of `src/utils/parser.js` (`getText`, `getAttribute`, `select`,
`parseByConfig`), of `src/google/resultItemParser.js` (`parseResultItem` and its steps) and of
`src/googleParser.js` (`getContainers`, `getResultElements`, `filterUniqueElements`, the page
features, `parse`), followed by the properties proved about them.

Conventions of the embedding:

* a JavaScript string is a Lean `String`; `null` results are `none` / `Value.null` /
  `JsVal.null`;
* a thrown exception is `Except.error`;
* the external `css-select` engine is a parameter (`selectAll` on a single query, `engine` on
  any query value), a `process` callback is a `ProcId` interpreted by a parameter `run`;
* the feature parsers of the other modules, `isKnowledgePanelEntry`, `GOOGLE_FEATURE_URL`,
  `parseDOM`, the date pattern match, `Date.now()` and `resultFormatV1.format` are parameters
  (`Collaborators`, `Page`);
* the `attribs` of a node is a plain object: the attributes it holds itself are a list of
  pairs, and a read of a name it does not hold falls through to `Object.prototype`
  (`objectPrototypeNames`);
* object identity is a reference (`Ref`) into a heap of objects.
-/

namespace ParserDemo

/-! ## Strings -/

/-- The characters `String.prototype.trim` removes: ECMAScript WhiteSpace and LineTerminator. -/
def isJsWhitespace (c : Char) : Bool :=
  let n := c.toNat
  n = 0x09 || n = 0x0A || n = 0x0B || n = 0x0C || n = 0x0D || n = 0x20 || n = 0xA0 ||
  n = 0x1680 || (0x2000 ≤ n && n ≤ 0x200A) || n = 0x2028 || n = 0x2029 || n = 0x202F ||
  n = 0x205F || n = 0x3000 || n = 0xFEFF

/-- `String.prototype.trim`: whitespace removed from both ends. -/
def jsTrim (s : String) : String :=
  ⟨((s.data.dropWhile isJsWhitespace).reverse.dropWhile isJsWhitespace).reverse⟩

/-- `Array.prototype.join` on an array of strings. -/
def join (sep : String) : List String → String
  | [] => ""
  | [a] => a
  | a :: b :: rest => a ++ sep ++ join sep (b :: rest)

/-! ## The node tree -/

/-- A node of the tree `parseDOM` builds. `text` has `type === 'text'`, `tag` has
`type === 'tag'`; every other node kind (comment, script, style, directive, cdata) is `other`. -/
inductive Node where
  | text (data : String)
  | tag (name : String) (attribs : List (String × String)) (children : List Node)
  | other (type : String) (attribs : Option (List (String × String))) (children : List Node)

/-- What the functions receive as `element`: nothing, a single node, or an array of nodes. -/
inductive Elem where
  | undefined
  | null
  | node (n : Node)
  | list (l : List Node)

/-- JavaScript truthiness of an `element` argument (objects and arrays are truthy). -/
def Elem.truthy : Elem → Bool
  | .undefined => false
  | .null => false
  | .node _ => true
  | .list _ => true

/-! ## getText -/

/-- The `options` argument of `getText`: each field may be absent. -/
structure Options where
  separator : Option String := none
  shallowSearch : Option Bool := none
  trim : Option Bool := none

/-- The merged options `opts`, every field present. -/
structure Opts where
  separator : String
  shallowSearch : Bool
  trim : Bool

/-- The merge `{ ...defaultOpts, ...options }` with
`defaultOpts = { separator: ', ', shallowSearch: false, trim: true }`. -/
def mergeOpts (options : Options) : Opts :=
  { separator := options.separator.getD ", "
    shallowSearch := options.shallowSearch.getD false
    trim := options.trim.getD true }

/-- The accumulator step of the reducer in `getArrayText`: `text` is what `getText` returned for
the element; it is appended when it is a non-empty string (`text && typeof text === 'string'`).
`getText` never returns an array, so the `Array.isArray(text)` branch is not taken. -/
def pushText (textArray : List String) (text : Option String) : List String :=
  match text with
  | some t => if t ≠ "" then textArray ++ [t] else textArray
  | none => textArray

/-- The tail of the array branch of `getText`:
`returnText = shallowSearch ? textArray[0] : textArray.join(separator)`, then
`returnText || null`. -/
def returnText (opts : Opts) (textArray : List String) : Option String :=
  let r : Option String :=
    if opts.shallowSearch then textArray.head? else some (join opts.separator textArray)
  match r with
  | some s => if s ≠ "" then some s else none
  | none => none

mutual
/-- The function `getText` on a single (non-array) node, with merged options. -/
def getTextNode (opts : Opts) : Node → Option String
  | .text data => some (if opts.trim then jsTrim data else data)
  | .tag _ _ children => returnText opts (getArrayTextFrom opts [] children)
  | .other _ _ _ => none
/-- The reduce of `getArrayText`, started from the accumulator `textArray`. -/
def getArrayTextFrom (opts : Opts) : List String → List Node → List String
  | textArray, [] => textArray
  | textArray, element :: rest =>
      getArrayTextFrom opts (pushText textArray (getTextNode opts element)) rest
end

/-- The function `getArrayText(elements, options)`: the reduce started from `[]`. -/
def getArrayText (opts : Opts) (elements : List Node) : List String :=
  getArrayTextFrom opts [] elements

/-- The function `getText` with already merged options (merging again changes nothing). -/
def getTextWith (opts : Opts) : Elem → Option String
  | .undefined => none
  | .null => none
  | .list l => returnText opts (getArrayText opts l)
  | .node n => getTextNode opts n

/-- The function `getText(element, options = {})`. -/
def getText (element : Elem) (options : Options := {}) : Option String :=
  getTextWith (mergeOpts options) element

/-! ### The text payloads of a tree, as the specification words them -/

/-- The payload of a Text node as it is collected: trimmed when `trim` is set. -/
def payloadOf (trim : Bool) (data : String) : String :=
  if trim then jsTrim data else data

mutual
/-- The payloads of all Text nodes reachable from a node through Tag children, in document
order, each trimmed when `trim` is set, leaving out the empty ones. -/
def textPayloads (trim : Bool) : Node → List String
  | .text data => if payloadOf trim data ≠ "" then [payloadOf trim data] else []
  | .tag _ _ children => textPayloadsList trim children
  | .other _ _ _ => []
/-- The payloads of a node list: those of its nodes, one node after the other. -/
def textPayloadsList (trim : Bool) : List Node → List String
  | [] => []
  | n :: rest => textPayloads trim n ++ textPayloadsList trim rest
end

/-- What the array branch of `getText` is expected to return for the payload list `ps`: the
first payload under `shallowSearch`, the join otherwise, and `null` for no payload. -/
def expectedText (opts : Opts) (ps : List String) : Option String :=
  if opts.shallowSearch then ps.head?
  else if ps = [] then none else some (join opts.separator ps)

/-- The payloads reachable from an `element` argument. -/
def elemPayloads (trim : Bool) : Elem → List String
  | .undefined => []
  | .null => []
  | .node n => textPayloads trim n
  | .list l => textPayloadsList trim l

/-! ## getAttribute -/

/-- The `attribs` property of a node; Text nodes have none. -/
def Node.attribs? : Node → Option (List (String × String))
  | .text _ => none
  | .tag _ attribs _ => some attribs
  | .other _ attribs _ => attribs

/-- The property names `Object.prototype` defines (ECMAScript, Annex B included). The `attribs`
of a node is a plain object, so reading one of these names gives the inherited member whenever
the object holds no attribute of that name itself. -/
def objectPrototypeNames : List String :=
  ["constructor", "hasOwnProperty", "isPrototypeOf", "propertyIsEnumerable", "toLocaleString",
   "toString", "valueOf", "__proto__", "__defineGetter__", "__defineSetter__",
   "__lookupGetter__", "__lookupSetter__"]

/-- What a read of the `attribs` object gives, `undefined` apart: the string an attribute holds,
or the member of `Object.prototype` of that name (a built-in function, and for `__proto__` the
prototype object). -/
inductive AttrValue where
  | str (s : String)
  | inherited (name : String)

/-- JavaScript truthiness of such a value: functions and objects are truthy. -/
def AttrValue.truthy : AttrValue → Bool
  | .str s => s ≠ ""
  | .inherited _ => true

/-- The property read `attribs[attribute]`: the attribute the object holds itself, otherwise
the member inherited from `Object.prototype`, otherwise `undefined` (`none`). -/
def readAttrib (attribs : List (String × String)) (attr : String) : Option AttrValue :=
  match attribs.lookup attr with
  | some v => some (.str v)
  | none => if attr ∈ objectPrototypeNames then some (.inherited attr) else none

/-- The value `attribute && attribs && attribs[attribute]` when it is truthy, `null` otherwise. -/
def attribValue (attr : String) (n : Node) : Option AttrValue :=
  if attr ≠ "" then
    match n.attribs? with
    | some attribs =>
        match readAttrib attribs attr with
        | some v => if v.truthy then some v else none
        | none => none
    | none => none
  else none

/-- The function `getAttribute(attribute, element = {})`. The destructuring
`const { attribs } = ...` throws a `TypeError` on `null` and on `element[0]` of an empty array;
an `undefined` element takes the default `{}`. -/
def getAttribute (attr : String) (element : Elem) : Except String (Option AttrValue) :=
  match element with
  | .undefined => .ok none
  | .null => .error "TypeError"
  | .list [] => .error "TypeError"
  | .list (first :: _) => .ok (attribValue attr first)
  | .node n => .ok (attribValue attr n)

/-! ## select -/

/-- A single query handed to `css-select`: a selector string or a predicate function. -/
inductive Selector where
  | css (s : String)
  | fn (id : Nat)
  deriving DecidableEq

/-- The `query` argument: one selector, or an array of alternatives. -/
inductive Query where
  | single (q : Selector)
  | alts (qs : List Selector)

/-- JavaScript truthiness of a `query`: only the empty selector string is falsy. -/
def Query.truthy : Query → Bool
  | .single (.css s) => s ≠ ""
  | .single (.fn _) => true
  | .alts _ => true

/-- The array `Array.isArray(query) ? query : [query]`. -/
def Query.queries : Query → List Selector
  | .single q => [q]
  | .alts qs => qs

/-- The function `select(query, element)`; `selectAll` is the `css-select` engine. -/
def select (selectAll : Selector → Elem → List Node) (query : Query) (element : Elem) :
    List Node :=
  query.queries.foldl
    (fun matched q => if matched.length = 0 then selectAll q element else matched) []

/-! ## parseByConfig -/

/-- The identifier of a `process` callback. -/
abbrev ProcId := Nat

/-- A config object. `properties` lists the entries of the properties object in
`Object.entries` order; a property value may be `null`. -/
inductive Config where
  | mk (query : Option Query) (attr : Option String) (separator : Option String)
       (shallowSearch : Option Bool) (trim : Option Bool)
       (properties : Option (List (String × Option Config))) (process : Option ProcId)

/-- The field `config.query`. -/
def Config.query : Config → Option Query
  | .mk q _ _ _ _ _ _ => q
/-- The field `config.attribute`. -/
def Config.attr : Config → Option String
  | .mk _ a _ _ _ _ _ => a
/-- The field `config.properties`. -/
def Config.properties : Config → Option (List (String × Option Config))
  | .mk _ _ _ _ _ p _ => p
/-- The field `config.process`. -/
def Config.process : Config → Option ProcId
  | .mk _ _ _ _ _ _ p => p
/-- The config read as the `options` of `getText`. -/
def Config.options : Config → Options
  | .mk _ _ separator shallowSearch trim _ _ =>
      { separator := separator, shallowSearch := shallowSearch, trim := trim }

/-- The values `parseByConfig` and a `process` callback return; `inherited` is a member of
`Object.prototype`, which `getAttribute` can return. -/
inductive Value where
  | null
  | str (s : String)
  | num (n : Int)
  | inherited (name : String)
  | nodes (l : List Node)
  | records (l : List (List (String × Value)))

/-- A plain result object: its entries in insertion order. -/
abbrev Obj := List (String × Value)

/-- The object `{ ...acc, [key]: result }`: an existing key keeps its place and takes the new
value, a new key is added last. -/
def objSet (acc : Obj) (key : String) (result : Value) : Obj :=
  if acc.any (fun kv => kv.1 = key) then
    acc.map (fun kv => if kv.1 = key then (key, result) else kv)
  else acc ++ [(key, result)]

/-- A `string | null` result as a `Value`. -/
def Value.ofText : Option String → Value
  | some s => .str s
  | none => .null

/-- A result of `getAttribute` as a `Value`. -/
def Value.ofAttribute : Option AttrValue → Value
  | some (.str s) => .str s
  | some (.inherited name) => .inherited name
  | none => .null

/-- The working set `found` of `parseByConfig`: `select(query, element)` when `query` is truthy,
otherwise `Array.isArray(element) ? element : [element]`. It is computed only for a truthy
element. -/
def foundSet (selectAll : Selector → Elem → List Node) (query : Option Query) (element : Elem) :
    List Node :=
  match query.filter Query.truthy with
  | some q => select selectAll q element
  | none =>
      match element with
      | .list l => l
      | .node n => [n]
      | .undefined => []
      | .null => []

mutual
/-- The body of `parseByConfig(config, element)` for a truthy `config`. `run p element config`
is the call `config.process(element, config)` of the callback `p`. -/
def parseConfig (selectAll : Selector → Elem → List Node)
    (run : ProcId → Elem → Config → Except String Value) :
    (config : Config) → Elem → Except String Value
  | .mk query attr separator shallowSearch trim properties process, element =>
      if !element.truthy then .ok .null else
      match process with
      | some p =>
          run p element (.mk query attr separator shallowSearch trim properties process)
      | none =>
          let found := foundSet selectAll query element
          if found.length = 0 then .ok .null else
          match properties with
          | some props =>
              (found.mapM (fun e => propertiesReduce selectAll run props e [])).map
                Value.records
          | none =>
              match attr with
              | some a =>
                  if a = "text" then
                    .ok (Value.ofText (getText (.list found)
                      { separator := separator, shallowSearch := shallowSearch, trim := trim }))
                  else if a ≠ "" then
                    (getAttribute a (.list found)).map Value.ofAttribute
                  else .ok (.nodes found)
              | none => .ok (.nodes found)
termination_by structural config => config
/-- The function `parseByConfig(config, element)`: `null` for a falsy `config`. -/
def parseByConfig (selectAll : Selector → Elem → List Node)
    (run : ProcId → Elem → Config → Except String Value) :
    (config : Option Config) → Elem → Except String Value
  | none, _ => .ok .null
  | some config, element => parseConfig selectAll run config element
termination_by structural config => config
/-- The reduce of `getPropertiesMapFn(properties)(element)` over the remaining entries of
`Object.entries(properties)`, from the accumulator `acc`. -/
def propertiesReduce (selectAll : Selector → Elem → List Node)
    (run : ProcId → Elem → Config → Except String Value) :
    (props : List (String × Option Config)) → Node → Obj → Except String Obj
  | [], _, acc => .ok acc
  | (key, config) :: rest, element, acc =>
      match parseByConfig selectAll run config (.node element) with
      | .ok result => propertiesReduce selectAll run rest element (objSet acc key result)
      | .error e => .error e
termination_by structural props => props
end

/-- The function `getPropertiesMapFn(properties)` applied to `element`. -/
def getPropertiesMapFn (selectAll : Selector → Elem → List Node)
    (run : ProcId → Elem → Config → Except String Value)
    (properties : List (String × Option Config)) (element : Node) : Except String Obj :=
  propertiesReduce selectAll run properties element []

/-! ## filterUniqueElements -/

/-- The value of a `startIndex` / `endIndex` property: absent, `null`, or a number. -/
inductive Offset where
  | undefined
  | null
  | num (n : Int)
  deriving DecidableEq

/-- JavaScript truthiness of an offset: `undefined`, `null` and `0` are falsy. -/
def Offset.truthy : Offset → Bool
  | .undefined => false
  | .null => false
  | .num n => n ≠ 0

/-- The coercion `ToNumber`: `undefined` is `NaN` (here `none`), `null` is `0`. -/
def Offset.toNumber : Offset → Option Int
  | .undefined => none
  | .null => some 0
  | .num n => some n

/-- The comparison `x < y` of two offsets; it is `false` when either side is `NaN`. -/
def jsLt (x y : Offset) : Bool :=
  match x.toNumber, y.toNumber with
  | some a, some b => a < b
  | _, _ => false

/-- The comparison `x > y` of two offsets. -/
def jsGt (x y : Offset) : Bool := jsLt y x

/-- The two properties of a result element that the filter reads. -/
structure Positioned where
  startIndex : Offset
  endIndex : Offset

/-- A reference to an object: `===` on objects is equality of references. -/
abbrev Ref := Nat

/-- The objects the references point to. -/
abbrev Heap := Ref → Positioned

/-- The local function `doesAContainB`:
`b.startIndex > a.startIndex && b.startIndex < a.endIndex`. -/
def doesAContainB (a b : Positioned) : Bool :=
  jsGt b.startIndex a.startIndex && jsLt b.startIndex a.endIndex

/-- `Array.prototype.indexOf`: the first index holding `x`, or `-1`. -/
def indexOf (l : List Ref) (x : Ref) : Int :=
  if x ∈ l then (l.indexOf x : Int) else -1

/-- The function `filterUniqueElements(element, index, allResults)`. The candidates are object
references, so `!element` is false and the guard is `!element.startIndex`. -/
def filterUniqueElements (heap : Heap) (element : Ref) (index : Nat) (allResults : List Ref) :
    Bool :=
  if !(heap element).startIndex.truthy then false else
  let isNested := allResults.any (fun testElement => doesAContainB (heap testElement) (heap element))
  let isDuplicate := indexOf allResults element ≠ (index : Int)
  !(isNested || isDuplicate)

/-- The part of `array.filter(callback)` that starts at position `index` of `array`: the
callback receives the element, its index and the whole array. -/
def arrayFilterFrom {α : Type} (callback : α → Nat → List α → Bool) (array : List α) :
    Nat → List α → List α
  | _, [] => []
  | index, x :: rest =>
      if callback x index array then x :: arrayFilterFrom callback array (index + 1) rest
      else arrayFilterFrom callback array (index + 1) rest

/-- `Array.prototype.filter` with a three-argument callback. -/
def arrayFilter {α : Type} (callback : α → Nat → List α → Bool) (array : List α) : List α :=
  arrayFilterFrom callback array 0 array

/-- The step `.filter(filterUniqueElements)` of `parseSearchResultFeatures`. -/
def filterUnique (heap : Heap) (candidates : List Ref) : List Ref :=
  arrayFilter (filterUniqueElements heap) candidates

/-- Stated from the specification, for comparison with `filterUnique`: the entries of a
candidate list that are not a repeat of an entry at a lower index, `seen` being the entries
already met. -/
def firstOccurrences (seen : List Ref) : List Ref → List Ref
  | [] => []
  | x :: rest =>
      if x ∈ seen then firstOccurrences seen rest
      else x :: firstOccurrences (x :: seen) rest

/-- Stated from the specification, for comparison with `filterUniqueElements`: the element has
a `startIndex` that is not falsy and no candidate contains it. -/
def survives (heap : Heap) (candidates : List Ref) (x : Ref) : Bool :=
  (heap x).startIndex.truthy &&
    !candidates.any (fun A => doesAContainB (heap A) (heap x))

/-! ## Containers and result elements (`googleParser.js`) -/

/-- The part of `array.every(callback)` that starts at position `index` of `array`. -/
def arrayEveryFrom {α : Type} (callback : α → Nat → List α → Bool) (array : List α) :
    Nat → List α → Bool
  | _, [] => true
  | index, x :: rest =>
      callback x index array && arrayEveryFrom callback array (index + 1) rest

/-- `Array.prototype.every` with a three-argument callback. -/
def arrayEvery {α : Type} (callback : α → Nat → List α → Bool) (array : List α) : Bool :=
  arrayEveryFrom callback array 0 array

/-- The engine `select` hands each single query to, given `css-select`'s `selectAll` on any
query value (`engine`). -/
def singleQuery (engine : Query → Elem → List Node) : Selector → Elem → List Node :=
  fun q element => engine (.single q) element

/-- The constant `containerQuery` of `getContainers`. -/
def containerQuery : List Selector :=
  [.css "div#rso > div:not([tabindex=\"-1\"])",
   .css "div#rso > g-card",
   .css "div#rso > g-inner-card",
   .css "div#rso > g-section-with-header",
   .css "div#appbar div.rl_feature"]

/-- The value `wholePageSubContainers` of the reducer of `getContainers`:
`select('div#kp-wp-tab-overview > div', currentContainer)`. -/
def wholePageSubContainers (engine : Query → Elem → List Node) (currentContainer : Node) :
    List Node :=
  select (singleQuery engine) (.single (.css "div#kp-wp-tab-overview > div"))
    (.node currentContainer)

/-- The reducer of `getContainers`: the sub-containers of the current container when it has
any, the container itself otherwise, appended to `acc`. -/
def expandContainer (engine : Query → Elem → List Node) (acc : List Node)
    (currentContainer : Node) : List Node :=
  if (wholePageSubContainers engine currentContainer).length ≠ 0 then
    acc ++ wholePageSubContainers engine currentContainer
  else acc ++ [currentContainer]

/-- The function `getContainers(document)`. `isKnowledgePanelEntry` is the predicate of
`knowledgePanelParser.js`, called by `every` with the container, its index and the array. -/
def getContainers (engine : Query → Elem → List Node)
    (isKnowledgePanelEntry : Node → Nat → List Node → Bool) (document : Elem) : List Node :=
  let containers := engine (.alts containerQuery) document
  if arrayEvery isKnowledgePanelEntry containers then
    containers.foldl (expandContainer engine) []
  else containers

/-- The local function `hasSiteLinks` of `getDesktopResultWithSiteLinksElement`:
`organicResult && siteLinksTable`, read as a truth value by `filter`. -/
def hasSiteLinks (engine : Query → Elem → List Node) (element : Node) : Bool :=
  let organicResult :=
    (select (singleQuery engine) (.single (.css "div.tF2Cxc")) (.node element)).head?
  let siteLinksTable :=
    (select (singleQuery engine) (.single (.css "table.jmjoTe")) (.node element)).head?
  organicResult.isSome && siteLinksTable.isSome

/-- The function `getDesktopResultWithSiteLinksElement(container)`. -/
def getDesktopResultWithSiteLinksElement (engine : Query → Elem → List Node)
    (container : Node) : List Node :=
  (select (singleQuery engine) (.single (.css "div.g > div")) (.node container)).filter
    (hasSiteLinks engine)

/-- The constant `query` of `getDesktopResultElements`. -/
def desktopResultQuery : List Selector :=
  [.css "div.srg div.g", .css "div.g > div.rc", .css "div.g > div.tF2Cxc",
   .css "div.kp-blk.cUnQKe"]

/-- The function `getDesktopResultElements(container)`. -/
def getDesktopResultElements (engine : Query → Elem → List Node) (container : Node) :
    List Node :=
  let resultElements := engine (.alts desktopResultQuery) (.node container)
  let resultsWithSiteLinks := getDesktopResultWithSiteLinksElement engine container
  resultsWithSiteLinks ++ resultElements

/-- The constant `query` of `getMobileResultElements`. -/
def mobileResultQuery : List Selector :=
  [.css "div.mnr-c.xpd", .css "g-card.XqIXXe", .css "div.mnr-c.srg"]

/-- The function `getMobileResultElements(container)`. -/
def getMobileResultElements (engine : Query → Elem → List Node) (container : Node) :
    List Node :=
  engine (.alts mobileResultQuery) (.node container)

/-- The function `getResultElements` that `getFnGetResultElements(isMobile)` returns. -/
def getFnGetResultElements (engine : Query → Elem → List Node) (isMobile : Bool)
    (container : Node) : List Node :=
  let resultElements :=
    if isMobile then getMobileResultElements engine container
    else getDesktopResultElements engine container
  let hasMultipleElements := decide (resultElements.length > 1)
  if hasMultipleElements then resultElements else [container]

/-! ## Absence as `null` -/

mutual
/-- A config that carries no `process` callback, at any nesting level of `properties`. -/
def Config.noProcess : (config : Config) → Bool
  | .mk _ _ _ _ _ properties process =>
      process.isNone &&
        (match properties with
         | some props => noProcessEntries props
         | none => true)
termination_by structural config => config
/-- A property value that is `null` or a config without `process`. -/
def noProcessOption : (config : Option Config) → Bool
  | none => true
  | some config => config.noProcess
termination_by structural config => config
/-- Property entries whose configs carry no `process`. -/
def noProcessEntries : (props : List (String × Option Config)) → Bool
  | [] => true
  | (_, config) :: rest => noProcessOption config && noProcessEntries rest
termination_by structural props => props
end

mutual
/-- A value that is `null` or non-empty: not the empty string, not the empty list, and so for
every field of every object of a list of objects. -/
def Value.nullOrNonEmpty : (v : Value) → Bool
  | .null => true
  | .str s => s ≠ ""
  | .num _ => true
  | .inherited _ => true
  | .nodes l => l.length ≠ 0
  | .records objs => objs.length ≠ 0 && objsNullOrNonEmpty objs
termination_by structural v => v
/-- Objects whose fields are all `null` or non-empty. -/
def objsNullOrNonEmpty : (objs : List (List (String × Value))) → Bool
  | [] => true
  | obj :: rest => objNullOrNonEmpty obj && objsNullOrNonEmpty rest
termination_by structural objs => objs
/-- An object whose fields are all `null` or non-empty. -/
def objNullOrNonEmpty : (obj : List (String × Value)) → Bool
  | [] => true
  | (_, v) :: rest => v.nullOrNonEmpty && objNullOrNonEmpty rest
termination_by structural obj => obj
end

/-! ## Result records and the result pipeline (`resultItemParser.js`) -/

/-- A JavaScript value held in a result record; `node` is a node of the tree, `inherited` a
member of `Object.prototype`. -/
inductive JsVal where
  | undefined
  | null
  | bool (b : Bool)
  | num (n : Int)
  | str (s : String)
  | inherited (name : String)
  | node (n : Node)
  | obj (fields : List (String × JsVal))
  | arr (items : List JsVal)

/-- A plain object: its fields in insertion order. -/
abbrev Record := List (String × JsVal)

/-- JavaScript truthiness of a value. -/
def JsVal.truthy : JsVal → Bool
  | .undefined => false
  | .null => false
  | .bool b => b
  | .num n => n ≠ 0
  | .str s => s ≠ ""
  | .inherited _ => true
  | .node _ => true
  | .obj _ => true
  | .arr _ => true

/-- The test `value !== null && value !== undefined`. -/
def JsVal.isNullish : JsVal → Bool
  | .undefined => true
  | .null => true
  | _ => false

mutual
/-- The string a template literal makes of a value. -/
def JsVal.toText : (v : JsVal) → String
  | .undefined => "undefined"
  | .null => "null"
  | .bool b => if b then "true" else "false"
  | .num n => toString n
  | .str s => s
  | .inherited name =>
      if name = "__proto__" then "[object Object]"
      else "function " ++ name ++ "() { [native code] }"
  | .node _ => "[object Object]"
  | .obj _ => "[object Object]"
  | .arr items => join "," (itemsText items)
termination_by structural v => v
/-- The strings `Array.prototype.join` makes of the items: `null` and `undefined` give `''`. -/
def itemsText : (items : List JsVal) → List String
  | [] => []
  | .undefined :: rest => "" :: itemsText rest
  | .null :: rest => "" :: itemsText rest
  | v :: rest => v.toText :: itemsText rest
termination_by structural items => items
end

/-- The property read `record[key]`: `undefined` for a missing field. -/
def getField (record : Record) (key : String) : JsVal :=
  (record.lookup key).getD .undefined

/-- The object `{ ...record, [key]: value }`: an existing field keeps its place and takes the
new value, a new field is added last. -/
def setField (record : Record) (key : String) (value : JsVal) : Record :=
  if record.any (fun kv => kv.1 = key) then
    record.map (fun kv => if kv.1 = key then (key, value) else kv)
  else record ++ [(key, value)]

/-- The property read `value?.[key]`. -/
def optionalField (value : JsVal) (key : String) : JsVal :=
  match value with
  | .obj fields => getField fields key
  | _ => .undefined

/-- The expression `a ?? b`. -/
def nullish (a b : JsVal) : JsVal :=
  if a.isNullish then b else a

/-- A `string | null` result as a `JsVal`. -/
def JsVal.ofText : Option String → JsVal
  | some s => .str s
  | none => .null

/-- The value of a `startIndex` destructured with the default `null`:
`const { startIndex = null } = el`. -/
def JsVal.ofStartIndex : Offset → JsVal
  | .undefined => .null
  | .null => .null
  | .num n => .num n

/-- The request descriptor: `mobile` and `locale`, each possibly absent. -/
structure Request where
  mobile : Option Bool := none
  locale : Option String := none

/-- The object threaded through the result pipeline once the element is wrapped and the common
properties are parsed. -/
structure ResultObject where
  element : List Node
  request : Request
  parsed : Record

/-- The functions and the constant that `resultItemParser.js` imports from modules outside this
development: the feature parsers, `isKnowledgePanelEntry` (here called with the wrapped element)
and `GOOGLE_FEATURE_URL`. -/
structure Collaborators where
  isKnowledgePanelEntry : List Node → JsVal
  parseAnswerBox : List Node → JsVal
  parseNewsPack : List Node → JsVal
  parseImagePack : List Node → JsVal
  parseVideoPack : List Node → JsVal
  parseEventPack : List Node → JsVal
  parseFlightBox : List Node → JsVal
  parseJobPack : List Node → JsVal
  parseSalaryPack : List Node → JsVal
  parseLocalPack : List Node → Option String → JsVal
  parseHotelPack : List Node → JsVal
  parsePeopleAlsoAsk : List Node → JsVal
  parseRichContent : List Node → JsVal
  googleFeatureUrl : String

/-- The utility `pipe(...fns)(initialValue)`: `fns.reduce((acc, fn) => fn(acc), initialValue)`. -/
def pipe {α : Type} (fns : List (α → α)) (initialValue : α) : α :=
  fns.foldl (fun acc fn => fn acc) initialValue

/-- The function `addAnswerBox`. -/
def addAnswerBox (c : Collaborators) (resultObject : ResultObject) : ResultObject :=
  let answerBox := c.parseAnswerBox resultObject.element
  let url := nullish (optionalField answerBox "url") (getField resultObject.parsed "url")
  { resultObject with
    parsed := setField (setField resultObject.parsed "url" url) "answerBox" answerBox }

/-- The function `addNewsPack`. -/
def addNewsPack (c : Collaborators) (resultObject : ResultObject) : ResultObject :=
  { resultObject with
    parsed := setField resultObject.parsed "newsPack" (c.parseNewsPack resultObject.element) }

/-- The function `addImagePack`. -/
def addImagePack (c : Collaborators) (resultObject : ResultObject) : ResultObject :=
  { resultObject with
    parsed := setField resultObject.parsed "imagePack" (c.parseImagePack resultObject.element) }

/-- The function `addVideoPack`. -/
def addVideoPack (c : Collaborators) (resultObject : ResultObject) : ResultObject :=
  { resultObject with
    parsed := setField resultObject.parsed "videoPack" (c.parseVideoPack resultObject.element) }

/-- The function `addEventPack`. -/
def addEventPack (c : Collaborators) (resultObject : ResultObject) : ResultObject :=
  { resultObject with
    parsed := setField resultObject.parsed "eventPack" (c.parseEventPack resultObject.element) }

/-- The function `addFlightBox`. -/
def addFlightBox (c : Collaborators) (resultObject : ResultObject) : ResultObject :=
  { resultObject with
    parsed := setField resultObject.parsed "flightBox" (c.parseFlightBox resultObject.element) }

/-- The function `addJobPack`. -/
def addJobPack (c : Collaborators) (resultObject : ResultObject) : ResultObject :=
  { resultObject with
    parsed := setField resultObject.parsed "jobPack" (c.parseJobPack resultObject.element) }

/-- The function `addSalaryPack`. -/
def addSalaryPack (c : Collaborators) (resultObject : ResultObject) : ResultObject :=
  { resultObject with
    parsed := setField resultObject.parsed "salaryPack" (c.parseSalaryPack resultObject.element) }

/-- The function `addLocalPack`: the parser also receives `{ locale: request.locale }`. -/
def addLocalPack (c : Collaborators) (resultObject : ResultObject) : ResultObject :=
  { resultObject with
    parsed := setField resultObject.parsed "localPack"
      (c.parseLocalPack resultObject.element resultObject.request.locale) }

/-- The function `addHotelPack`. -/
def addHotelPack (c : Collaborators) (resultObject : ResultObject) : ResultObject :=
  { resultObject with
    parsed := setField resultObject.parsed "hotelPack" (c.parseHotelPack resultObject.element) }

/-- The function `addPeopleAlsoAsk`. -/
def addPeopleAlsoAsk (c : Collaborators) (resultObject : ResultObject) : ResultObject :=
  { resultObject with
    parsed := setField resultObject.parsed "peopleAlsoAsk"
      (c.parsePeopleAlsoAsk resultObject.element) }

/-- The function `addHasThumbnails`. -/
def addHasThumbnails (engine : Query → Elem → List Node) (resultObject : ResultObject) :
    ResultObject :=
  let hasThumbnail :=
    decide ((select (singleQuery engine) (.single (.css "g-img.BA0A6c > img.rISBZc"))
      (.list resultObject.element)).length ≠ 0)
  let hasVideoThumbnail :=
    decide ((select (singleQuery engine)
      (.alts [.css "div.Woharf.LQFTgb", .css "div.WfVh8d.Lw2oL", .css "span.vdur",
        .css "div.OIL2le"])
      (.list resultObject.element)).length ≠ 0)
  { resultObject with
    parsed := setField (setField resultObject.parsed "hasThumbnail" (.bool hasThumbnail))
      "hasVideoThumbnail" (.bool hasVideoThumbnail) }

/-- The function `addOrganicRichContent`. -/
def addOrganicRichContent (c : Collaborators) (resultObject : ResultObject) : ResultObject :=
  { resultObject with
    parsed := setField resultObject.parsed "richContent"
      (c.parseRichContent resultObject.element) }

/-- The function `updateKnowledgePanelTitle`. -/
def updateKnowledgePanelTitle (resultObject : ResultObject) : ResultObject :=
  let isMobile := resultObject.request.mobile.getD false
  if isMobile && (getField resultObject.parsed "isKnowledgeCard").truthy then
    let title :=
      if (getField resultObject.parsed "title").truthy then
        JsVal.str ((getField resultObject.parsed "title").toText ++ " (Knowledge Card)")
      else JsVal.str "Knowledge Card"
    { resultObject with parsed := setField resultObject.parsed "title" title }
  else resultObject

/-- The function `setMetaData`; `startIndexOf` reads the `startIndex` property of a node, and
an empty element array gives the default `{}`. -/
def setMetaData (startIndexOf : Node → Offset) (resultObject : ResultObject) : ResultObject :=
  let startIndex :=
    match resultObject.element.head? with
    | some unwrappedElement => JsVal.ofStartIndex (startIndexOf unwrappedElement)
    | none => JsVal.null
  let meta : JsVal := .obj [("type", .str "organic"), ("startIndex", startIndex)]
  { resultObject with parsed := setField resultObject.parsed "_meta" meta }

/-- The negation `!text` of a `string | null` value. -/
def textFalsy : Option String → Bool
  | some s => s = ""
  | none => true

/-- The function `checkIfEmptyResult`: `null` (here `none`) or the parsed record. -/
def checkIfEmptyResult (resultObject : ResultObject) : Option Record :=
  if !(getField resultObject.parsed "title").truthy
      && !(getField resultObject.parsed "description").truthy
      && textFalsy (getText (.list resultObject.element)) then none
  else some resultObject.parsed

/-- The steps of `parseResultItem` from `addAnswerBox` through `setMetaData`, in their order. -/
def resultSteps (c : Collaborators) (engine : Query → Elem → List Node)
    (startIndexOf : Node → Offset) : List (ResultObject → ResultObject) :=
  [addAnswerBox c, addNewsPack c, addImagePack c, addVideoPack c, addEventPack c,
   addFlightBox c, addJobPack c, addSalaryPack c, addLocalPack c, addHotelPack c,
   addPeopleAlsoAsk c, addHasThumbnails engine, addOrganicRichContent c,
   updateKnowledgePanelTitle, setMetaData startIndexOf]

/-- The steps of `parseResultItem` that add the field of a feature: `addAnswerBox` through
`addOrganicRichContent`. -/
def featureSteps (c : Collaborators) (engine : Query → Elem → List Node) :
    List (ResultObject → ResultObject) :=
  [addAnswerBox c, addNewsPack c, addImagePack c, addVideoPack c, addEventPack c,
   addFlightBox c, addJobPack c, addSalaryPack c, addLocalPack c, addHotelPack c,
   addPeopleAlsoAsk c, addHasThumbnails engine, addOrganicRichContent c]

/-- The field names the feature steps assign. -/
def featureKeys : List String :=
  ["url", "answerBox", "newsPack", "imagePack", "videoPack", "eventPack", "flightBox",
   "jobPack", "salaryPack", "localPack", "hotelPack", "peopleAlsoAsk", "hasThumbnail",
   "hasVideoThumbnail", "richContent"]

/-- The field names of a record. -/
def fieldNames (record : Record) : List String :=
  record.map Prod.fst

/-- A step result that keeps the element set and the request of the context it was given, and
every field name of its parsed record. -/
def KeepsContext (before after : ResultObject) : Prop :=
  after.element = before.element ∧ after.request = before.request ∧
  ∀ key ∈ fieldNames before.parsed, key ∈ fieldNames after.parsed

/-! ## The common properties of a result (`resultItemParser.js`) -/

/-- The text that is left when the first occurrence of `pattern` is removed, on characters. -/
def removeFirstChars (pattern : List Char) : List Char → List Char
  | [] => []
  | c :: cs =>
      if pattern.isPrefixOf (c :: cs) then (c :: cs).drop pattern.length
      else c :: removeFirstChars pattern cs

/-- The call `text.replace(pattern, '')` with a string pattern: the first occurrence of the
pattern is removed. -/
def replaceFirst (text pattern : String) : String :=
  ⟨removeFirstChars pattern.data text.data⟩

/-- The string a template literal makes of a `string | null` value. -/
def templateOfText : Option String → String
  | some s => s
  | none => "null"

/-- The first element of an array, as destructured by `const [first] = array`. -/
def firstOf (array : List Node) : Elem :=
  match array.head? with
  | some first => .node first
  | none => .undefined

/-- What `parseDescription` returns: `{ base, prefix }`. -/
structure Description where
  base : Option String
  prefixText : Option String

/-- The constant `query` of `parseDescription`. -/
def descriptionQuery : List Selector :=
  [.css "div.LGOjhe span.e24Kjd", .css "div.BmP5tf div.MUxGbd", .css "div.IsZvec span.aCOpRe",
   .css "div.s > div > span.st"]

/-- The constant `prefixQuery` of `parseDescription`. -/
def prefixQuery : List Selector :=
  [.css "span.MUxGbd", .css "span.f"]

/-- The function `parseDescription(element)`. -/
def parseDescription (engine : Query → Elem → List Node) (element : Elem) : Description :=
  let descriptionElement :=
    firstOf (select (singleQuery engine) (.alts descriptionQuery) element)
  match getText descriptionElement { separator := some "", trim := some false } with
  | some description =>
      let prefixElement :=
        firstOf (select (singleQuery engine) (.alts prefixQuery) descriptionElement)
      let prefixText := getText prefixElement
      let descriptionBase := replaceFirst description (templateOfText prefixText ++ " ")
      { base := some descriptionBase, prefixText := prefixText }
  | none => { base := none, prefixText := none }

/-- The constant `desktopQuery` of `parseTitle`. -/
def desktopTitleQuery : List Selector :=
  [.css "h3", .css "g-section-with-header g-link", .css "[role=\"heading\"]", .css "h2",
   .css "h1"]

/-- The constant `mobileQuery` of `parseTitle`. -/
def mobileTitleQuery : List Selector :=
  [.css "div#wp-tabs-container [data-attrid=title]", .css "div#wp-tabs-container h2",
   .css "g-card-section .zTpPx.ellip", .css "div.ifM9O h3", .css "[role=\"heading\"]",
   .css "g-card .aDrpNd", .css "h3", .css "h2", .css "h1"]

/-- The function `parseTitle(element, isMobile)`. -/
def parseTitle (engine : Query → Elem → List Node) (element : Elem) (isMobile : Bool) :
    Option String :=
  let titleElement :=
    firstOf (select (singleQuery engine)
      (.alts (if isMobile then mobileTitleQuery else desktopTitleQuery)) element)
  getText titleElement

/-- JavaScript truthiness of a value `parseByConfig` returns. -/
def Value.truthy : Value → Bool
  | .null => false
  | .str s => s ≠ ""
  | .num n => n ≠ 0
  | .inherited _ => true
  | .nodes _ => true
  | .records _ => true

mutual
/-- A value `parseByConfig` returns, as a `JsVal`. -/
def Value.toJs : (v : Value) → JsVal
  | .null => .null
  | .str s => .str s
  | .num n => .num n
  | .inherited name => .inherited name
  | .nodes l => .arr (l.map JsVal.node)
  | .records objs => .arr (objsToJs objs)
termination_by structural v => v
/-- A list of result objects as array items. -/
def objsToJs : (objs : List (List (String × Value))) → List JsVal
  | [] => []
  | obj :: rest => .obj (objToJs obj) :: objsToJs rest
termination_by structural objs => objs
/-- A result object as a record. -/
def objToJs : (obj : List (String × Value)) → List (String × JsVal)
  | [] => []
  | (key, v) :: rest => (key, v.toJs) :: objToJs rest
termination_by structural obj => obj
end

/-- The callback table for the configs of this module: none of them carries a `process`, so no
callback is ever called. -/
def noCallbacks : ProcId → Elem → Config → Except String Value :=
  fun _ _ _ => .ok .null

/-- The config of `parseUrl`. -/
def urlConfig : Config :=
  .mk (some (.alts [.css "a.C8nzq[href]", .css "div.r a[href]", .css "g-link > a[href]",
    .css "div.yuRUbf a[href]", .css "h3 > a"])) (some "href") none none none none none

/-- The function `parseUrl(element)`: `parseByConfig(config, element) || GOOGLE_FEATURE_URL`. -/
def parseUrl (c : Collaborators) (engine : Query → Elem → List Node) (element : Elem) :
    Except String JsVal :=
  match parseByConfig (singleQuery engine) noCallbacks (some urlConfig) element with
  | .ok v => .ok (if v.truthy then v.toJs else .str c.googleFeatureUrl)
  | .error e => .error e

/-- The function `parseResultDate(text)`. `dateMatch text` is the first match of the date
pattern in `text`, the `[match]` of `text.match(regex) || []`. -/
def parseResultDate (dateMatch : String → Option String) (text : Option String) : JsVal :=
  match text with
  | some t =>
      match dateMatch t with
      | some found => if found ≠ "" then .str found else .null
      | none => .null
  | none => .null

/-- The config of `getIsAmp`. -/
def ampConfig : Config :=
  .mk (some (.single (.css "a.C8nzq"))) (some "data-amp") none none none none none

/-- The function `getIsAmp(element)`. -/
def getIsAmp (engine : Query → Elem → List Node) (element : Elem) : Except String Bool :=
  match parseByConfig (singleQuery engine) noCallbacks (some ampConfig) element with
  | .ok v => .ok v.truthy
  | .error e => .error e

/-- The object `{ element, request }` that `parseResultItem` starts from. -/
structure RawResult where
  element : Node
  request : Request

/-- The object after `wrapElement`: the element is an array. -/
structure WrappedResult where
  element : List Node
  request : Request

/-- The function `wrapElement`. -/
def wrapElement (resultObject : RawResult) : WrappedResult :=
  { element := [resultObject.element], request := resultObject.request }

/-- The function `parseCommonProperties`. -/
def parseCommonProperties (c : Collaborators) (engine : Query → Elem → List Node)
    (dateMatch : String → Option String) (resultObject : WrappedResult) :
    Except String ResultObject :=
  let element := resultObject.element
  let isMobile := resultObject.request.mobile.getD false
  let description := parseDescription engine (.list element)
  let isKnowledgeCard := c.isKnowledgePanelEntry element
  let url : Except String JsVal :=
    if isKnowledgeCard.truthy then .ok (.str c.googleFeatureUrl)
    else parseUrl c engine (.list element)
  match url with
  | .error e => .error e
  | .ok url =>
      match getIsAmp engine (.list element) with
      | .error e => .error e
      | .ok isAmp =>
          .ok { element := element
                request := resultObject.request
                parsed :=
                  [("url", url),
                   ("title", JsVal.ofText (parseTitle engine (.list element) isMobile)),
                   ("description", JsVal.ofText description.base),
                   ("resultDate", parseResultDate dateMatch description.prefixText),
                   ("isAmp", .bool isAmp),
                   ("isKnowledgeCard", isKnowledgeCard)] }

/-- The function `parseResultItem(element, request)`: `wrapElement`, `parseCommonProperties`,
the steps from `addAnswerBox` through `setMetaData`, then `checkIfEmptyResult`. -/
def parseResultItem (c : Collaborators) (engine : Query → Elem → List Node)
    (startIndexOf : Node → Offset) (dateMatch : String → Option String)
    (element : Node) (request : Request) : Except String (Option Record) :=
  match parseCommonProperties c engine dateMatch
      (wrapElement { element := element, request := request }) with
  | .ok resultObject =>
      .ok (checkIfEmptyResult (pipe (resultSteps c engine startIndexOf) resultObject))
  | .error e => .error e

/-! ## The page (`googleParser.js`) -/

/-- A feature of the page as a parser returns it: an object, or `null`. -/
abbrev Feature := Option Record

/-- The step `.filter(isNotNullOrUndefined)`: the features that are objects. -/
def notNullFeatures (features : List Feature) : List Record :=
  features.filterMap id

/-- The call `text.includes(needle)`, on characters. -/
def includesChars (needle : List Char) : List Char → Bool
  | [] => needle.isPrefixOf []
  | c :: cs => needle.isPrefixOf (c :: cs) || includesChars needle cs

/-- The call `text.includes(needle)`. -/
def jsIncludes (text needle : String) : Bool :=
  includesChars needle.data text.data

/-- The `startIndex` property of what `const [first] = array` gives. -/
def startIndexOfElem (startIndexOf : Node → Offset) : Elem → Offset
  | .node n => startIndexOf n
  | _ => .undefined

/-- The object `{ type, startIndex }` of a `_meta` field. -/
def metaOf (type : String) (startIndex : JsVal) : JsVal :=
  .obj [("type", .str type), ("startIndex", startIndex)]

/-- The function `isExpectedHtmlPlatform(document, request)`. -/
def isExpectedHtmlPlatform (engine : Query → Elem → List Node) (document : Elem)
    (request : Request) : Bool :=
  let isMobileRequest := request.mobile.getD false
  let desktopBody := firstOf (select (singleQuery engine) (.single (.css "body#gsr")) document)
  let isMobileDocument := !desktopBody.truthy
  isMobileDocument == isMobileRequest

/-- The function `parseAutoCorrectText(element)`. -/
def parseAutoCorrectText (engine : Query → Elem → List Node) (startIndexOf : Node → Offset)
    (element : Elem) : Feature :=
  let autoCorrectElement :=
    firstOf (select (singleQuery engine) (.single (.css "div#taw a#fprsl")) element)
  match getText autoCorrectElement { separator := some " " } with
  | some value =>
      if value ≠ "" then
        some [("_meta", metaOf "autoCorrectText"
                (JsVal.ofStartIndex (startIndexOfElem startIndexOf autoCorrectElement))),
              ("value", .str value)]
      else none
  | none => none

/-- The function `parseDidYouMeanText(element)`. -/
def parseDidYouMeanText (engine : Query → Elem → List Node) (startIndexOf : Node → Offset)
    (element : Elem) : Feature :=
  let featureElement :=
    firstOf (select (singleQuery engine)
      (.single (.css "div#taw p.gqLncc.card-section a.gL9Hy")) element)
  match getText featureElement { separator := some " " } with
  | some value =>
      if value ≠ "" then
        some [("_meta", metaOf "didYouMeanText"
                (JsVal.ofStartIndex (startIndexOfElem startIndexOf featureElement))),
              ("value", .str value)]
      else none
  | none => none

/-- The function `parseRelatedSearches(element)`. -/
def parseRelatedSearches (engine : Query → Elem → List Node) (startIndexOf : Node → Offset)
    (element : Elem) : Feature :=
  let relatedItemElements :=
    select (singleQuery engine)
      (.alts [.css "div#brs p.nVcaUb a", .css "div#bres div.DExtrc a.F3dFTe div.s75CSd",
        .css "div#bres a.k8XOCe div.s75CSd"]) element
  if relatedItemElements.length ≠ 0 then
    let startIndex := JsVal.ofStartIndex (startIndexOfElem startIndexOf (firstOf relatedItemElements))
    let items :=
      relatedItemElements.map
        (fun el => JsVal.ofText (getText (.node el) { separator := some " " }))
    some [("_meta", metaOf "relatedSearches" startIndex), ("items", .arr items)]
  else none

/-- The reducer of `parseInvalidSearch`. -/
def invalidSearchStep (startIndexOf : Node → Offset) (acc : Feature) (el : Node) : Feature :=
  let text := (getText (.node el)).getD ""
  let isInvalidSearch := jsIncludes text "did not match any documents"
  let startIndex := JsVal.ofStartIndex (startIndexOf el)
  let metaData := metaOf "NoMatchingSearchResults" startIndex
  if acc.isNone && isInvalidSearch then some [("_meta", metaData), ("value", .str text)]
  else none

/-- The function `parseInvalidSearch(element)`. -/
def parseInvalidSearch (engine : Query → Elem → List Node) (startIndexOf : Node → Offset)
    (element : Elem) : Feature :=
  let topStuffElements :=
    select (singleQuery engine) (.single (.css "div#topstuff [role=heading]")) element
  topStuffElements.foldl (invalidSearchStep startIndexOf) none

/-- A decimal digit as a number. -/
def digitValue (c : Char) : Nat :=
  c.toNat - '0'.toNat

/-- The number `parseInt(count, 10)` of a string of decimal digits (exact below `2^53`). -/
def parseDigits (count : List Char) : Nat :=
  count.foldl (fun n c => 10 * n + digitValue c) 0

/-- The match `text.replace(/[,.]/g, '').match(/[0-9]+/)`: the first run of digits once commas
and full stops are removed, if there is one. -/
def firstDigits (text : String) : Option (List Char) :=
  let stripped := text.data.filter (fun c => c ≠ ',' && c ≠ '.')
  let run := (stripped.dropWhile (fun c => !c.isDigit)).takeWhile Char.isDigit
  if run.length ≠ 0 then some run else none

/-- The function `parseTotalResultsCount(element)`. -/
def parseTotalResultsCount (engine : Query → Elem → List Node) (startIndexOf : Node → Offset)
    (element : Elem) : Feature :=
  let resultCountElement :=
    firstOf (select (singleQuery engine) (.single (.css "div#result-stats")) element)
  let resultsText := (getText resultCountElement).getD ""
  match firstDigits resultsText with
  | some count =>
      let value : JsVal :=
        if parseDigits count ≠ 0 then .num (parseDigits count) else .null
      some [("_meta", metaOf "totalSearchResults"
              (JsVal.ofStartIndex (startIndexOfElem startIndexOf resultCountElement))),
            ("value", value)]
  | none => none

/-- The fields `{ ...value }` copies from a `_meta` value: those of an object, the items of an
array and the characters of a string under their indices, nothing otherwise. -/
def spreadFields : JsVal → Record
  | .obj fields => fields
  | .arr items => items.enum.map (fun iv => (toString iv.1, iv.2))
  | .str s => s.data.enum.map (fun ic => (toString ic.1, JsVal.str ic.2.toString))
  | _ => []

/-- The function `setColumnNumber(columnNumber)` applied to `parsedObject`. -/
def setColumnNumber (columnNumber : Int) (parsedObject : Record) : Record :=
  let metaValue :=
    match getField parsedObject "_meta" with
    | .undefined => JsVal.obj []
    | v => v
  let metadata := setField (spreadFields metaValue) "column" (.num columnNumber)
  setField parsedObject "_meta" (.obj metadata)

/-- The value `record._meta.column`. -/
def columnOf (record : Record) : JsVal :=
  optionalField (getField record "_meta") "column"

/-- The parsers and values that `googleParser.js` takes from outside this development: the page
feature parsers, `isKnowledgePanelEntry` as `every` calls it, `parseDOM`, the identity and the
offsets of the nodes, the date pattern, `Date.now()` and `resultFormatV1.format`. -/
structure Page where
  parseAds : Elem → Option (List Feature)
  parseLocalServiceAd : Elem → Option (List Feature)
  parseShoppingBox : Elem → Option (List Feature)
  parseKnowledgePanel : Elem → Feature
  isKnowledgePanelContainer : Node → Nat → List Node → Bool
  parseDOM : String → List Node
  refOf : Node → Ref
  heap : Heap
  dateMatch : String → Option String
  now : Nat
  format : List Record → Nat → Request → JsVal

/-- The `startIndex` property of a node of the page. -/
def Page.startIndexOf (page : Page) (n : Node) : Offset :=
  (page.heap (page.refOf n)).startIndex

/-- The function `flatten(acc, array)` on the arrays of result elements. -/
def flatten (acc : List Node) (array : List Node) : List Node :=
  acc ++ array

/-- The function `parseSearchResultFeatures(element, request)`. The elements are nodes, so
`.filter(isNotNullOrUndefined)` keeps them all. -/
def parseSearchResultFeatures (c : Collaborators) (page : Page)
    (engine : Query → Elem → List Node) (element : Elem) (request : Request) :
    Except String (List Feature) :=
  let isMobile := request.mobile.getD false
  let candidates :=
    ((getContainers engine page.isKnowledgePanelContainer element).map
      (getFnGetResultElements engine isMobile)).foldl flatten []
  let unique :=
    arrayFilter
      (fun el index all => filterUniqueElements page.heap (page.refOf el) index
        (all.map page.refOf))
      candidates
  unique.mapM (fun el => parseResultItem c engine page.startIndexOf page.dateMatch el request)

/-- The function `parseBottomExtraFeatures(document)`. -/
def parseBottomExtraFeatures (page : Page) (engine : Query → Elem → List Node)
    (document : Elem) : List Feature :=
  let bottomExtrasContainer :=
    select (singleQuery engine) (.single (.css "div#botstuff")) document
  [parseRelatedSearches engine page.startIndexOf (.list bottomExtrasContainer)]

/-- The function `parseAppBarFeatures(document)`. -/
def parseAppBarFeatures (page : Page) (engine : Query → Elem → List Node)
    (document : Elem) : List Record :=
  let appbar := select (singleQuery engine) (.single (.css "div#appbar")) document
  let totalResults := parseTotalResultsCount engine page.startIndexOf (.list appbar)
  (notNullFeatures [totalResults]).map (setColumnNumber (-1))

/-- The function `parseColumn1(document, request)`. -/
def parseColumn1 (c : Collaborators) (page : Page) (engine : Query → Elem → List Node)
    (document : Elem) (request : Request) : Except String (List Record) :=
  let column1 := Elem.list (select (singleQuery engine) (.single (.css "div#center_col")) document)
  let adArray := (page.parseAds column1).getD []
  let localServiceAdArray := (page.parseLocalServiceAd column1).getD []
  let shoppingBoxArray := (page.parseShoppingBox column1).getD []
  match parseSearchResultFeatures c page engine column1 request with
  | .error e => .error e
  | .ok searchResultFeatures =>
      .ok ((notNullFeatures
        ([parseInvalidSearch engine page.startIndexOf column1,
          parseAutoCorrectText engine page.startIndexOf column1,
          parseDidYouMeanText engine page.startIndexOf column1]
          ++ adArray ++ localServiceAdArray ++ shoppingBoxArray
          ++ [page.parseKnowledgePanel column1]
          ++ searchResultFeatures
          ++ parseBottomExtraFeatures page engine column1)).map (setColumnNumber 1))

/-- The function `parseColumn2(document)`. -/
def parseColumn2 (page : Page) (engine : Query → Elem → List Node) (document : Elem) :
    List Record :=
  let column2 := Elem.list (select (singleQuery engine) (.single (.css "div#rhs")) document)
  let shoppingBoxArray := (page.parseShoppingBox column2).getD []
  let knowledgePanel := page.parseKnowledgePanel column2
  (notNullFeatures (shoppingBoxArray ++ [knowledgePanel])).map (setColumnNumber 2)

/-- The array `parsedFeatures` that `parse` assembles before formatting. -/
def assembleFeatures (c : Collaborators) (page : Page) (engine : Query → Elem → List Node)
    (document : Elem) (request : Request) : Except String (List Record) :=
  match parseColumn1 c page engine document request with
  | .error e => .error e
  | .ok column1 =>
      .ok (parseAppBarFeatures page engine document ++ column1
        ++ parseColumn2 page engine document)

/-- The message of the error `parse` throws on a platform mismatch. -/
def platformMismatch : String :=
  "HTML did not match requested user agent platform."

/-- The function `parse(html, request)`. -/
def parse (c : Collaborators) (page : Page) (engine : Query → Elem → List Node)
    (html : String) (request : Request) : Except String JsVal :=
  let document := Elem.list (page.parseDOM html)
  if !isExpectedHtmlPlatform engine document request then .error platformMismatch
  else
    match assembleFeatures c page engine document request with
    | .error e => .error e
    | .ok parsedFeatures => .ok (page.format parsedFeatures page.now request)

/-! ## Sample data used to instantiate the parameters -/

mutual
/-- The Tag nodes named `name` among a node and its descendants, in document order. -/
def tagsNamed (name : String) : Node → List Node
  | .text _ => []
  | .tag n attribs children =>
      (if n = name then [Node.tag n attribs children] else []) ++ tagsNamedList name children
  | .other _ _ _ => []
/-- The Tag nodes named `name` in a node list and below it. -/
def tagsNamedList (name : String) : List Node → List Node
  | [] => []
  | n :: rest => tagsNamed name n ++ tagsNamedList name rest
end

/-- A small selector engine: the selector string `name` matches the Tag nodes of that name,
among the descendants of a node, or among the nodes of a list and their descendants. -/
def selectByName : Selector → Elem → List Node
  | .css name, .node (.tag _ _ children) => tagsNamedList name children
  | .css name, .list l => tagsNamedList name l
  | _, _ => []

/-- A sample document: two groups of two padded texts. -/
def sampleDoc : List Node :=
  [.tag "div" []
    [.tag "div" [("class", "foo")] [.tag "span" [] [.text " foo1 "], .tag "span" [] [.text " foo2 "]],
     .tag "div" [("class", "bar")] [.tag "span" [] [.text " bar1 "], .tag "span" [] [.text " bar2 "]]]]

/-- A sample page: one `div` holding a heading and a link. -/
def samplePage : List Node :=
  [.tag "div" [("id", "main")]
    [.tag "h1" [] [.text "My Title"], .tag "a" [("href", "myhref.com")] [.text "link"]]]

/-- A properties object: a link address, a heading text, a text whose query matches nothing, a
`null` property and a `process` callback. -/
def sampleProperties : List (String × Option Config) :=
  [("url", some (.mk (some (.single (.css "a"))) (some "href") none none none none none)),
   ("title", some (.mk (some (.single (.css "h1"))) (some "text") none none none none none)),
   ("missing", some (.mk (some (.single (.css "h2"))) (some "text") none none none none none)),
   ("nothing", none),
   ("len", some (.mk none none none none none none (some 0)))]

/-- A config with `properties` and an `attribute`. -/
def sampleConfig : Config :=
  .mk (some (.single (.css "div"))) (some "text") none none none (some sampleProperties) none

/-- A config that carries a `process` callback next to a query, properties and an attribute. -/
def sampleProcessConfig : Config :=
  .mk (some (.single (.css "a"))) (some "href") none none none
    (some [("title", some (.mk (some (.single (.css "h1"))) (some "text") none none none none none))])
    (some 0)

/-- A config whose query matches nothing in the sample page. -/
def sampleMissingConfig : Config :=
  .mk (some (.single (.css "h2"))) (some "text") none none none none none

/-- A sample node list: a `div` with a valueless attribute and no `href`, then two links. -/
def sampleLinks : List Node :=
  [.tag "div" [("class", "my-class"), ("my-attrib", "")] [],
   .tag "a" [("href", "myhref.com"), ("class", "link")] [.text "link"],
   .tag "a" [("href", "yourhref"), ("class", "link")] [.text "link2"]]

/-- A config that asks for the text of the links, joined with `' - '`. -/
def sampleTextConfig : Config :=
  .mk (some (.single (.css "a"))) (some "text") (some " - ") none none none none

/-- A config that asks for the `href` of the links. -/
def sampleHrefConfig : Config :=
  .mk (some (.single (.css "a"))) (some "href") none none none none none

/-- A config with nested `properties` and no `process` anywhere. -/
def samplePlainConfig : Config :=
  .mk (some (.single (.css "div"))) none none none none
    (some [("url", some sampleHrefConfig), ("title", some sampleTextConfig),
           ("missing", some sampleMissingConfig), ("nothing", none)])
    none

/-- The Tag nodes among a node list. -/
def tagsOf : List Node → List Node
  | [] => []
  | .tag name attribs children :: rest => .tag name attribs children :: tagsOf rest
  | _ :: rest => tagsOf rest

/-- A small `css-select` stand-in for which every query matches the child Tags of a node, and
the Tags of a node list. -/
def sampleEngine : Query → Elem → List Node
  | _, .node (.tag _ _ children) => tagsOf children
  | _, .list l => tagsOf l
  | _, _ => []

/-- A container with two results. -/
def sampleResults : Node :=
  .tag "div" [] [.tag "div" [("class", "mnr-c xpd")] [.text "one"],
                 .tag "div" [("class", "mnr-c xpd")] [.text "two"]]

/-- A container without any element inside. -/
def sampleFeature : Node :=
  .tag "g-card" [] [.text "feature"]

/-- A page of two containers: the first wraps the results container and the feature container,
the second is the feature container. -/
def sampleContainers : List Node :=
  [.tag "div" [("id", "kp-wp-tab-overview")] [sampleResults, sampleFeature], sampleFeature]

/-- Collaborators that find no feature, except an answer box carrying a `url`; every element is
a knowledge-panel entry for them. -/
def sampleCollaborators : Collaborators where
  isKnowledgePanelEntry := fun _ => .bool true
  parseAnswerBox := fun _ => .obj [("url", .str "answer.example")]
  parseNewsPack := fun _ => .null
  parseImagePack := fun _ => .null
  parseVideoPack := fun _ => .null
  parseEventPack := fun _ => .null
  parseFlightBox := fun _ => .null
  parseJobPack := fun _ => .null
  parseSalaryPack := fun _ => .null
  parseLocalPack := fun _ _ => .null
  parseHotelPack := fun _ => .null
  parsePeopleAlsoAsk := fun _ => .null
  parseRichContent := fun _ => .null
  googleFeatureUrl := "https://www.google.com/search"

/-- A context of the result pipeline: a mobile request and a knowledge card with a title. -/
def sampleContext : ResultObject where
  element := samplePage
  request := { mobile := some true }
  parsed := [("url", .str "myhref.com"), ("title", .str "My Title"), ("description", .null),
    ("isKnowledgeCard", .bool true)]

/-- A context with no title, no description and no text in its element. -/
def sampleEmptyContext : ResultObject where
  element := [.tag "div" [] []]
  request := {}
  parsed := [("url", .str "myhref.com"), ("title", .null), ("description", .null)]

mutual
/-- The Tag nodes whose `match` attribute is `selector`, among a node and its descendants. -/
def markedWith (selector : String) : Node → List Node
  | .text _ => []
  | .tag name attribs children =>
      (if attribs.lookup "match" = some selector then [Node.tag name attribs children]
       else []) ++ markedWithList selector children
  | .other _ _ _ => []
/-- The Tag nodes whose `match` attribute is `selector`, in a node list and below it. -/
def markedWithList (selector : String) : List Node → List Node
  | [] => []
  | n :: rest => markedWith selector n ++ markedWithList selector rest
end

/-- A small `css-select` stand-in: a selector string matches the Tag nodes that carry it as
their `match` attribute, among the descendants of a node, or among the nodes of a list and
their descendants. -/
def markEngine : Query → Elem → List Node
  | .single (.css selector), .node (.tag _ _ children) => markedWithList selector children
  | .single (.css selector), .list l => markedWithList selector l
  | _, _ => []

/-- A small `css-select` stand-in for the result elements: a single selector string matches as
in `markEngine`, and every array of alternatives matches the Tag nodes marked `result` among
the descendants of a node. -/
def resultEngine : Query → Elem → List Node
  | .single (.css selector), .node (.tag _ _ children) => markedWithList selector children
  | .alts _, .node (.tag _ _ children) => markedWithList "result" children
  | _, _ => []

/-- A child of a `div.g` that holds an organic result and a site-links table. -/
def sampleComposite : Node :=
  .tag "div" [("match", "div.g > div")]
    [.tag "div" [("match", "div.tF2Cxc")] [.text "site"],
     .tag "table" [("match", "table.jmjoTe")] [.text "links"]]

/-- A child of a `div.g` that holds an organic result and no site-links table. -/
def sampleNoLinks : Node :=
  .tag "div" [("match", "div.g > div")] [.tag "div" [("match", "div.tF2Cxc")] [.text "bare"]]

/-- A plain organic result. -/
def samplePlainResult : Node :=
  .tag "div" [("match", "result")] [.text "plain"]

/-- A desktop container: a plain result first, then a child without site links, then a
composite with site links. -/
def sampleDesktopContainer : Node :=
  .tag "div" []
    [.tag "div" [("class", "g")] [samplePlainResult],
     .tag "div" [("class", "g")] [sampleNoLinks],
     .tag "div" [("class", "g")] [sampleComposite]]

/-- A desktop container that holds one composite with site links and nothing else. -/
def sampleLoneComposite : Node :=
  .tag "div" [] [.tag "div" [("class", "g")] [sampleComposite]]

/-- A result element whose description mentions `null` and has no description lead-in. -/
def sampleSnippet : Node :=
  .tag "div" [("class", "g")]
    [.tag "span" [("match", "div.IsZvec span.aCOpRe")]
      [.text "The value null is not an object"]]

/-- A result element with nothing inside. -/
def sampleBlank : Node :=
  .tag "div" [] []

/-- Two headings of the top-stuff region: the first reports that nothing matched, the second
introduces suggestions. -/
def sampleTopStuff : List Node :=
  [.tag "div" [("id", "topstuff")]
    [.tag "div" [("role", "heading"), ("match", "div#topstuff [role=heading]")]
      [.text "Your search - xyzzy - did not match any documents."],
     .tag "div" [("role", "heading"), ("match", "div#topstuff [role=heading]")]
      [.text "Suggestions:"]]]

/-- The same two headings in the other order. -/
def sampleTopStuffReversed : List Node :=
  [.tag "div" [("id", "topstuff")]
    [.tag "div" [("role", "heading"), ("match", "div#topstuff [role=heading]")]
      [.text "Suggestions:"],
     .tag "div" [("role", "heading"), ("match", "div#topstuff [role=heading]")]
      [.text "Your search - xyzzy - did not match any documents."]]]

/-- A knowledge panel record. -/
def samplePanel : Record :=
  [("_meta", .obj [("type", .str "knowledgePanel"), ("startIndex", .num 40)]),
   ("title", .str "Panel")]

/-- A `process` callback table: callback `0` returns the length of the text found. -/
def sampleRun : ProcId → Elem → Config → Except String Value
  | 0, element, _ =>
      match getText element with
      | some s => .ok (.num s.length)
      | none => .error "TypeError"
  | _, _, _ => .ok .null

/-- A heap with the three spans `[0,100]`, `[10,20]`, `[200,210]` at references 0, 1, 2, the
spans `[1,15]`, `[10,100]`, `[50,60]` at 3, 4, 5, and no offsets elsewhere. -/
def sampleHeap : Heap
  | 0 => ⟨.num 0, .num 100⟩
  | 1 => ⟨.num 10, .num 20⟩
  | 2 => ⟨.num 200, .num 210⟩
  | 3 => ⟨.num 1, .num 15⟩
  | 4 => ⟨.num 10, .num 100⟩
  | 5 => ⟨.num 50, .num 60⟩
  | _ => ⟨.undefined, .undefined⟩


/-- Page parameters: no ads, no shopping box, a knowledge panel in every column, a parser
that yields the sample page for any markup. -/
def samplePageParams : Page where
  parseAds := fun _ => none
  parseLocalServiceAd := fun _ => none
  parseShoppingBox := fun _ => none
  parseKnowledgePanel := fun _ => some samplePanel
  isKnowledgePanelContainer := fun _ _ _ => false
  parseDOM := fun _ => samplePage
  refOf := fun _ => 2
  heap := sampleHeap
  dateMatch := fun _ => none
  now := 0
  format := fun parsedFeatures _ _ => .arr (parsedFeatures.map JsVal.obj)

/-! ## Properties -/

/-! ### Strings and joins -/

theorem append_eq_empty_iff (a b : String) : a ++ b = "" ↔ a = "" ∧ b = "" := by
  constructor
  · intro h
    have hd := congrArg String.data h
    simp at hd
    exact ⟨String.ext hd.1, String.ext hd.2⟩
  · rintro ⟨rfl, rfl⟩
    rfl

theorem join_cons_of_ne_nil (s a : String) (l : List String) (h : l ≠ []) :
    join s (a :: l) = a ++ s ++ join s l := by
  cases l with
  | nil => exact absurd rfl h
  | cons b rest => rfl

theorem join_append (s : String) (l₁ l₂ : List String) (h₁ : l₁ ≠ []) (h₂ : l₂ ≠ []) :
    join s (l₁ ++ l₂) = join s l₁ ++ s ++ join s l₂ := by
  induction l₁ with
  | nil => exact absurd rfl h₁
  | cons a rest ih =>
    cases rest with
    | nil =>
      simp only [List.singleton_append]
      rw [join_cons_of_ne_nil s a l₂ h₂]
      rfl
    | cons b rest =>
      have hne : b :: rest ≠ [] := by simp
      have h := ih hne
      rw [List.cons_append, join_cons_of_ne_nil s a _ (by simp), h,
        join_cons_of_ne_nil s a _ hne]
      simp only [String.append_assoc]

theorem join_ne_empty (s : String) (l : List String) (hl : l ≠ [])
    (h : ∀ x ∈ l, x ≠ "") : join s l ≠ "" := by
  cases l with
  | nil => exact absurd rfl hl
  | cons a rest =>
    have ha : a ≠ "" := h a (by simp)
    cases rest with
    | nil => simpa [join] using ha
    | cons b rest =>
      rw [join_cons_of_ne_nil s a _ (by simp)]
      intro hcontra
      rw [append_eq_empty_iff, append_eq_empty_iff] at hcontra
      exact ha hcontra.1.1

/-! ### getText -/

theorem textPayloads_ne_empty (t : Bool) :
    (∀ n : Node, ∀ x ∈ textPayloads t n, x ≠ "") ∧
    (∀ l : List Node, ∀ x ∈ textPayloadsList t l, x ≠ "") := by
  have key : ∀ n : Node, ∀ x ∈ textPayloads t n, x ≠ "" := by
    intro n
    refine @Node.rec (fun n => ∀ x ∈ textPayloads t n, x ≠ "")
      (fun l => ∀ x ∈ textPayloadsList t l, x ≠ "") ?_ ?_ ?_ ?_ ?_ n
    · intro data x hx
      simp only [textPayloads] at hx
      split at hx
      · simp at hx
        subst hx
        assumption
      · simp at hx
    · intro name attribs children ih x hx
      simp only [textPayloads] at hx
      exact ih x hx
    · intro type attribs children _ x hx
      simp [textPayloads] at hx
    · intro x hx
      simp [textPayloadsList] at hx
    · intro head tail ih₁ ih₂ x hx
      simp only [textPayloadsList, List.mem_append] at hx
      rcases hx with hx | hx
      · exact ih₁ x hx
      · exact ih₂ x hx
  refine ⟨key, ?_⟩
  intro l
  induction l with
  | nil => intro x hx; simp [textPayloadsList] at hx
  | cons head tail ih =>
    intro x hx
    simp only [textPayloadsList, List.mem_append] at hx
    rcases hx with hx | hx
    · exact key head x hx
    · exact ih x hx

theorem expectedText_ne_empty (opts : Opts) (ps : List String) (h : ∀ x ∈ ps, x ≠ "")
    (j : String) (hj : expectedText opts ps = some j) : j ≠ "" := by
  unfold expectedText at hj
  split at hj
  · cases ps with
    | nil => simp at hj
    | cons a rest =>
      simp at hj
      subst hj
      exact h a (by simp)
  · split at hj
    · simp at hj
    · rename_i hne
      simp at hj
      subst hj
      exact join_ne_empty _ _ hne h

theorem expectedText_eq_none (opts : Opts) (ps : List String) (h : ∀ x ∈ ps, x ≠ "") :
    expectedText opts ps = none ↔ ps = [] := by
  unfold expectedText
  split
  · cases ps <;> simp
  · split <;> simp_all

theorem pushText_expected (opts : Opts) (ps : List String) (h : ∀ x ∈ ps, x ≠ "")
    (acc : List String) :
    pushText acc (expectedText opts ps) = acc ++ (expectedText opts ps).toList := by
  cases hj : expectedText opts ps with
  | none => simp [pushText]
  | some j =>
    have := expectedText_ne_empty opts ps h j hj
    simp [pushText, this]

/-- What `returnText` gives for a text array `L` that stands for the payload list `ps`. -/
theorem returnText_of_texts (opts : Opts) (L ps : List String)
    (hL : ∀ x ∈ L, x ≠ "") (hnil : L = [] ↔ ps = [])
    (hjoin : opts.shallowSearch = false → join opts.separator L = join opts.separator ps)
    (hhead : opts.shallowSearch = true → L.head? = ps.head?) :
    returnText opts L = expectedText opts ps := by
  unfold returnText expectedText
  cases hs : opts.shallowSearch with
  | true =>
    simp only [if_true]
    rw [← hhead hs]
    cases L with
    | nil => simp
    | cons a rest =>
      have := hL a (by simp)
      simp [this]
  | false =>
    simp only [Bool.false_eq_true, if_false]
    by_cases hps : ps = []
    · have hLnil := hnil.mpr hps
      subst hLnil
      simp [hps, join]
    · have hLne : L ≠ [] := fun h => hps (hnil.mp h)
      have hne := join_ne_empty opts.separator L hLne hL
      rw [hjoin hs] at hne ⊢
      simp [hps, hne]

/-- The accumulator invariant of `getArrayText` together with the value of `getText` on a node:
the reduce appends to the accumulator a list of non-empty texts that stands for the payloads
below the node list. -/
theorem getText_core (opts : Opts) :
    (∀ n : Node, ∀ acc, pushText acc (getTextNode opts n)
        = acc ++ (expectedText opts (textPayloads opts.trim n)).toList) ∧
    (∀ l : List Node, ∃ L : List String,
        (∀ acc, getArrayTextFrom opts acc l = acc ++ L) ∧
        (∀ x ∈ L, x ≠ "") ∧
        (L = [] ↔ textPayloadsList opts.trim l = []) ∧
        (opts.shallowSearch = false →
          join opts.separator L = join opts.separator (textPayloadsList opts.trim l)) ∧
        (opts.shallowSearch = true → L.head? = (textPayloadsList opts.trim l).head?)) := by
  have hpay := textPayloads_ne_empty opts.trim
  have step : ∀ (head : Node) (tail : List Node),
      (∀ acc, pushText acc (getTextNode opts head)
        = acc ++ (expectedText opts (textPayloads opts.trim head)).toList) →
      (∃ L : List String,
        (∀ acc, getArrayTextFrom opts acc tail = acc ++ L) ∧
        (∀ x ∈ L, x ≠ "") ∧
        (L = [] ↔ textPayloadsList opts.trim tail = []) ∧
        (opts.shallowSearch = false →
          join opts.separator L = join opts.separator (textPayloadsList opts.trim tail)) ∧
        (opts.shallowSearch = true → L.head? = (textPayloadsList opts.trim tail).head?)) →
      (∃ L : List String,
        (∀ acc, getArrayTextFrom opts acc (head :: tail) = acc ++ L) ∧
        (∀ x ∈ L, x ≠ "") ∧
        (L = [] ↔ textPayloadsList opts.trim (head :: tail) = []) ∧
        (opts.shallowSearch = false →
          join opts.separator L
            = join opts.separator (textPayloadsList opts.trim (head :: tail))) ∧
        (opts.shallowSearch = true →
          L.head? = (textPayloadsList opts.trim (head :: tail)).head?)) := by
    intro head tail ih₁ ih₂
    obtain ⟨L', hacc, hne, hnil, hjoin, hhead⟩ := ih₂
    have hph := hpay.1 head
    refine ⟨(expectedText opts (textPayloads opts.trim head)).toList ++ L', ?_, ?_, ?_, ?_, ?_⟩
    · intro acc
      simp only [getArrayTextFrom]
      rw [ih₁, hacc, List.append_assoc]
    · intro x hx
      rw [List.mem_append] at hx
      rcases hx with hx | hx
      · rw [Option.mem_toList] at hx
        exact expectedText_ne_empty opts _ hph x hx
      · exact hne x hx
    · simp only [textPayloadsList, List.append_eq_nil, hnil]
      constructor
      · rintro ⟨h₁, h₂⟩
        refine ⟨?_, h₂⟩
        rw [← expectedText_eq_none opts _ hph]
        cases h : expectedText opts (textPayloads opts.trim head) with
        | none => rfl
        | some j => rw [h] at h₁; simp at h₁
      · rintro ⟨h₁, h₂⟩
        refine ⟨?_, h₂⟩
        rw [(expectedText_eq_none opts _ hph).mpr h₁]
        rfl
    · intro hs
      have hj := hjoin hs
      simp only [textPayloadsList]
      by_cases hp : textPayloads opts.trim head = []
      · simp [expectedText, hs, hp, hj]
      · have he : expectedText opts (textPayloads opts.trim head)
            = some (join opts.separator (textPayloads opts.trim head)) := by
          simp [expectedText, hs, hp]
        rw [he]
        by_cases hL : L' = []
        · have := hnil.mp hL
          simp [hL, this, join]
        · have hq : textPayloadsList opts.trim tail ≠ [] := fun h => hL (hnil.mpr h)
          rw [join_append _ _ _ hp hq, ← hj]
          simp only [Option.toList_some, List.singleton_append]
          rw [join_cons_of_ne_nil _ _ _ hL]
    · intro hs
      have hh := hhead hs
      simp only [textPayloadsList, List.head?_append, hh]
      congr 1
      cases hp : textPayloads opts.trim head <;> simp [expectedText, hs]
  have key : ∀ n : Node, ∀ acc, pushText acc (getTextNode opts n)
        = acc ++ (expectedText opts (textPayloads opts.trim n)).toList := by
    intro n
    refine @Node.rec
      (fun n => ∀ acc, pushText acc (getTextNode opts n)
        = acc ++ (expectedText opts (textPayloads opts.trim n)).toList)
      (fun l => ∃ L : List String,
        (∀ acc, getArrayTextFrom opts acc l = acc ++ L) ∧
        (∀ x ∈ L, x ≠ "") ∧
        (L = [] ↔ textPayloadsList opts.trim l = []) ∧
        (opts.shallowSearch = false →
          join opts.separator L = join opts.separator (textPayloadsList opts.trim l)) ∧
        (opts.shallowSearch = true → L.head? = (textPayloadsList opts.trim l).head?))
      ?_ ?_ ?_ ?_ step n
    · intro data acc
      simp only [getTextNode, textPayloads, payloadOf, pushText, expectedText]
      by_cases hd : (if opts.trim = true then jsTrim data else data) = ""
      · cases hs : opts.shallowSearch <;> simp [hd]
      · cases hs : opts.shallowSearch <;> simp [hd, join]
    · intro name attribs children ih acc
      obtain ⟨L, hacc, hne, hnil, hjoin, hhead⟩ := ih
      have hL : getArrayTextFrom opts [] children = L := by simpa using hacc []
      simp only [getTextNode, textPayloads, hL]
      rw [returnText_of_texts opts L _ hne hnil hjoin hhead]
      exact pushText_expected opts _ (hpay.2 children) acc
    · intro type attribs children _ acc
      cases hs : opts.shallowSearch <;> simp [getTextNode, textPayloads, pushText, expectedText, hs]
    · exact ⟨[], by simp [getArrayTextFrom], by simp, by simp [textPayloadsList],
        by simp [textPayloadsList], by simp [textPayloadsList]⟩
  refine ⟨key, ?_⟩
  intro l
  induction l with
  | nil =>
    exact ⟨[], by simp [getArrayTextFrom], by simp, by simp [textPayloadsList],
      by simp [textPayloadsList], by simp [textPayloadsList]⟩
  | cons head tail ih => exact step head tail (key head) ih

/-- The array branch of `getText` returns the expected text of the payloads of the list. -/
theorem getTextWith_list (opts : Opts) (l : List Node) :
    getTextWith opts (.list l) = expectedText opts (textPayloadsList opts.trim l) := by
  obtain ⟨L, hacc, hne, hnil, hjoin, hhead⟩ := (getText_core opts).2 l
  have hL : getArrayTextFrom opts [] l = L := by simpa using hacc []
  simp only [getTextWith, getArrayText, hL]
  exact returnText_of_texts opts L _ hne hnil hjoin hhead

/-- A Tag node gives what its list of children gives. -/
theorem getTextWith_tag (opts : Opts) (name : String) (attribs : List (String × String))
    (children : List Node) :
    getTextWith opts (.node (.tag name attribs children)) = getTextWith opts (.list children) := by
  simp [getTextWith, getTextNode, getArrayText]

/-- The value of `getText` on any element, in terms of the payloads below it. -/
theorem getTextWith_tag_expected (opts : Opts) (name : String)
    (attribs : List (String × String)) (children : List Node) :
    getTextWith opts (.node (.tag name attribs children))
      = expectedText opts (textPayloadsList opts.trim children) := by
  rw [getTextWith_tag, getTextWith_list]

/-- C1: for every element `x` (a Tag node or a node list in particular), separator `s` and trim
flag `t`, when at least one text payload reachable from `x` through Tag children is non-empty,
`getText(x, {separator: s, trim: t, shallowSearch: false})` is the `s`-join, in document order,
of those payloads (trimmed when `t`), the empty ones left out; the list joined is the flattened
one, whatever the nesting; and `getText(x)` with no options is the call with `', '` and
`trim: true`. -/
theorem getText_join_payloads (x : Elem) (s : String) (t : Bool)
    (h : elemPayloads t x ≠ []) :
    getText x { separator := some s, shallowSearch := some false, trim := some t }
      = some (join s (elemPayloads t x)) ∧
    getText x
      = getText x { separator := some ", ", shallowSearch := some false, trim := some true } := by
  refine ⟨?_, rfl⟩
  cases x with
  | undefined => exact absurd rfl h
  | null => exact absurd rfl h
  | list l =>
    have hl : textPayloadsList t l ≠ [] := h
    show getTextWith ⟨s, false, t⟩ (.list l) = _
    rw [getTextWith_list]
    simp [expectedText, elemPayloads, hl]
  | node n =>
    cases n with
    | text data =>
      have hn : textPayloads t (.text data) ≠ [] := h
      simp only [textPayloads] at hn
      have hp : payloadOf t data ≠ "" := by
        intro hc
        simp [hc] at hn
      have hg : getTextWith ⟨s, false, t⟩ (.node (.text data)) = some (payloadOf t data) := rfl
      show getTextWith ⟨s, false, t⟩ (.node (.text data)) = _
      rw [hg]
      simp [elemPayloads, textPayloads, hp, join]
    | tag name attribs children =>
      have hl : textPayloadsList t children ≠ [] := h
      show getTextWith ⟨s, false, t⟩ (.node (.tag name attribs children)) = _
      rw [getTextWith_tag_expected]
      simp [expectedText, elemPayloads, textPayloads, hl]
    | other type attribs children => exact absurd rfl h

theorem getText_join_payloads_witness :
    elemPayloads false (.list sampleDoc) ≠ [] ∧
    (getText (.list sampleDoc)
        { separator := some "-", shallowSearch := some false, trim := some false }
      = some (join "-" (elemPayloads false (.list sampleDoc))) ∧
     getText (.list sampleDoc)
      = getText (.list sampleDoc)
          { separator := some ", ", shallowSearch := some false, trim := some true }) :=
  ⟨by decide, getText_join_payloads (.list sampleDoc) "-" false (by decide)⟩

/-- C9: for every node list and every Tag node, `getText` with `shallowSearch: true` (whatever
separator and trim flag are given; trim is on when none is given) returns the first text
payload in document order that is non-empty once trimmed, which is the head of the payload list
the non-shallow call joins, and `null` when there is no such payload. -/
theorem getText_shallow_first (sep : Option String) (t : Option Bool) :
    (∀ l : List Node,
      getText (.list l) { separator := sep, shallowSearch := some true, trim := t }
        = (elemPayloads (t.getD true) (.list l)).head?) ∧
    (∀ (name : String) (attribs : List (String × String)) (children : List Node),
      getText (.node (.tag name attribs children))
          { separator := sep, shallowSearch := some true, trim := t }
        = (elemPayloads (t.getD true) (.node (.tag name attribs children))).head?) := by
  constructor
  · intro l
    show getTextWith ⟨sep.getD ", ", true, t.getD true⟩ (.list l) = _
    rw [getTextWith_list]
    simp [expectedText, elemPayloads]
  · intro name attribs children
    show getTextWith ⟨sep.getD ", ", true, t.getD true⟩ (.node (.tag name attribs children)) = _
    rw [getTextWith_tag_expected]
    simp [expectedText, elemPayloads, textPayloads]

/-- C10, as stated, fails: a Text node whose payload is blank holds no non-empty payload, and
`getText` returns the empty string for it, not `null`. -/
theorem getText_blank_text_node :
    elemPayloads true (.node (.text " ")) = [] ∧ getText (.node (.text " ")) = some "" := by
  decide

/-- C10, amended: `getText` returns `null` for `null` and `undefined`, and for every node list
and every Tag node that holds no text payload that is non-empty after trimming; for a Text node
passed directly it returns the payload itself (trimmed when trim is on), which is the empty
string when the payload is blank. -/
theorem getText_null_when_no_text (o : Options) :
    getText .undefined o = none ∧ getText .null o = none ∧
    (∀ l : List Node, elemPayloads (mergeOpts o).trim (.list l) = [] →
      getText (.list l) o = none) ∧
    (∀ (name : String) (attribs : List (String × String)) (children : List Node),
      elemPayloads (mergeOpts o).trim (.node (.tag name attribs children)) = [] →
      getText (.node (.tag name attribs children)) o = none) ∧
    (∀ data : String,
      getText (.node (.text data)) o = some (payloadOf (mergeOpts o).trim data)) := by
  refine ⟨rfl, rfl, ?_, ?_, ?_⟩
  · intro l hl
    have hl' : textPayloadsList (mergeOpts o).trim l = [] := hl
    show getTextWith (mergeOpts o) (.list l) = none
    rw [getTextWith_list, hl']
    cases hs : (mergeOpts o).shallowSearch <;> simp [expectedText, hs]
  · intro name attribs children hl
    have hl' : textPayloadsList (mergeOpts o).trim children = [] := hl
    show getTextWith (mergeOpts o) (.node (.tag name attribs children)) = none
    rw [getTextWith_tag_expected, hl']
    cases hs : (mergeOpts o).shallowSearch <;> simp [expectedText, hs]
  · intro data
    rfl

theorem getText_null_when_no_text_witness :
    elemPayloads (mergeOpts {}).trim
        (.list [.tag "div" [] [.tag "span" [] [], .text "  "]]) = [] ∧
    getText (.list [.tag "div" [] [.tag "span" [] [], .text "  "]]) {} = none :=
  ⟨by decide, (getText_null_when_no_text {}).2.2.1 _ (by decide)⟩

/-! ### select -/

/-- The fold of `select` from an accumulator: a non-empty accumulator is kept, an empty one is
replaced by the matches of the first alternative that has any. -/
theorem select_foldl (selectAll : Selector → Elem → List Node) (e : Elem)
    (qs : List Selector) (acc : List Node) :
    qs.foldl (fun matched q => if matched.length = 0 then selectAll q e else matched) acc
      = if acc.length = 0 then
          ((qs.find? (fun q => decide ((selectAll q e).length ≠ 0))).map
            (fun q => selectAll q e)).getD []
        else acc := by
  induction qs generalizing acc with
  | nil =>
    by_cases h : acc.length = 0
    · have : acc = [] := List.length_eq_zero.mp h
      simp [this]
    · simp [h]
  | cons q rest ih =>
    rw [List.foldl_cons, ih]
    by_cases h : acc.length = 0
    · by_cases hq : (selectAll q e).length = 0
      · simp [h, hq, List.find?_cons]
      · simp [h, hq, List.find?_cons]
    · simp [h]

/-- C2: `select` with a list of alternatives returns the full match set of the first
alternative (lowest index) that has at least one match, and the empty list when none has;
nothing of a later alternative is merged in. A single query behaves as the one-element list
holding it. -/
theorem select_first_alternative (selectAll : Selector → Elem → List Node) (e : Elem) :
    (∀ qs : List Selector,
      select selectAll (.alts qs) e
        = ((qs.find? (fun q => decide ((selectAll q e).length ≠ 0))).map
            (fun q => selectAll q e)).getD []) ∧
    (∀ q : Selector, select selectAll (.single q) e = select selectAll (.alts [q]) e) := by
  constructor
  · intro qs
    simp only [select, Query.queries]
    rw [select_foldl]
    simp
  · intro q
    rfl

/-! ### parseByConfig -/

/-- The definition of `parseByConfig` on a config that is not `null`. -/
theorem parseByConfig_mk (selectAll : Selector → Elem → List Node)
    (run : ProcId → Elem → Config → Except String Value)
    (query : Option Query) (attr separator : Option String) (shallowSearch trim : Option Bool)
    (properties : Option (List (String × Option Config))) (process : Option ProcId)
    (element : Elem) :
    parseByConfig selectAll run
        (some (.mk query attr separator shallowSearch trim properties process)) element
      = if !element.truthy then .ok .null else
        match process with
        | some p =>
            run p element (.mk query attr separator shallowSearch trim properties process)
        | none =>
            if (foundSet selectAll query element).length = 0 then .ok .null else
            match properties with
            | some props =>
                ((foundSet selectAll query element).mapM
                  (fun e => propertiesReduce selectAll run props e [])).map Value.records
            | none =>
                match attr with
                | some a =>
                    if a = "text" then
                      .ok (Value.ofText (getText (.list (foundSet selectAll query element))
                        { separator := separator, shallowSearch := shallowSearch, trim := trim }))
                    else if a ≠ "" then
                      (getAttribute a (.list (foundSet selectAll query element))).map
                        Value.ofAttribute
                    else .ok (.nodes (foundSet selectAll query element))
                | none => .ok (.nodes (foundSet selectAll query element)) := by
  cases process <;> cases properties <;> rfl

/-- C3: for a config with a `process` callback and a truthy element, `parseByConfig` is the call
`config.process(element, config)`, on the original element and the config itself, whatever
query, properties and attribute the config carries. -/
theorem parseByConfig_process (selectAll : Selector → Elem → List Node)
    (run : ProcId → Elem → Config → Except String Value)
    (config : Config) (p : ProcId) (element : Elem)
    (hp : config.process = some p) (he : element.truthy = true) :
    parseByConfig selectAll run (some config) element = run p element config := by
  cases config with
  | mk query attr separator shallowSearch trim properties process =>
    simp only [Config.process] at hp
    rw [parseByConfig_mk, hp]
    simp [he]

theorem parseByConfig_process_witness :
    sampleProcessConfig.process = some 0 ∧ (Elem.list samplePage).truthy = true ∧
    parseByConfig selectByName sampleRun (some sampleProcessConfig) (.list samplePage)
      = sampleRun 0 (.list samplePage) sampleProcessConfig :=
  ⟨rfl, rfl, parseByConfig_process selectByName sampleRun sampleProcessConfig 0
    (.list samplePage) rfl rfl⟩

/-- C5: `parseByConfig` returns `null` when the config is falsy, when the element is falsy, and
when the config has no `process` and the working set is empty: a query that matches nothing, or
no query and the empty list as element. -/
theorem parseByConfig_null (selectAll : Selector → Elem → List Node)
    (run : ProcId → Elem → Config → Except String Value) :
    (∀ element, parseByConfig selectAll run none element = .ok .null) ∧
    (∀ config element, element.truthy = false →
      parseByConfig selectAll run config element = .ok .null) ∧
    (∀ config element, config.process = none →
      foundSet selectAll config.query element = [] →
      parseByConfig selectAll run (some config) element = .ok .null) ∧
    (∀ config q element, config.process = none → config.query = some q → q.truthy = true →
      select selectAll q element = [] →
      parseByConfig selectAll run (some config) element = .ok .null) ∧
    (∀ config, config.process = none → config.query = none →
      parseByConfig selectAll run (some config) (.list []) = .ok .null) := by
  have h3 : ∀ config element, config.process = none →
      foundSet selectAll config.query element = [] →
      parseByConfig selectAll run (some config) element = .ok .null := by
    intro config element hp hf
    cases config with
    | mk query attr separator shallowSearch trim properties process =>
      simp only [Config.process] at hp
      simp only [Config.query] at hf
      rw [parseByConfig_mk, hp]
      simp [hf]
  refine ⟨?_, ?_, h3, ?_, ?_⟩
  · intro element
    simp [parseByConfig]
  · intro config element he
    cases config with
    | none => simp [parseByConfig]
    | some config =>
      cases config with
      | mk query attr separator shallowSearch trim properties process =>
        rw [parseByConfig_mk]
        simp [he]
  · intro config q element hp hq ht hs
    apply h3 config element hp
    simp [foundSet, hq, Option.filter, ht, hs]
  · intro config hp hq
    apply h3 config _ hp
    simp [foundSet, hq, Option.filter]

theorem parseByConfig_null_witness :
    sampleMissingConfig.process = none ∧
    foundSet selectByName sampleMissingConfig.query (.list samplePage) = [] ∧
    parseByConfig selectByName sampleRun (some sampleMissingConfig) (.list samplePage)
      = .ok .null :=
  ⟨rfl, rfl, (parseByConfig_null selectByName sampleRun).2.2.1 sampleMissingConfig
    (.list samplePage) rfl rfl⟩

theorem propertiesReduce_nil (selectAll : Selector → Elem → List Node)
    (run : ProcId → Elem → Config → Except String Value) (element : Node) (acc : Obj) :
    propertiesReduce selectAll run [] element acc = .ok acc := by
  rw [propertiesReduce]

theorem propertiesReduce_cons (selectAll : Selector → Elem → List Node)
    (run : ProcId → Elem → Config → Except String Value) (key : String)
    (config : Option Config) (rest : List (String × Option Config)) (element : Node)
    (acc : Obj) :
    propertiesReduce selectAll run ((key, config) :: rest) element acc
      = match parseByConfig selectAll run config (.node element) with
        | .ok result => propertiesReduce selectAll run rest element (objSet acc key result)
        | .error e => .error e := by
  rw [propertiesReduce]

theorem objSet_of_fresh (acc : Obj) (key : String) (v : Value)
    (h : ∀ kv ∈ acc, kv.1 ≠ key) : objSet acc key v = acc ++ [(key, v)] := by
  unfold objSet
  have : acc.any (fun kv => decide (kv.1 = key)) = false := by
    rw [List.any_eq_false]
    intro kv hkv
    simpa using h kv hkv
  simp [this]

/-- A `mapM` in `Except` that succeeds pairs every input with its result. -/
theorem mapM_ok_forall₂ {α β ε : Type} (f : α → Except ε β) :
    ∀ (l : List α) (r : List β), l.mapM f = .ok r → List.Forall₂ (fun a b => f a = .ok b) l r := by
  intro l
  induction l with
  | nil =>
    intro r h
    rw [List.mapM_nil] at h
    cases h
    exact List.Forall₂.nil
  | cons a rest ih =>
    intro r h
    rw [List.mapM_cons] at h
    cases ha : f a with
    | error e =>
      rw [ha] at h
      cases h
    | ok b =>
      cases hr : rest.mapM f with
      | error e =>
        rw [ha, hr] at h
        cases h
      | ok bs =>
        rw [ha, hr] at h
        cases h
        exact List.Forall₂.cons ha (ih bs hr)

/-- A `mapM` in `Except` succeeds when every call does. -/
theorem mapM_ok_of_forall {α β ε : Type} (f : α → Except ε β) :
    ∀ l : List α, (∀ a ∈ l, ∃ b, f a = .ok b) → ∃ r, l.mapM f = .ok r := by
  intro l
  induction l with
  | nil =>
    intro _
    exact ⟨[], by rw [List.mapM_nil]; rfl⟩
  | cons a rest ih =>
    intro h
    obtain ⟨b, hb⟩ := h a (by simp)
    obtain ⟨bs, hbs⟩ := ih (fun x hx => h x (by simp [hx]))
    exact ⟨b :: bs, by rw [List.mapM_cons, hb, hbs]; rfl⟩

/-- With distinct keys the reduce over the property entries adds one entry per property, in
order, each holding what `parseByConfig` returns for that property on the element. -/
theorem propertiesReduce_eq_mapM (selectAll : Selector → Elem → List Node)
    (run : ProcId → Elem → Config → Except String Value) (element : Node) :
    ∀ (props : List (String × Option Config)) (acc : Obj),
      (props.map Prod.fst).Nodup →
      (∀ kc ∈ props, ∀ kv ∈ acc, kv.1 ≠ kc.1) →
      propertiesReduce selectAll run props element acc
        = (props.mapM (fun kc =>
            (parseByConfig selectAll run kc.2 (.node element)).map (fun v => (kc.1, v)))).map
            (fun kvs => acc ++ kvs) := by
  intro props
  induction props with
  | nil =>
    intro acc _ _
    rw [propertiesReduce_nil, List.mapM_nil]
    show Except.ok acc = Except.ok (acc ++ [])
    rw [List.append_nil]
  | cons kc rest ih =>
    intro acc hnodup hfresh
    obtain ⟨key, config⟩ := kc
    rw [propertiesReduce_cons, List.mapM_cons]
    simp only [List.map_cons, List.nodup_cons] at hnodup
    cases hc : parseByConfig selectAll run config (.node element) with
    | error e => rfl
    | ok result =>
      have hfr : ∀ kv ∈ acc, kv.1 ≠ key := fun kv hkv => hfresh (key, config) (by simp) kv hkv
      have hfresh' : ∀ kc ∈ rest, ∀ kv ∈ acc ++ [(key, result)], kv.1 ≠ kc.1 := by
        intro kc hkc kv hkv
        rw [List.mem_append] at hkv
        rcases hkv with hkv | hkv
        · exact hfresh kc (by simp [hkc]) kv hkv
        · simp at hkv
          subst hkv
          intro heq
          apply hnodup.1
          rw [List.mem_map]
          exact ⟨kc, hkc, heq.symm⟩
      show propertiesReduce selectAll run rest element (objSet acc key result) = _
      rw [objSet_of_fresh acc key result hfr, ih (acc ++ [(key, result)]) hnodup.2 hfresh']
      cases hr : rest.mapM (fun kc =>
          (parseByConfig selectAll run kc.2 (.node element)).map (fun v => (kc.1, v))) with
      | error e => rfl
      | ok kvs =>
        show Except.ok (acc ++ [(key, result)] ++ kvs) = Except.ok (acc ++ (key, result) :: kvs)
        rw [List.append_assoc, List.singleton_append]

/-- C4: for a config with `properties` and no `process`, and a truthy element whose working set
is non-empty, `parseByConfig` maps the working set, in order, to one object per element (a
list, also for a single match); each object has exactly the keys of `properties`, in their
order, the key `k` holding `parseByConfig(properties[k], thatElement)`; `attribute` plays no
part. The call throws exactly when one of the property calls does. -/
theorem parseByConfig_properties (selectAll : Selector → Elem → List Node)
    (run : ProcId → Elem → Config → Except String Value)
    (config : Config) (props : List (String × Option Config)) (element : Elem)
    (hproc : config.process = none) (hprops : config.properties = some props)
    (hkeys : (props.map Prod.fst).Nodup)
    (hel : element.truthy = true)
    (hfound : foundSet selectAll config.query element ≠ []) :
    parseByConfig selectAll run (some config) element
      = ((foundSet selectAll config.query element).mapM (fun e =>
          props.mapM (fun kc =>
            (parseByConfig selectAll run kc.2 (.node e)).map (fun v => (kc.1, v))))).map
          Value.records ∧
    (∀ v, parseByConfig selectAll run (some config) element = .ok v →
      ∃ objs : List Obj, v = .records objs ∧
        List.Forall₂ (fun e obj =>
          List.Forall₂ (fun kc kv => kv.1 = kc.1 ∧
            parseByConfig selectAll run kc.2 (.node e) = .ok kv.2) props obj)
          (foundSet selectAll config.query element) objs) ∧
    ((∀ e ∈ foundSet selectAll config.query element, ∀ kc ∈ props,
        ∃ r, parseByConfig selectAll run kc.2 (.node e) = .ok r) →
      ∃ objs : List Obj,
        parseByConfig selectAll run (some config) element = .ok (.records objs)) := by
  have heq : parseByConfig selectAll run (some config) element
      = ((foundSet selectAll config.query element).mapM (fun e =>
          props.mapM (fun kc =>
            (parseByConfig selectAll run kc.2 (.node e)).map (fun v => (kc.1, v))))).map
          Value.records := by
    cases config with
    | mk query attr separator shallowSearch trim properties process =>
      simp only [Config.process] at hproc
      simp only [Config.properties] at hprops
      simp only [Config.query] at hfound ⊢
      have hlen : (foundSet selectAll query element).length ≠ 0 := by
        intro h
        exact hfound (List.length_eq_zero.mp h)
      rw [parseByConfig_mk, hproc, hprops]
      simp only [hel, Bool.not_true, Bool.false_eq_true, if_false, hlen]
      congr 2
      funext e
      rw [propertiesReduce_eq_mapM selectAll run e props [] hkeys (by simp)]
      cases props.mapM (fun kc =>
          (parseByConfig selectAll run kc.2 (.node e)).map (fun v => (kc.1, v))) with
      | error err => rfl
      | ok kvs => rfl
  refine ⟨heq, ?_, ?_⟩
  rotate_left
  · intro hall
    rw [heq]
    have hobj : ∀ e ∈ foundSet selectAll config.query element, ∃ obj,
        props.mapM (fun kc =>
          (parseByConfig selectAll run kc.2 (.node e)).map (fun v => (kc.1, v))) = .ok obj := by
      intro e he
      apply mapM_ok_of_forall
      intro kc hkc
      obtain ⟨r, hr⟩ := hall e he kc hkc
      exact ⟨(kc.1, r), by rw [hr]; rfl⟩
    obtain ⟨objs, hobjs⟩ := mapM_ok_of_forall _ _ hobj
    exact ⟨objs, by rw [hobjs]; rfl⟩
  intro v hv
  rw [heq] at hv
  cases hm : (foundSet selectAll config.query element).mapM (fun e =>
      props.mapM (fun kc =>
        (parseByConfig selectAll run kc.2 (.node e)).map (fun v => (kc.1, v)))) with
  | error err =>
    rw [hm] at hv
    cases hv
  | ok objs =>
    rw [hm] at hv
    cases hv
    refine ⟨objs, rfl, ?_⟩
    refine (mapM_ok_forall₂ _ _ _ hm).imp ?_
    intro e obj hobj
    refine (mapM_ok_forall₂ _ _ _ hobj).imp ?_
    intro kc kv hkv
    cases hr : parseByConfig selectAll run kc.2 (.node e) with
    | error err =>
      rw [hr] at hkv
      cases hkv
    | ok r =>
      rw [hr] at hkv
      cases hkv
      exact ⟨rfl, rfl⟩

theorem parseByConfig_properties_witness :
    sampleConfig.process = none ∧
    sampleConfig.properties = some sampleProperties ∧
    (sampleProperties.map Prod.fst).Nodup ∧
    (Elem.list samplePage).truthy = true ∧
    foundSet selectByName sampleConfig.query (.list samplePage) ≠ [] ∧
    parseByConfig selectByName sampleRun (some sampleConfig) (.list samplePage)
      = .ok (.records [[("url", .str "myhref.com"), ("title", .str "My Title"),
          ("missing", .null), ("nothing", .null), ("len", .num 14)]]) ∧
    ∀ v, parseByConfig selectByName sampleRun (some sampleConfig) (.list samplePage) = .ok v →
      ∃ objs : List Obj, v = .records objs ∧
        List.Forall₂ (fun e obj =>
          List.Forall₂ (fun kc kv => kv.1 = kc.1 ∧
            parseByConfig selectByName sampleRun kc.2 (.node e) = .ok kv.2)
            sampleProperties obj)
          (foundSet selectByName sampleConfig.query (.list samplePage)) objs :=
  ⟨rfl, rfl, by decide, rfl, fun h => List.noConfusion h, rfl,
    (parseByConfig_properties selectByName sampleRun sampleConfig sampleProperties
      (.list samplePage) rfl rfl (by decide) rfl (fun h => List.noConfusion h)).2.1⟩

/-! ### filterUniqueElements -/

/-- An element kept by `array.filter(callback)` passed the callback at some index. -/
theorem mem_arrayFilterFrom {α : Type} (callback : α → Nat → List α → Bool) (array : List α)
    (x : α) : ∀ (l : List α) (index : Nat), x ∈ arrayFilterFrom callback array index l →
      ∃ k, callback x k array = true := by
  intro l
  induction l with
  | nil =>
    intro index h
    simp [arrayFilterFrom] at h
  | cons y rest ih =>
    intro index h
    simp only [arrayFilterFrom] at h
    split at h
    · rename_i hy
      rw [List.mem_cons] at h
      rcases h with h | h
      · subst h
        exact ⟨index, hy⟩
      · exact ih (index + 1) h
    · exact ih (index + 1) h

/-- An element kept by `array.filter(callback)` is an element of the part filtered. -/
theorem mem_of_mem_arrayFilterFrom {α : Type} (callback : α → Nat → List α → Bool)
    (array : List α) (x : α) : ∀ (l : List α) (index : Nat),
      x ∈ arrayFilterFrom callback array index l → x ∈ l := by
  intro l
  induction l with
  | nil =>
    intro index h
    simp [arrayFilterFrom] at h
  | cons y rest ih =>
    intro index h
    simp only [arrayFilterFrom] at h
    split at h
    · rw [List.mem_cons] at h
      rcases h with h | h
      · simp [h]
      · exact List.mem_cons_of_mem _ (ih (index + 1) h)
    · exact List.mem_cons_of_mem _ (ih (index + 1) h)

/-- What the callback tests: a truthy `startIndex`, no candidate containing the element, and
the index being that of the first occurrence. -/
theorem filterUniqueElements_iff (heap : Heap) (element : Ref) (index : Nat)
    (allResults : List Ref) :
    filterUniqueElements heap element index allResults = true ↔
      (heap element).startIndex.truthy = true ∧
      allResults.any (fun t => doesAContainB (heap t) (heap element)) = false ∧
      indexOf allResults element = (index : Int) := by
  unfold filterUniqueElements
  cases (heap element).startIndex.truthy <;>
    cases allResults.any (fun t => doesAContainB (heap t) (heap element)) <;> simp

/-- The first index of `x` in `pre ++ x :: rest` is the length of `pre` exactly when `x` does
not occur in `pre`. -/
theorem indexOf_append_self (pre rest : List Ref) (x : Ref) :
    indexOf (pre ++ x :: rest) x = (pre.length : Int) ↔ x ∉ pre := by
  have hmem : x ∈ pre ++ x :: rest := by simp
  unfold indexOf
  rw [if_pos hmem]
  constructor
  · intro h hx
    rw [List.indexOf_append_of_mem hx] at h
    have hlt := List.indexOf_lt_length.mpr hx
    omega
  · intro hx
    rw [List.indexOf_append_of_not_mem hx, List.indexOf_cons_self]
    simp

/-- The filter, started after the entries `pre`, keeps an element of the remaining entries that
passes the tests and does not occur in `pre`. -/
theorem mem_filterFrom_of_good (heap : Heap) (x : Ref) :
    ∀ (l pre : List Ref), x ∈ l → x ∉ pre →
      (heap x).startIndex.truthy = true →
      (pre ++ l).any (fun t => doesAContainB (heap t) (heap x)) = false →
      x ∈ arrayFilterFrom (filterUniqueElements heap) (pre ++ l) pre.length l := by
  intro l
  induction l with
  | nil =>
    intro pre h
    simp at h
  | cons y rest ih =>
    intro pre hx hpre htruthy hnest
    by_cases hy : y = x
    · subst hy
      have hcb : filterUniqueElements heap y pre.length (pre ++ y :: rest) = true := by
        rw [filterUniqueElements_iff]
        exact ⟨htruthy, hnest, (indexOf_append_self pre rest y).mpr hpre⟩
      simp [arrayFilterFrom, hcb]
    · have hx' : x ∈ rest := by
        rw [List.mem_cons] at hx
        rcases hx with hx | hx
        · exact absurd hx.symm hy
        · exact hx
      have hpre' : x ∉ pre ++ [y] := by
        simp only [List.mem_append, List.mem_singleton, not_or]
        exact ⟨hpre, fun h => hy h.symm⟩
      have hall : pre ++ y :: rest = (pre ++ [y]) ++ rest := by simp
      have hrec := ih (pre ++ [y]) hx' hpre' htruthy (by rw [← hall]; exact hnest)
      rw [← hall] at hrec
      simp only [List.length_append, List.length_singleton] at hrec
      simp only [arrayFilterFrom]
      split
      · exact List.mem_cons_of_mem _ hrec
      · exact hrec

/-- The filter, started after the entries `pre`, keeps no element twice and no element that
occurs in `pre`. -/
theorem nodup_filterFrom (heap : Heap) :
    ∀ (l pre : List Ref),
      (arrayFilterFrom (filterUniqueElements heap) (pre ++ l) pre.length l).Nodup ∧
      ∀ x ∈ arrayFilterFrom (filterUniqueElements heap) (pre ++ l) pre.length l, x ∉ pre := by
  intro l
  induction l with
  | nil =>
    intro pre
    simp [arrayFilterFrom]
  | cons y rest ih =>
    intro pre
    have hall : pre ++ y :: rest = (pre ++ [y]) ++ rest := by simp
    have hrec := ih (pre ++ [y])
    rw [← hall] at hrec
    simp only [List.length_append, List.length_singleton] at hrec
    obtain ⟨hnd, hnot⟩ := hrec
    have hnotpre : ∀ x ∈ arrayFilterFrom (filterUniqueElements heap) (pre ++ y :: rest)
        (pre.length + 1) rest, x ∉ pre ∧ x ≠ y := by
      intro x hx
      have := hnot x hx
      simp only [List.mem_append, List.mem_singleton, not_or] at this
      exact this
    simp only [arrayFilterFrom]
    split
    · rename_i hcb
      rw [filterUniqueElements_iff] at hcb
      have hy : y ∉ pre := (indexOf_append_self pre rest y).mp hcb.2.2
      refine ⟨List.nodup_cons.mpr ⟨fun hmem => (hnotpre y hmem).2 rfl, hnd⟩, ?_⟩
      intro x hx
      rw [List.mem_cons] at hx
      rcases hx with hx | hx
      · rw [hx]
        exact hy
      · exact (hnotpre x hx).1
    · exact ⟨hnd, fun x hx => (hnotpre x hx).1⟩

/-- The elements kept by the filter: the candidates with a truthy `startIndex` that no
candidate contains. -/
theorem mem_filterUnique_iff (heap : Heap) (candidates : List Ref) (x : Ref) :
    x ∈ filterUnique heap candidates ↔
      x ∈ candidates ∧ (heap x).startIndex.truthy = true ∧
      candidates.any (fun t => doesAContainB (heap t) (heap x)) = false := by
  constructor
  · intro h
    obtain ⟨k, hk⟩ :=
      mem_arrayFilterFrom (filterUniqueElements heap) candidates x candidates 0 h
    rw [filterUniqueElements_iff] at hk
    exact ⟨mem_of_mem_arrayFilterFrom _ _ x candidates 0 h, hk.1, hk.2.1⟩
  · rintro ⟨hmem, htruthy, hnest⟩
    exact mem_filterFrom_of_good heap x candidates [] hmem (by simp) htruthy hnest

/-- The filtered output holds no element twice. -/
theorem nodup_filterUnique (heap : Heap) (candidates : List Ref) :
    (filterUnique heap candidates).Nodup :=
  (nodup_filterFrom heap candidates []).1

/-- C6, as stated, fails on its own example: of the candidates with spans `[0,100]`, `[10,20]`
and `[200,210]` only the last is kept; the first, whose `startIndex` is `0`, is dropped by the
guard `!element.startIndex`. -/
theorem filterUnique_drops_zero_start :
    (sampleHeap 0).startIndex = .num 0 ∧ (sampleHeap 0).endIndex = .num 100 ∧
    (sampleHeap 1).startIndex = .num 10 ∧ (sampleHeap 1).endIndex = .num 20 ∧
    (sampleHeap 2).startIndex = .num 200 ∧ (sampleHeap 2).endIndex = .num 210 ∧
    filterUnique sampleHeap [0, 1, 2] = [2] := by
  decide

/-- C7: whenever an entry `A` of the candidate list has `A.startIndex < B.startIndex <
A.endIndex`, the element `B` is absent from the filtered output, whether or not `A` itself is
kept: the test runs against the whole candidate list. -/
theorem filterUnique_drops_nested (heap : Heap) (candidates : List Ref) (A B : Ref)
    (a b e : Int) (hA : A ∈ candidates)
    (hAs : (heap A).startIndex = .num a) (hAe : (heap A).endIndex = .num e)
    (hBs : (heap B).startIndex = .num b) (hab : a < b) (hbe : b < e) :
    B ∉ filterUnique heap candidates := by
  intro hB
  obtain ⟨k, hk⟩ := mem_arrayFilterFrom (filterUniqueElements heap) candidates B candidates 0 hB
  have hnest : candidates.any
      (fun testElement => doesAContainB (heap testElement) (heap B)) = true := by
    rw [List.any_eq_true]
    refine ⟨A, hA, ?_⟩
    simp [doesAContainB, jsGt, jsLt, Offset.toNumber, hAs, hAe, hBs, hab, hbe]
  unfold filterUniqueElements at hk
  simp [hnest] at hk

theorem filterUnique_drops_nested_witness :
    (4 ∈ [3, 4, 5] ∧ (sampleHeap 4).startIndex = .num 10 ∧ (sampleHeap 4).endIndex = .num 100 ∧
      (sampleHeap 5).startIndex = .num 50 ∧ (10 : Int) < 50 ∧ (50 : Int) < 100) ∧
    4 ∉ filterUnique sampleHeap [3, 4, 5] ∧
    5 ∉ filterUnique sampleHeap [3, 4, 5] :=
  ⟨by decide, by decide,
    filterUnique_drops_nested sampleHeap [3, 4, 5] 4 5 10 50 100 (by decide) rfl rfl rfl
      (by decide) (by decide)⟩

/-- C8, as stated, fails: the element at reference `0` has `startIndex` `0`, occurs twice and
is nested in no candidate, yet the filtered output does not hold it. -/
theorem filterUnique_duplicate_zero_start :
    (sampleHeap 0).startIndex = .num 0 ∧
    ([0, 0] : List Ref).any (fun t => doesAContainB (sampleHeap t) (sampleHeap 0)) = false ∧
    filterUnique sampleHeap [0, 0] = [] := by
  decide

/-! ### getAttribute -/

/-- C11: on a non-empty node list `getAttribute` is `getAttribute` on the first element; the
later elements play no part, also when the first lacks the attribute and a later one has it. -/
theorem getAttribute_first_only (n : String) (first : Node) (rest : List Node) :
    getAttribute n (.list (first :: rest)) = getAttribute n (.node first) ∧
    (∀ other : List Node,
      getAttribute n (.list (first :: rest)) = getAttribute n (.list (first :: other))) ∧
    getAttribute "href" (.list sampleLinks) = .ok none :=
  ⟨rfl, fun _ => rfl, rfl⟩

/-- The read `attribs[attribute]` that `getAttribute` makes on a node that has `attribs`. -/
theorem attribValue_of_attribs (n : String) (hn : n ≠ "") (e : Node)
    (attribs : List (String × String)) (ha : e.attribs? = some attribs) :
    attribValue n e
      = match readAttrib attribs n with
        | some v => if v.truthy then some v else none
        | none => none := by
  unfold attribValue
  rw [if_pos hn, ha]

/-- C12, as stated, fails twice on the first sample node: it has the attribute `my-attrib`
with the empty string as value and `getAttribute` returns `null` for it; it has no attribute
`constructor` and `getAttribute` returns what the plain object `attribs` inherits under that
name. -/
theorem getAttribute_empty_string_value :
    (Node.tag "div" [("class", "my-class"), ("my-attrib", "")] []).attribs?
      = some [("class", "my-class"), ("my-attrib", "")] ∧
    List.lookup "my-attrib" [("class", "my-class"), ("my-attrib", "")] = some "" ∧
    getAttribute "my-attrib"
      (.node (.tag "div" [("class", "my-class"), ("my-attrib", "")] [])) = .ok none ∧
    List.lookup "constructor" [("class", "my-class"), ("my-attrib", "")] = none ∧
    getAttribute "constructor"
      (.node (.tag "div" [("class", "my-class"), ("my-attrib", "")] []))
        = .ok (some (.inherited "constructor")) :=
  ⟨rfl, rfl, rfl, rfl, rfl⟩

/-- C12, amended: for a non-empty attribute name `n` and a node `e`, `getAttribute(n, e)`
returns the value of attribute `n` whenever `e` has it with a non-empty value; when `e` has
`attribs` without `n` and `n` is a name of `Object.prototype`, it returns the inherited member;
it returns `null` exactly when `e` has no `attribs`, when the value of `n` is the empty string,
or when `n` is absent and is not a name of `Object.prototype`. -/
theorem getAttribute_value (n : String) (hn : n ≠ "") (e : Node) :
    (∀ attribs v, e.attribs? = some attribs → attribs.lookup n = some v → v ≠ "" →
      getAttribute n (.node e) = .ok (some (.str v))) ∧
    (∀ attribs, e.attribs? = some attribs → attribs.lookup n = none →
      n ∈ objectPrototypeNames →
      getAttribute n (.node e) = .ok (some (.inherited n))) ∧
    (getAttribute n (.node e) = .ok none ↔
      (e.attribs? = none ∨
        ∃ attribs, e.attribs? = some attribs ∧
          (attribs.lookup n = some "" ∨
            (attribs.lookup n = none ∧ n ∉ objectPrototypeNames)))) := by
  have hval : getAttribute n (.node e) = .ok (attribValue n e) := rfl
  refine ⟨?_, ?_, ?_⟩
  · intro attribs v ha hl hv
    rw [hval, attribValue_of_attribs n hn e attribs ha]
    simp [readAttrib, hl, AttrValue.truthy, hv]
  · intro attribs ha hl hp
    rw [hval, attribValue_of_attribs n hn e attribs ha]
    simp [readAttrib, hl, hp, AttrValue.truthy]
  · rw [hval]
    cases ha : e.attribs? with
    | none =>
      have : attribValue n e = none := by simp [attribValue, hn, ha]
      rw [this]
      simp
    | some attribs =>
      rw [attribValue_of_attribs n hn e attribs ha]
      have hex : (some attribs = none ∨
          ∃ attribs', some attribs = some attribs' ∧
            (attribs'.lookup n = some "" ∨
              (attribs'.lookup n = none ∧ n ∉ objectPrototypeNames))) ↔
          (attribs.lookup n = some "" ∨
            (attribs.lookup n = none ∧ n ∉ objectPrototypeNames)) := by
        constructor
        · rintro (h | ⟨attribs', h₁, h₂⟩)
          · cases h
          · cases h₁
            exact h₂
        · intro h
          exact Or.inr ⟨attribs, rfl, h⟩
      rw [hex]
      cases hl : attribs.lookup n with
      | none =>
        by_cases hp : n ∈ objectPrototypeNames
        · have hr : readAttrib attribs n = some (.inherited n) := by
            simp only [readAttrib, hl, if_pos hp]
          rw [hr]
          constructor
          · intro h
            simp [AttrValue.truthy] at h
          · rintro (h | ⟨_, h⟩)
            · cases h
            · exact absurd hp h
        · have hr : readAttrib attribs n = none := by
            simp only [readAttrib, hl, if_neg hp]
          rw [hr]
          constructor
          · intro _
            exact Or.inr ⟨rfl, hp⟩
          · intro _
            rfl
      | some v =>
        have hr : readAttrib attribs n = some (.str v) := by
          simp only [readAttrib, hl]
        rw [hr]
        by_cases hv : v = ""
        · subst hv
          constructor
          · intro _
            exact Or.inl rfl
          · intro _
            simp [AttrValue.truthy]
        · constructor
          · intro h
            simp [AttrValue.truthy, hv] at h
          · rintro (h | ⟨h, _⟩)
            · cases h
              exact absurd rfl hv
            · cases h

theorem getAttribute_value_witness :
    ("href" : String) ≠ "" ∧
    getAttribute "href"
      (.node (.tag "a" [("href", "myhref.com"), ("class", "link")] [.text "link"]))
        = .ok (some (.str "myhref.com")) ∧
    getAttribute "toString"
      (.node (.tag "a" [("href", "myhref.com"), ("class", "link")] [.text "link"]))
        = .ok (some (.inherited "toString")) :=
  ⟨by decide,
   (getAttribute_value "href" (by decide)
      (.tag "a" [("href", "myhref.com"), ("class", "link")] [.text "link"])).1
      _ _ rfl rfl (by decide),
   (getAttribute_value "toString" (by decide)
      (.tag "a" [("href", "myhref.com"), ("class", "link")] [.text "link"])).2.1
      _ rfl rfl (by decide)⟩

/-- C16, evaluated where it fails: on the empty list and on `null` the destructuring in
`getAttribute` throws a `TypeError`; only an `undefined` element takes the default `{}`. -/
theorem getAttribute_throws :
    getAttribute "href" (.list []) = .error "TypeError" ∧
    getAttribute "href" .null = .error "TypeError" ∧
    getAttribute "href" .undefined = .ok none :=
  ⟨rfl, rfl, rfl⟩

/-! ### parseByConfig: the `attribute` cases -/

/-- C13: for a config without `process` and `properties` whose `attribute` is `'text'`, and a
truthy element with a non-empty working set, `parseByConfig` is `getText(workingSet, config)`,
the config read as the options: unless `shallowSearch` is set, the payloads of all matched
elements are joined with `config.separator` (`', '` when absent), trimmed unless `config.trim`
is `false`. -/
theorem parseByConfig_text (selectAll : Selector → Elem → List Node)
    (run : ProcId → Elem → Config → Except String Value)
    (config : Config) (element : Elem)
    (hproc : config.process = none) (hprops : config.properties = none)
    (hattr : config.attr = some "text")
    (hel : element.truthy = true)
    (hfound : foundSet selectAll config.query element ≠ []) :
    parseByConfig selectAll run (some config) element
      = .ok (Value.ofText
          (getText (.list (foundSet selectAll config.query element)) config.options)) ∧
    (config.options.shallowSearch ≠ some true →
      textPayloadsList (config.options.trim.getD true)
        (foundSet selectAll config.query element) ≠ [] →
      parseByConfig selectAll run (some config) element
        = .ok (.str (join (config.options.separator.getD ", ")
            (textPayloadsList (config.options.trim.getD true)
              (foundSet selectAll config.query element))))) := by
  have heq : parseByConfig selectAll run (some config) element
      = .ok (Value.ofText
          (getText (.list (foundSet selectAll config.query element)) config.options)) := by
    cases config with
    | mk query attr separator shallowSearch trim properties process =>
      simp only [Config.process] at hproc
      simp only [Config.properties] at hprops
      simp only [Config.attr] at hattr
      simp only [Config.query] at hfound ⊢
      have hlen : (foundSet selectAll query element).length ≠ 0 := by
        intro h
        exact hfound (List.length_eq_zero.mp h)
      rw [parseByConfig_mk, hproc, hprops, hattr]
      simp [hel, hlen, Config.options]
  refine ⟨heq, ?_⟩
  intro hs hp
  rw [heq]
  have hg : getText (.list (foundSet selectAll config.query element)) config.options
      = expectedText (mergeOpts config.options)
          (textPayloadsList (mergeOpts config.options).trim
            (foundSet selectAll config.query element)) :=
    getTextWith_list (mergeOpts config.options) _
  have hsh : (mergeOpts config.options).shallowSearch = false := by
    cases h : config.options.shallowSearch with
    | none => simp [mergeOpts, h]
    | some b =>
      cases b with
      | true => exact absurd h hs
      | false => simp [mergeOpts, h]
  have htrim : (mergeOpts config.options).trim = config.options.trim.getD true := rfl
  have hsep : (mergeOpts config.options).separator = config.options.separator.getD ", " := rfl
  rw [hg]
  simp only [expectedText, hsh, htrim, hsep, Bool.false_eq_true, if_false, hp, Value.ofText]

theorem parseByConfig_text_witness :
    (sampleTextConfig.process = none ∧ sampleTextConfig.properties = none ∧
      sampleTextConfig.attr = some "text" ∧ (Elem.list sampleLinks).truthy = true ∧
      foundSet selectByName sampleTextConfig.query (.list sampleLinks) ≠ []) ∧
    parseByConfig selectByName sampleRun (some sampleTextConfig) (.list sampleLinks)
      = .ok (.str "link - link2") ∧
    parseByConfig selectByName sampleRun (some sampleTextConfig) (.list sampleLinks)
      = .ok (Value.ofText
          (getText (.list (foundSet selectByName sampleTextConfig.query (.list sampleLinks)))
            sampleTextConfig.options)) :=
  ⟨⟨rfl, rfl, rfl, rfl, fun h => List.noConfusion h⟩, rfl,
    (parseByConfig_text selectByName sampleRun sampleTextConfig (.list sampleLinks)
      rfl rfl rfl rfl (fun h => List.noConfusion h)).1⟩

/-- C14, as stated, fails: on the sample node list, whose first element has the attribute
`my-attrib` with the empty string as value and has no attribute `constructor`, a config asking
for `my-attrib` gives `null` although the element has the attribute, and a config asking for
`constructor` gives the member the `attribs` object inherits, not `null`, although the element
lacks the attribute. -/
theorem parseByConfig_valueless_attribute :
    foundSet selectByName none (.list sampleLinks) = sampleLinks ∧
    sampleLinks.head? = some (.tag "div" [("class", "my-class"), ("my-attrib", "")] []) ∧
    List.lookup "my-attrib" [("class", "my-class"), ("my-attrib", "")] = some "" ∧
    parseByConfig selectByName sampleRun
        (some (.mk none (some "my-attrib") none none none none none)) (.list sampleLinks)
      = .ok .null ∧
    List.lookup "constructor" [("class", "my-class"), ("my-attrib", "")] = none ∧
    parseByConfig selectByName sampleRun
        (some (.mk none (some "constructor") none none none none none)) (.list sampleLinks)
      = .ok (.inherited "constructor") :=
  ⟨rfl, rfl, rfl, rfl, rfl, rfl⟩

/-- C14, amended: for a config without `process` and `properties` whose `attribute` is a name
other than `'text'`, and a truthy element with a non-empty working set, `parseByConfig` is
`getAttribute(attribute, workingSet)`, which reads the first matched element only: the value of
the attribute when the element has it with a non-empty value; `null` when the value is the empty
string, when the element has no `attribs`, or when it lacks the attribute and the name is not
one of `Object.prototype`; the inherited member when it lacks the attribute and the name is one
of `Object.prototype`. -/
theorem parseByConfig_attribute (selectAll : Selector → Elem → List Node)
    (run : ProcId → Elem → Config → Except String Value)
    (config : Config) (a : String) (element : Elem)
    (hproc : config.process = none) (hprops : config.properties = none)
    (hattr : config.attr = some a) (ha : a ≠ "") (hat : a ≠ "text")
    (hel : element.truthy = true)
    (hfound : foundSet selectAll config.query element ≠ []) :
    parseByConfig selectAll run (some config) element
      = (getAttribute a (.list (foundSet selectAll config.query element))).map
          Value.ofAttribute ∧
    (∀ first rest, foundSet selectAll config.query element = first :: rest →
      parseByConfig selectAll run (some config) element
          = (getAttribute a (.node first)).map Value.ofAttribute ∧
      (∀ attribs v, first.attribs? = some attribs → attribs.lookup a = some v → v ≠ "" →
        parseByConfig selectAll run (some config) element = .ok (.str v)) ∧
      (∀ attribs, first.attribs? = some attribs → attribs.lookup a = some "" →
        parseByConfig selectAll run (some config) element = .ok .null) ∧
      (∀ attribs, first.attribs? = some attribs → attribs.lookup a = none →
        a ∉ objectPrototypeNames →
        parseByConfig selectAll run (some config) element = .ok .null) ∧
      (∀ attribs, first.attribs? = some attribs → attribs.lookup a = none →
        a ∈ objectPrototypeNames →
        parseByConfig selectAll run (some config) element = .ok (.inherited a)) ∧
      (first.attribs? = none →
        parseByConfig selectAll run (some config) element = .ok .null)) := by
  have heq : parseByConfig selectAll run (some config) element
      = (getAttribute a (.list (foundSet selectAll config.query element))).map
          Value.ofAttribute := by
    cases config with
    | mk query attr separator shallowSearch trim properties process =>
      simp only [Config.process] at hproc
      simp only [Config.properties] at hprops
      simp only [Config.attr] at hattr
      simp only [Config.query] at hfound ⊢
      have hlen : (foundSet selectAll query element).length ≠ 0 := by
        intro h
        exact hfound (List.length_eq_zero.mp h)
      rw [parseByConfig_mk, hproc, hprops, hattr]
      simp [hel, hlen, ha, hat]
  refine ⟨heq, ?_⟩
  intro first rest hws
  rw [heq, hws]
  have hval : getAttribute a (.list (first :: rest)) = .ok (attribValue a first) := rfl
  rw [hval]
  refine ⟨rfl, ?_, ?_, ?_, ?_, ?_⟩
  · intro attribs v hat' hl hv
    rw [attribValue_of_attribs a ha first attribs hat']
    simp [readAttrib, hl, AttrValue.truthy, hv, Except.map, Value.ofAttribute]
  · intro attribs hat' hl
    rw [attribValue_of_attribs a ha first attribs hat']
    simp [readAttrib, hl, AttrValue.truthy, Except.map, Value.ofAttribute]
  · intro attribs hat' hl hp
    rw [attribValue_of_attribs a ha first attribs hat']
    simp [readAttrib, hl, hp, Except.map, Value.ofAttribute]
  · intro attribs hat' hl hp
    rw [attribValue_of_attribs a ha first attribs hat']
    simp [readAttrib, hl, hp, AttrValue.truthy, Except.map, Value.ofAttribute]
  · intro hnone
    have : attribValue a first = none := by simp [attribValue, ha, hnone]
    rw [this]
    rfl

theorem parseByConfig_attribute_witness :
    (sampleHrefConfig.process = none ∧ sampleHrefConfig.properties = none ∧
      sampleHrefConfig.attr = some "href" ∧ ("href" : String) ≠ "" ∧
      ("href" : String) ≠ "text" ∧ (Elem.list sampleLinks).truthy = true ∧
      foundSet selectByName sampleHrefConfig.query (.list sampleLinks) ≠ []) ∧
    parseByConfig selectByName sampleRun (some sampleHrefConfig) (.list sampleLinks)
      = .ok (.str "myhref.com") ∧
    parseByConfig selectByName sampleRun (some sampleHrefConfig) (.list sampleLinks)
      = (getAttribute "href"
          (.list (foundSet selectByName sampleHrefConfig.query (.list sampleLinks)))).map
          Value.ofAttribute :=
  ⟨⟨rfl, rfl, rfl, by decide, by decide, rfl, fun h => List.noConfusion h⟩, rfl,
    (parseByConfig_attribute selectByName sampleRun sampleHrefConfig "href"
      (.list sampleLinks) rfl rfl rfl (by decide) (by decide) rfl
      (fun h => List.noConfusion h)).1⟩

/-! ### Absence is `null` -/

theorem Config.noProcess_mk (query : Option Query) (attr separator : Option String)
    (shallowSearch trim : Option Bool) (properties : Option (List (String × Option Config)))
    (process : Option ProcId) :
    Config.noProcess (.mk query attr separator shallowSearch trim properties process)
      = (process.isNone &&
          (match properties with
           | some props => noProcessEntries props
           | none => true)) := by
  cases properties <;> rfl

theorem objNullOrNonEmpty_iff (obj : List (String × Value)) :
    objNullOrNonEmpty obj = true ↔ ∀ kv ∈ obj, kv.2.nullOrNonEmpty = true := by
  induction obj with
  | nil => simp [objNullOrNonEmpty]
  | cons kv rest ih =>
    obtain ⟨k, v⟩ := kv
    rw [objNullOrNonEmpty, Bool.and_eq_true, ih]
    simp

theorem objsNullOrNonEmpty_iff (objs : List (List (String × Value))) :
    objsNullOrNonEmpty objs = true ↔ ∀ obj ∈ objs, objNullOrNonEmpty obj = true := by
  induction objs with
  | nil => simp [objsNullOrNonEmpty]
  | cons obj rest ih =>
    rw [objsNullOrNonEmpty, Bool.and_eq_true, ih]
    simp

theorem objSet_nullOrNonEmpty (acc : Obj) (key : String) (v : Value)
    (hacc : objNullOrNonEmpty acc = true) (hv : v.nullOrNonEmpty = true) :
    objNullOrNonEmpty (objSet acc key v) = true := by
  rw [objNullOrNonEmpty_iff] at hacc ⊢
  intro kv hkv
  unfold objSet at hkv
  split at hkv
  · rw [List.mem_map] at hkv
    obtain ⟨kv', hmem, heq⟩ := hkv
    split at heq
    · rw [← heq]
      exact hv
    · rw [← heq]
      exact hacc kv' hmem
  · rw [List.mem_append] at hkv
    rcases hkv with hkv | hkv
    · exact hacc kv hkv
    · simp at hkv
      rw [hkv]
      exact hv

/-- A `mapM` in `Except` succeeds, with results that keep a property, when every call does. -/
theorem mapM_ok_all {α β ε : Type} (f : α → Except ε β) (P : β → Prop) :
    ∀ l : List α, (∀ a ∈ l, ∃ b, f a = .ok b ∧ P b) →
      ∃ r, l.mapM f = .ok r ∧ r.length = l.length ∧ ∀ b ∈ r, P b := by
  intro l
  induction l with
  | nil =>
    intro _
    exact ⟨[], by rw [List.mapM_nil]; rfl, rfl, by simp⟩
  | cons a rest ih =>
    intro h
    obtain ⟨b, hb, hPb⟩ := h a (by simp)
    obtain ⟨bs, hbs, hlen, hP⟩ := ih (fun x hx => h x (by simp [hx]))
    refine ⟨b :: bs, by rw [List.mapM_cons, hb, hbs]; rfl, by simp [hlen], ?_⟩
    intro x hx
    rw [List.mem_cons] at hx
    rcases hx with hx | hx
    · rw [hx]
      exact hPb
    · exact hP x hx

/-- What the array branch of `getText` returns is never the empty string. -/
theorem returnText_ne_empty (opts : Opts) (textArray : List String) (s : String)
    (h : returnText opts textArray = some s) : s ≠ "" := by
  unfold returnText at h
  by_cases hs : opts.shallowSearch = true
  · simp only [hs, if_true] at h
    cases ht : textArray.head? with
    | none =>
      rw [ht] at h
      cases h
    | some t =>
      rw [ht] at h
      by_cases hte : t = ""
      · simp [hte] at h
      · simp [hte] at h
        rw [← h]
        exact hte
  · simp only [hs, if_false] at h
    by_cases hj : join opts.separator textArray = ""
    · simp [hj] at h
    · simp [hj] at h
      rw [← h]
      exact hj

theorem ofText_getText_list (l : List Node) (o : Options) :
    (Value.ofText (getText (.list l) o)).nullOrNonEmpty = true := by
  cases h : getText (.list l) o with
  | none => rfl
  | some s =>
    have hs : s ≠ "" := returnText_ne_empty _ _ s h
    simp [Value.ofText, Value.nullOrNonEmpty, hs]

theorem ofAttribute_attribValue (a : String) (n : Node) :
    (Value.ofAttribute (attribValue a n)).nullOrNonEmpty = true := by
  cases h : attribValue a n with
  | none => rfl
  | some v =>
    cases v with
    | inherited name => rfl
    | str w =>
      have hw : w ≠ "" := by
        intro hw
        subst hw
        unfold attribValue at h
        split at h
        · split at h
          · split at h
            · rename_i v hread
              split at h
              · rename_i htruthy
                cases h
                simp [AttrValue.truthy] at htruthy
              · cases h
            · cases h
          · cases h
        · cases h
      simp [Value.ofAttribute, Value.nullOrNonEmpty, hw]

/-- The invariant behind C15, for a config and for a property value that may be `null`. -/
theorem parseByConfig_present (selectAll : Selector → Elem → List Node)
    (run : ProcId → Elem → Config → Except String Value) (config : Config) :
    config.noProcess = true → ∀ element, ∃ v,
      parseByConfig selectAll run (some config) element = .ok v ∧ v.nullOrNonEmpty = true := by
  refine @Config.rec
    (fun c => c.noProcess = true → ∀ element, ∃ v,
      parseByConfig selectAll run (some c) element = .ok v ∧ v.nullOrNonEmpty = true)
    (fun op => ∀ props, op = some props → noProcessEntries props = true →
      ∀ (e : Node) (acc : Obj), objNullOrNonEmpty acc = true →
        ∃ obj, propertiesReduce selectAll run props e acc = .ok obj ∧
          objNullOrNonEmpty obj = true)
    (fun props => noProcessEntries props = true →
      ∀ (e : Node) (acc : Obj), objNullOrNonEmpty acc = true →
        ∃ obj, propertiesReduce selectAll run props e acc = .ok obj ∧
          objNullOrNonEmpty obj = true)
    (fun kc => noProcessOption kc.2 = true → ∀ element, ∃ v,
      parseByConfig selectAll run kc.2 element = .ok v ∧ v.nullOrNonEmpty = true)
    (fun oc => noProcessOption oc = true → ∀ element, ∃ v,
      parseByConfig selectAll run oc element = .ok v ∧ v.nullOrNonEmpty = true)
    ?_ ?_ ?_ ?_ ?_ ?_ ?_ ?_ config
  · intro query attr separator shallowSearch trim properties process ih hno element
    rw [Config.noProcess_mk, Bool.and_eq_true] at hno
    obtain ⟨hproc, hprops⟩ := hno
    have hp : process = none := by
      cases process with
      | none => rfl
      | some p => simp at hproc
    rw [parseByConfig_mk, hp]
    by_cases hel : element.truthy = true
    swap
    · exact ⟨.null, by simp [hel], rfl⟩
    by_cases hlen : (foundSet selectAll query element).length = 0
    · exact ⟨.null, by simp [hel, hlen], rfl⟩
    cases properties with
    | some props =>
      have hall : ∀ e ∈ foundSet selectAll query element, ∃ obj,
          propertiesReduce selectAll run props e [] = .ok obj ∧
            objNullOrNonEmpty obj = true :=
        fun e _ => ih props rfl hprops e [] rfl
      obtain ⟨objs, hobjs, hl, hP⟩ := mapM_ok_all _ _ _ hall
      refine ⟨.records objs, ?_, ?_⟩
      · simp only [hel, Bool.not_true, Bool.false_eq_true, if_false, hlen, hobjs]
        rfl
      · rw [Value.nullOrNonEmpty, Bool.and_eq_true, objsNullOrNonEmpty_iff]
        refine ⟨?_, hP⟩
        rw [hl]
        simpa using hlen
    | none =>
      cases attr with
      | none =>
        exact ⟨.nodes (foundSet selectAll query element), by simp [hel, hlen],
          by simpa [Value.nullOrNonEmpty] using hlen⟩
      | some a =>
        by_cases hat : a = "text"
        · exact ⟨Value.ofText (getText (.list (foundSet selectAll query element))
              { separator := separator, shallowSearch := shallowSearch, trim := trim }),
            by simp only [hel, Bool.not_true, Bool.false_eq_true, if_false, hlen, hat, if_true],
            ofText_getText_list _ _⟩
        · by_cases ha : a = ""
          · exact ⟨.nodes (foundSet selectAll query element), by simp [hel, hlen, ha],
              by simpa [Value.nullOrNonEmpty] using hlen⟩
          · cases hf : foundSet selectAll query element with
            | nil => simp [hf] at hlen
            | cons first rest =>
              refine ⟨Value.ofAttribute (attribValue a first), ?_,
                ofAttribute_attribValue a first⟩
              simp [hel, hat, ha, getAttribute, Except.map]
  · intro props h
    cases h
  · intro val ih props h
    cases h
    exact ih
  · intro _ e acc hacc
    exact ⟨acc, propertiesReduce_nil selectAll run e acc, hacc⟩
  · intro head tail ih₁ ih₂ hno e acc hacc
    obtain ⟨key, c⟩ := head
    rw [noProcessEntries, Bool.and_eq_true] at hno
    obtain ⟨v, hv, hpres⟩ := ih₁ hno.1 (.node e)
    rw [propertiesReduce_cons, hv]
    exact ih₂ hno.2 e (objSet acc key v) (objSet_nullOrNonEmpty acc key v hacc hpres)
  · intro fst snd ih
    exact ih
  · intro _ element
    exact ⟨.null, by simp [parseByConfig], rfl⟩
  · intro val ih hno element
    rw [noProcessOption] at hno
    exact ih hno element

/-- C15: for a config that carries no `process` at any nesting level of `properties`, and for
every element, `parseByConfig` returns (it does not throw) a value that is `null` or
non-empty: never the empty string, never the empty list, and so for every field of the objects
a `properties` config produces. -/
theorem parseByConfig_never_empty (selectAll : Selector → Elem → List Node)
    (run : ProcId → Elem → Config → Except String Value) (config : Config)
    (h : config.noProcess = true) (element : Elem) :
    ∃ v, parseByConfig selectAll run (some config) element = .ok v ∧
      v.nullOrNonEmpty = true ∧ v ≠ .str "" ∧ v ≠ .nodes [] ∧ v ≠ .records [] := by
  obtain ⟨v, hv, hp⟩ := parseByConfig_present selectAll run config h element
  refine ⟨v, hv, hp, ?_, ?_, ?_⟩
  · intro hc
    rw [hc] at hp
    simp [Value.nullOrNonEmpty] at hp
  · intro hc
    rw [hc] at hp
    simp [Value.nullOrNonEmpty] at hp
  · intro hc
    rw [hc] at hp
    simp [Value.nullOrNonEmpty] at hp

theorem parseByConfig_never_empty_witness :
    samplePlainConfig.noProcess = true ∧
    parseByConfig selectByName sampleRun (some samplePlainConfig) (.list samplePage)
      = .ok (.records [[("url", .str "myhref.com"), ("title", .str "link"),
          ("missing", .null), ("nothing", .null)]]) ∧
    ∃ v, parseByConfig selectByName sampleRun (some samplePlainConfig) (.list samplePage)
        = .ok v ∧
      v.nullOrNonEmpty = true ∧ v ≠ .str "" ∧ v ≠ .nodes [] ∧ v ≠ .records [] :=
  ⟨rfl, rfl, parseByConfig_never_empty selectByName sampleRun samplePlainConfig rfl
    (.list samplePage)⟩

/-! ### filterUniqueElements: order and overlap -/

/-- C17: permuting the candidate list does not change which elements the filter keeps: the
two outputs hold the same elements, each once. -/
theorem filterUnique_perm (heap : Heap) (l l' : List Ref) (h : l.Perm l') :
    (∀ x, x ∈ filterUnique heap l ↔ x ∈ filterUnique heap l') ∧
    (filterUnique heap l).Perm (filterUnique heap l') := by
  have hmem : ∀ x, x ∈ filterUnique heap l ↔ x ∈ filterUnique heap l' := by
    intro x
    rw [mem_filterUnique_iff, mem_filterUnique_iff, h.mem_iff, List.any_eq_false,
      List.any_eq_false]
    constructor
    · rintro ⟨h₁, h₂, h₃⟩
      exact ⟨h₁, h₂, fun t ht => h₃ t (h.mem_iff.mpr ht)⟩
    · rintro ⟨h₁, h₂, h₃⟩
      exact ⟨h₁, h₂, fun t ht => h₃ t (h.mem_iff.mp ht)⟩
  exact ⟨hmem, (List.perm_ext_iff_of_nodup (nodup_filterUnique heap l)
    (nodup_filterUnique heap l')).mpr hmem⟩

theorem filterUnique_perm_witness :
    List.Perm [3, 4, 5, 2, 3] [2, 3, 5, 3, 4] ∧
    filterUnique sampleHeap [3, 4, 5, 2, 3] = [3, 2] ∧
    filterUnique sampleHeap [2, 3, 5, 3, 4] = [2, 3] ∧
    (∀ x, x ∈ filterUnique sampleHeap [3, 4, 5, 2, 3]
      ↔ x ∈ filterUnique sampleHeap [2, 3, 5, 3, 4]) :=
  ⟨by decide, by decide, by decide,
    (filterUnique_perm sampleHeap [3, 4, 5, 2, 3] [2, 3, 5, 3, 4] (by decide)).1⟩

/-- C18, as stated, fails: the candidates at references 1 and 4 are distinct, have the spans
`[10,20]` and `[10,100]` with `startIndex <= endIndex`, both survive, and position 10 lies in
both half-open spans. -/
theorem filterUnique_same_start_overlap :
    ((sampleHeap 1).startIndex = .num 10 ∧ (sampleHeap 1).endIndex = .num 20 ∧
      (sampleHeap 4).startIndex = .num 10 ∧ (sampleHeap 4).endIndex = .num 100) ∧
    (1 : Ref) ≠ 4 ∧
    filterUnique sampleHeap [1, 4] = [1, 4] ∧
    ((10 : Int) ≤ 10 ∧ (10 : Int) < 20 ∧ (10 : Int) ≤ 10 ∧ (10 : Int) < 100) := by
  decide

/-- C18, amended: the half-open spans `[startIndex, endIndex)` of any two surviving elements
whose `startIndex` differ share no position. -/
theorem filterUnique_disjoint (heap : Heap) (l : List Ref) (x y : Ref)
    (sx ex sy ey : Int)
    (hx : x ∈ filterUnique heap l) (hy : y ∈ filterUnique heap l)
    (hsx : (heap x).startIndex = .num sx) (hex : (heap x).endIndex = .num ex)
    (hsy : (heap y).startIndex = .num sy) (hey : (heap y).endIndex = .num ey)
    (hne : sx ≠ sy) :
    ∀ p : Int, ¬ (sx ≤ p ∧ p < ex ∧ sy ≤ p ∧ p < ey) := by
  intro p hp
  obtain ⟨h₁, h₂, h₃, h₄⟩ := hp
  rw [mem_filterUnique_iff, List.any_eq_false] at hx hy
  rcases Int.lt_or_gt_of_ne hne with hlt | hgt
  · apply hy.2.2 x hx.1
    simp only [doesAContainB, jsGt, jsLt, Offset.toNumber, hsx, hex, hsy, Bool.and_eq_true,
      decide_eq_true_eq]
    exact ⟨hlt, by omega⟩
  · apply hx.2.2 y hy.1
    simp only [doesAContainB, jsGt, jsLt, Offset.toNumber, hsx, hey, hsy, Bool.and_eq_true,
      decide_eq_true_eq]
    exact ⟨hgt, by omega⟩

theorem filterUnique_disjoint_witness :
    (3 ∈ filterUnique sampleHeap [3, 4, 5, 2] ∧ 2 ∈ filterUnique sampleHeap [3, 4, 5, 2] ∧
      (sampleHeap 3).startIndex = .num 1 ∧ (sampleHeap 3).endIndex = .num 15 ∧
      (sampleHeap 2).startIndex = .num 200 ∧ (sampleHeap 2).endIndex = .num 210 ∧
      (1 : Int) ≠ 200) ∧
    ∀ p : Int, ¬ (1 ≤ p ∧ p < 15 ∧ 200 ≤ p ∧ p < 210) :=
  ⟨by decide, filterUnique_disjoint sampleHeap [3, 4, 5, 2] 3 2 1 15 200 210
    (by decide) (by decide) rfl rfl rfl rfl (by decide)⟩

/-! ### Containers and result elements -/

/-- The function `select` on a single query is one call of the engine. -/
theorem select_single (selectAll : Selector → Elem → List Node) (q : Selector)
    (element : Elem) : select selectAll (.single q) element = selectAll q element := by
  simp [select, Query.queries]

/-- The site-links composites of a container in terms of the engine: the matches of
`div.g > div` in which both `div.tF2Cxc` and `table.jmjoTe` match something. -/
theorem getDesktopResultWithSiteLinksElement_eq (engine : Query → Elem → List Node)
    (container : Node) :
    getDesktopResultWithSiteLinksElement engine container
      = (engine (.single (.css "div.g > div")) (.node container)).filter
          (fun element =>
            !(engine (.single (.css "div.tF2Cxc")) (.node element)).isEmpty &&
            !(engine (.single (.css "table.jmjoTe")) (.node element)).isEmpty) := by
  have hhead : ∀ l : List Node, l.head?.isSome = !l.isEmpty := by
    intro l
    cases l <;> rfl
  unfold getDesktopResultWithSiteLinksElement
  rw [select_single]
  congr 1
  funext element
  simp only [hasSiteLinks, select_single, singleQuery, hhead]

/-- C19: with `matched` the result elements matched in the container, on mobile the matches of
the mobile query, on desktop the site-links composites (the matches of `div.g > div` that hold
both a `div.tF2Cxc` and a `table.jmjoTe`, in match order) followed by the matches of the
desktop query, `getResultElements` returns `matched` when it holds more than one element and
the one-element list holding the container when it holds zero or one; the result is computed
from this container alone and is never empty. -/
theorem getResultElements_single_or_multi (engine : Query → Elem → List Node)
    (isMobile : Bool) (container : Node) (composites plain matched : List Node)
    (hcomposites : composites
      = (engine (.single (.css "div.g > div")) (.node container)).filter
          (fun element =>
            !(engine (.single (.css "div.tF2Cxc")) (.node element)).isEmpty &&
            !(engine (.single (.css "table.jmjoTe")) (.node element)).isEmpty))
    (hplain : plain
      = if isMobile then
          engine (.alts [.css "div.mnr-c.xpd", .css "g-card.XqIXXe", .css "div.mnr-c.srg"])
            (.node container)
        else
          engine (.alts [.css "div.srg div.g", .css "div.g > div.rc",
            .css "div.g > div.tF2Cxc", .css "div.kp-blk.cUnQKe"]) (.node container))
    (hmatched : matched = if isMobile then plain else composites ++ plain) :
    (matched.length > 1 → getFnGetResultElements engine isMobile container = matched) ∧
    (matched.length ≤ 1 → getFnGetResultElements engine isMobile container = [container]) ∧
    getFnGetResultElements engine isMobile container ≠ [] := by
  have hfn : getFnGetResultElements engine isMobile container
      = if decide (matched.length > 1) = true then matched else [container] := by
    rw [hmatched, hplain, hcomposites, ← getDesktopResultWithSiteLinksElement_eq]
    cases isMobile <;> rfl
  rw [hfn]
  refine ⟨?_, ?_, ?_⟩
  · intro h
    rw [if_pos (by simpa using h)]
  · intro h
    have : ¬ matched.length > 1 := by omega
    rw [if_neg (by simpa using this)]
  · by_cases h : matched.length > 1
    · rw [if_pos (by simpa using h)]
      intro hr
      rw [hr] at h
      simp at h
    · rw [if_neg (by simpa using h)]
      simp

theorem getResultElements_single_or_multi_witness :
    getFnGetResultElements resultEngine false sampleDesktopContainer
      = [sampleComposite, samplePlainResult] ∧
    getFnGetResultElements resultEngine false sampleLoneComposite = [sampleLoneComposite] ∧
    getFnGetResultElements sampleEngine true sampleResults
      = [.tag "div" [("class", "mnr-c xpd")] [.text "one"],
         .tag "div" [("class", "mnr-c xpd")] [.text "two"]] ∧
    getFnGetResultElements sampleEngine true sampleFeature = [sampleFeature] :=
  ⟨(getResultElements_single_or_multi resultEngine false sampleDesktopContainer
      [sampleComposite] [samplePlainResult] [sampleComposite, samplePlainResult]
      rfl rfl rfl).1 (by decide),
   (getResultElements_single_or_multi resultEngine false sampleLoneComposite
      [sampleComposite] [] [sampleComposite] rfl rfl rfl).2.1 (by decide),
   (getResultElements_single_or_multi sampleEngine true sampleResults
      _ _ _ rfl rfl rfl).1 (by decide),
   (getResultElements_single_or_multi sampleEngine true sampleFeature
      _ _ _ rfl rfl rfl).2.1 (by decide)⟩

/-- The test `every` makes from position `k`: the callback holds at every later position. -/
theorem arrayEveryFrom_iff {α : Type} (callback : α → Nat → List α → Bool) (array : List α) :
    ∀ (l : List α) (k : Nat), arrayEveryFrom callback array k l = true ↔
      ∀ (j : Nat) (h : j < l.length), callback (l.get ⟨j, h⟩) (k + j) array = true := by
  intro l
  induction l with
  | nil =>
    intro k
    simp [arrayEveryFrom]
  | cons x rest ih =>
    intro k
    simp only [arrayEveryFrom, Bool.and_eq_true, ih]
    constructor
    · rintro ⟨h₀, hrest⟩ j hj
      cases j with
      | zero => simpa using h₀
      | succ j =>
        have := hrest j (by simpa using hj)
        simpa [Nat.add_assoc, Nat.add_comm 1 j] using this
    · intro h
      refine ⟨by simpa using h 0 (by simp), ?_⟩
      intro j hj
      have := h (j + 1) (by simpa using hj)
      simpa [Nat.add_assoc, Nat.add_comm 1 j] using this

/-- The reduce of `getContainers` from an accumulator: every container adds its sub-containers,
or itself when it has none. -/
theorem foldl_expandContainer (engine : Query → Elem → List Node) :
    ∀ (containers acc : List Node),
      containers.foldl (expandContainer engine) acc
        = acc ++ containers.flatMap (fun c =>
            if (wholePageSubContainers engine c).length ≠ 0 then
              wholePageSubContainers engine c
            else [c]) := by
  intro containers
  induction containers with
  | nil =>
    intro acc
    simp
  | cons c rest ih =>
    intro acc
    rw [List.foldl_cons, ih, List.flatMap_cons]
    unfold expandContainer
    split <;> simp

/-- C20: when every discovered container is a knowledge-panel node, `getContainers` returns,
in container order, the sub-containers of each container, or the container itself when it has
none, so that every container is represented; when some container is not a knowledge-panel
node, the discovered containers are returned unchanged. -/
theorem getContainers_expand (engine : Query → Elem → List Node)
    (isKnowledgePanelEntry : Node → Nat → List Node → Bool) (document : Elem)
    (containers : List Node) (hc : containers = engine (.alts containerQuery) document) :
    ((∀ (i : Nat) (h : i < containers.length),
        isKnowledgePanelEntry (containers.get ⟨i, h⟩) i containers = true) →
      getContainers engine isKnowledgePanelEntry document
        = containers.flatMap (fun c =>
            if (wholePageSubContainers engine c).length ≠ 0 then
              wholePageSubContainers engine c
            else [c]) ∧
      ∀ c ∈ containers,
        (wholePageSubContainers engine c = [] ∧
          c ∈ getContainers engine isKnowledgePanelEntry document) ∨
        (wholePageSubContainers engine c ≠ [] ∧
          ∀ sub ∈ wholePageSubContainers engine c,
            sub ∈ getContainers engine isKnowledgePanelEntry document)) ∧
    ((∃ (i : Nat) (h : i < containers.length),
        isKnowledgePanelEntry (containers.get ⟨i, h⟩) i containers = false) →
      getContainers engine isKnowledgePanelEntry document = containers) := by
  subst hc
  constructor
  · intro hall
    have hevery : arrayEvery isKnowledgePanelEntry (engine (.alts containerQuery) document)
        = true := by
      unfold arrayEvery
      rw [arrayEveryFrom_iff]
      intro j hj
      simpa using hall j hj
    have heq : getContainers engine isKnowledgePanelEntry document
        = (engine (.alts containerQuery) document).flatMap (fun c =>
            if (wholePageSubContainers engine c).length ≠ 0 then
              wholePageSubContainers engine c
            else [c]) := by
      unfold getContainers
      simp only [hevery, if_true]
      rw [foldl_expandContainer]
      simp
    refine ⟨heq, ?_⟩
    intro c hcmem
    rw [heq]
    by_cases hsub : (wholePageSubContainers engine c).length = 0
    · left
      refine ⟨List.length_eq_zero.mp hsub, ?_⟩
      rw [List.mem_flatMap]
      exact ⟨c, hcmem, by simp [hsub]⟩
    · right
      refine ⟨fun h => hsub (by rw [h]; rfl), ?_⟩
      intro sub hmem
      rw [List.mem_flatMap]
      exact ⟨c, hcmem, by simp [hsub, hmem]⟩
  · rintro ⟨i, hi, hfalse⟩
    have hevery : arrayEvery isKnowledgePanelEntry (engine (.alts containerQuery) document)
        = false := by
      cases h : arrayEvery isKnowledgePanelEntry (engine (.alts containerQuery) document) with
      | false => rfl
      | true =>
        unfold arrayEvery at h
        rw [arrayEveryFrom_iff] at h
        have := h i hi
        simp only [Nat.zero_add] at this
        rw [hfalse] at this
        cases this
    unfold getContainers
    simp [hevery]

theorem getContainers_expand_witness :
    (∀ (i : Nat) (h : i < sampleContainers.length),
      (fun _ _ _ => true : Node → Nat → List Node → Bool)
        (sampleContainers.get ⟨i, h⟩) i sampleContainers = true) ∧
    sampleContainers = sampleEngine (.alts containerQuery) (.list sampleContainers) ∧
    getContainers sampleEngine (fun _ _ _ => true) (.list sampleContainers)
      = [sampleResults, sampleFeature, sampleFeature] ∧
    getContainers sampleEngine (fun _ _ _ => true) (.list sampleContainers)
      = sampleContainers.flatMap (fun c =>
          if (wholePageSubContainers sampleEngine c).length ≠ 0 then
            wholePageSubContainers sampleEngine c
          else [c]) :=
  ⟨fun _ _ => rfl, rfl, rfl,
    ((getContainers_expand sampleEngine (fun _ _ _ => true) (.list sampleContainers)
      sampleContainers rfl).1 (fun _ _ => rfl)).1⟩

/-! ### filterUniqueElements: idempotence -/

/-- What `array.filter(callback)` keeps is a sub-list of the part filtered, in its order. -/
theorem arrayFilterFrom_sublist {α : Type} (callback : α → Nat → List α → Bool)
    (array : List α) : ∀ (l : List α) (index : Nat),
      (arrayFilterFrom callback array index l).Sublist l := by
  intro l
  induction l with
  | nil =>
    intro index
    simp [arrayFilterFrom]
  | cons x rest ih =>
    intro index
    simp only [arrayFilterFrom]
    split
    · exact (ih (index + 1)).cons₂ x
    · exact (ih (index + 1)).cons x

/-- A filter whose callback holds at every position keeps the whole list. -/
theorem arrayFilterFrom_eq_self {α : Type} (callback : α → Nat → List α → Bool)
    (array : List α) : ∀ (l : List α) (index : Nat),
      (∀ (j : Nat) (h : j < l.length), callback (l.get ⟨j, h⟩) (index + j) array = true) →
      arrayFilterFrom callback array index l = l := by
  intro l
  induction l with
  | nil =>
    intro index _
    simp [arrayFilterFrom]
  | cons x rest ih =>
    intro index h
    have h₀ : callback x index array = true := by simpa using h 0 (by simp)
    have hrest : ∀ (j : Nat) (hj : j < rest.length),
        callback (rest.get ⟨j, hj⟩) (index + 1 + j) array = true := by
      intro j hj
      have := h (j + 1) (by simpa using hj)
      simpa [Nat.add_assoc, Nat.add_comm 1 j] using this
    simp only [arrayFilterFrom, h₀, if_true, ih (index + 1) hrest]

/-- C29: filtering an already filtered candidate list changes nothing, and the filtered list
is a sub-list of the candidate list in the same order. -/
theorem filterUnique_idempotent (heap : Heap) (l : List Ref) :
    filterUnique heap (filterUnique heap l) = filterUnique heap l ∧
    (filterUnique heap l).Sublist l := by
  refine ⟨?_, arrayFilterFrom_sublist _ _ l 0⟩
  have hnd := nodup_filterUnique heap l
  show arrayFilterFrom (filterUniqueElements heap) (filterUnique heap l) 0
    (filterUnique heap l) = filterUnique heap l
  apply arrayFilterFrom_eq_self
  intro j hj
  have hmem : (filterUnique heap l).get ⟨j, hj⟩ ∈ filterUnique heap l := List.get_mem _ _ _
  have hgood := (mem_filterUnique_iff heap l _).mp hmem
  rw [filterUniqueElements_iff]
  refine ⟨hgood.2.1, ?_, ?_⟩
  · rw [List.any_eq_false] at hgood ⊢
    intro t ht
    exact hgood.2.2 t ((mem_filterUnique_iff heap l t).mp ht).1
  · unfold indexOf
    rw [if_pos hmem]
    have := List.indexOf_getElem hnd j hj
    simp only [List.get_eq_getElem, Nat.zero_add]
    rw [this]

/-! ### filterUniqueElements: the survivors and their positions -/

/-- Filtering a list in two parts: the second part starts at the index after the first. -/
theorem arrayFilterFrom_append {α : Type} (callback : α → Nat → List α → Bool)
    (array : List α) : ∀ (a b : List α) (index : Nat),
      arrayFilterFrom callback array index (a ++ b)
        = arrayFilterFrom callback array index a
          ++ arrayFilterFrom callback array (index + a.length) b := by
  intro a
  induction a with
  | nil =>
    intro b index
    simp [arrayFilterFrom]
  | cons x rest ih =>
    intro b index
    have hidx : index + 1 + rest.length = index + (rest.length + 1) := by omega
    rw [List.cons_append]
    simp only [arrayFilterFrom, List.length_cons]
    split
    · rw [ih b (index + 1), hidx, List.cons_append]
    · rw [ih b (index + 1), hidx]

/-- The callback at the position after the entries `pre`: the element survives and does not
occur in `pre`. -/
theorem filterUniqueElements_at (heap : Heap) (pre rest : List Ref) (y : Ref) :
    filterUniqueElements heap y pre.length (pre ++ y :: rest)
      = (survives heap (pre ++ y :: rest) y && decide (y ∉ pre)) := by
  rw [Bool.eq_iff_iff, filterUniqueElements_iff, indexOf_append_self]
  simp only [survives, Bool.and_eq_true, Bool.not_eq_true', decide_eq_true_eq]
  tauto

/-- The filter, started after the entries `pre`, keeps the first occurrences not met in `pre`
that survive. -/
theorem filterFrom_eq_firstOccurrences (heap : Heap) (all : List Ref) :
    ∀ (l pre seen : List Ref), all = pre ++ l → (∀ z, z ∈ seen ↔ z ∈ pre) →
      arrayFilterFrom (filterUniqueElements heap) all pre.length l
        = (firstOccurrences seen l).filter (survives heap all) := by
  intro l
  induction l with
  | nil =>
    intro pre seen _ _
    simp [arrayFilterFrom, firstOccurrences]
  | cons y rest ih =>
    intro pre seen hall hseen
    have hall' : all = (pre ++ [y]) ++ rest := by simp [hall]
    have hlen : (pre ++ [y]).length = pre.length + 1 := by simp
    have hcb : filterUniqueElements heap y pre.length all
        = (survives heap all y && decide (y ∉ pre)) := by
      rw [hall]
      exact filterUniqueElements_at heap pre rest y
    by_cases hy : y ∈ seen
    · have hypre : y ∈ pre := (hseen y).mp hy
      have hseen' : ∀ z, z ∈ seen ↔ z ∈ pre ++ [y] := by
        intro z
        rw [hseen z]
        simp only [List.mem_append, List.mem_singleton]
        constructor
        · intro h
          exact Or.inl h
        · rintro (h | h)
          · exact h
          · rw [h]
            exact hypre
      have hrec := ih (pre ++ [y]) seen hall' hseen'
      rw [hlen] at hrec
      simp only [arrayFilterFrom, hcb, firstOccurrences, if_pos hy, hypre, not_true_eq_false,
        decide_False, Bool.and_false, Bool.false_eq_true, if_false]
      exact hrec
    · have hypre : y ∉ pre := fun h => hy ((hseen y).mpr h)
      have hseen' : ∀ z, z ∈ y :: seen ↔ z ∈ pre ++ [y] := by
        intro z
        simp only [List.mem_cons, List.mem_append, List.mem_singleton, List.mem_nil_iff,
          or_false, hseen z]
        tauto
      have hrec := ih (pre ++ [y]) (y :: seen) hall' hseen'
      rw [hlen] at hrec
      simp only [arrayFilterFrom, hcb, firstOccurrences, if_neg hy, hypre, not_false_eq_true,
        decide_True, Bool.and_true, List.filter_cons]
      rw [hrec]

/-- C6, amended: for every candidate list the filtered output is, in order, the entries that
are not a repeat of an entry at a lower index, have a `startIndex` that is not falsy and are
contained in no candidate; a numeric `startIndex` is falsy exactly when it is `0`, and for
numeric offsets a candidate `A` contains `x` exactly when
`A.startIndex < x.startIndex < A.endIndex`. -/
theorem filterUnique_survivors (heap : Heap) (l : List Ref) :
    filterUnique heap l = (firstOccurrences [] l).filter (survives heap l) ∧
    (∀ x, survives heap l x = true ↔
      (heap x).startIndex.truthy = true ∧
      ∀ A ∈ l, doesAContainB (heap A) (heap x) = false) ∧
    (∀ (x : Ref) (s : Int), (heap x).startIndex = .num s →
      ((heap x).startIndex.truthy = true ↔ s ≠ 0)) ∧
    (∀ (A x : Ref) (a e s : Int), (heap A).startIndex = .num a → (heap A).endIndex = .num e →
      (heap x).startIndex = .num s →
      (doesAContainB (heap A) (heap x) = true ↔ a < s ∧ s < e)) := by
  refine ⟨?_, ?_, ?_, ?_⟩
  · exact filterFrom_eq_firstOccurrences heap l l [] [] rfl (fun _ => Iff.rfl)
  · intro x
    simp only [survives, Bool.and_eq_true, Bool.not_eq_true', List.any_eq_false]
    constructor
    · rintro ⟨h₁, h₂⟩
      exact ⟨h₁, fun A hA => by simpa using h₂ A hA⟩
    · rintro ⟨h₁, h₂⟩
      exact ⟨h₁, fun A hA => by simpa using h₂ A hA⟩
  · intro x s hs
    rw [hs]
    simp [Offset.truthy]
  · intro A x a e s hAs hAe hxs
    simp [doesAContainB, jsGt, jsLt, Offset.toNumber, hAs, hAe, hxs]

theorem filterUnique_survivors_witness :
    (sampleHeap 4).startIndex = .num 10 ∧ (sampleHeap 4).endIndex = .num 100 ∧
    (sampleHeap 5).startIndex = .num 50 ∧ (sampleHeap 5).endIndex = .num 60 ∧
    (sampleHeap 2).startIndex = .num 200 ∧ (sampleHeap 2).endIndex = .num 210 ∧
    filterUnique sampleHeap [4, 5, 2] = [4, 2] ∧
    filterUnique sampleHeap [4, 5, 4, 2, 5, 2] = [4, 2] :=
  ⟨rfl, rfl, rfl, rfl, rfl, rfl,
    (filterUnique_survivors sampleHeap [4, 5, 2]).1.trans (by decide),
    (filterUnique_survivors sampleHeap [4, 5, 4, 2, 5, 2]).1.trans (by decide)⟩

/-- C8, amended: the filtered output holds no element more than once; an element whose
`startIndex` is a number other than `0` and that no candidate contains is held exactly once, at
the relative position of its first occurrence: what precedes it in the output comes from the
entries before that occurrence, what follows it from the entries after. -/
theorem filterUnique_first_occurrence (heap : Heap) (l : List Ref) (x : Ref) :
    (filterUnique heap l).count x ≤ 1 ∧
    (∀ (pre rest : List Ref) (s : Int), l = pre ++ x :: rest → x ∉ pre →
      (heap x).startIndex = .num s → s ≠ 0 →
      (∀ A ∈ l, doesAContainB (heap A) (heap x) = false) →
      (filterUnique heap l).count x = 1 ∧
      ∃ before after, filterUnique heap l = before ++ x :: after ∧
        before.Sublist pre ∧ after.Sublist rest ∧ x ∉ before ∧ x ∉ after) := by
  have hnd := nodup_filterUnique heap l
  refine ⟨List.nodup_iff_count_le_one.mp hnd x, ?_⟩
  intro pre rest s hl hpre hs hs0 hnest
  have htruthy : (heap x).startIndex.truthy = true := by
    rw [hs]
    simp [Offset.truthy, hs0]
  have hany : l.any (fun t => doesAContainB (heap t) (heap x)) = false := by
    rw [List.any_eq_false]
    intro A hA
    simp [hnest A hA]
  have hcb : filterUniqueElements heap x pre.length l = true := by
    rw [filterUniqueElements_iff]
    refine ⟨htruthy, hany, ?_⟩
    rw [hl]
    exact (indexOf_append_self pre rest x).mpr hpre
  have hsplit : filterUnique heap l
      = arrayFilterFrom (filterUniqueElements heap) l 0 pre
        ++ x :: arrayFilterFrom (filterUniqueElements heap) l (pre.length + 1) rest := by
    have happ := arrayFilterFrom_append (filterUniqueElements heap) l pre (x :: rest) 0
    rw [← hl] at happ
    show arrayFilterFrom (filterUniqueElements heap) l 0 l = _
    rw [happ]
    simp only [Nat.zero_add, arrayFilterFrom, hcb, if_true]
  have hbefore : x ∉ arrayFilterFrom (filterUniqueElements heap) l 0 pre :=
    fun h => hpre (mem_of_mem_arrayFilterFrom _ _ x pre 0 h)
  have hafter : x ∉ arrayFilterFrom (filterUniqueElements heap) l (pre.length + 1) rest := by
    intro h
    rw [hsplit] at hnd
    have := (List.nodup_append.mp hnd).2.1
    exact (List.nodup_cons.mp this).1 h
  refine ⟨?_, _, _, hsplit, arrayFilterFrom_sublist _ _ pre 0,
    arrayFilterFrom_sublist _ _ rest (pre.length + 1), hbefore, hafter⟩
  rw [hsplit, List.count_append, List.count_cons_self, List.count_eq_zero_of_not_mem hbefore,
    List.count_eq_zero_of_not_mem hafter]

theorem filterUnique_first_occurrence_witness :
    ([2, 3, 2, 3] : List Ref) = [2] ++ 3 :: [2, 3] ∧ (3 : Ref) ∉ ([2] : List Ref) ∧
    (sampleHeap 3).startIndex = .num 1 ∧ (1 : Int) ≠ 0 ∧
    (filterUnique sampleHeap [2, 3, 2, 3]).count 3 = 1 ∧
    filterUnique sampleHeap [2, 3, 2, 3] = [2, 3] :=
  ⟨rfl, by decide, rfl, by decide,
    ((filterUnique_first_occurrence sampleHeap [2, 3, 2, 3] 3).2 [2] [2, 3] 1 rfl (by decide)
      rfl (by decide) (by decide)).1,
    by decide⟩

/-! ### The result pipeline -/

/-- Setting a field keeps every field name of the record. -/
theorem fieldNames_setField (record : Record) (key : String) (value : JsVal) :
    ∀ k ∈ fieldNames record, k ∈ fieldNames (setField record key value) := by
  intro k hk
  unfold fieldNames at hk ⊢
  unfold setField
  rw [List.mem_map] at hk
  obtain ⟨kv, hmem, hkv⟩ := hk
  split
  · rw [List.mem_map]
    by_cases h : kv.1 = key
    · exact ⟨(key, value), List.mem_map.mpr ⟨kv, hmem, by simp [h]⟩, by rw [← hkv, h]⟩
    · exact ⟨kv, List.mem_map.mpr ⟨kv, hmem, by simp [h]⟩, hkv⟩
  · rw [List.mem_map]
    exact ⟨kv, List.mem_append_left _ hmem, hkv⟩

/-- Replacing the fields named `key` leaves the lookup of another name as it was. -/
theorem lookup_replace_other (record : Record) (key other : String) (value : JsVal)
    (h : other ≠ key) :
    List.lookup other (record.map (fun kv => if kv.1 = key then (key, value) else kv))
      = List.lookup other record := by
  induction record with
  | nil => rfl
  | cons kv rest ih =>
    obtain ⟨k, v⟩ := kv
    have hmap : ((k, v) :: rest).map (fun kv => if kv.1 = key then (key, value) else kv)
        = (if k = key then (key, value) else (k, v))
          :: rest.map (fun kv => if kv.1 = key then (key, value) else kv) := rfl
    rw [hmap]
    have hb : (other == key) = false := by simpa using h
    by_cases hk : k = key
    · rw [if_pos hk, List.lookup_cons, List.lookup_cons, ih, hk, hb]
    · rw [if_neg hk, List.lookup_cons, List.lookup_cons, ih]

/-- Replacing the fields named `key`, when there is one, makes the lookup of `key` give the new
value. -/
theorem lookup_replace_same (record : Record) (key : String) (value : JsVal)
    (h : record.any (fun kv => kv.1 = key) = true) :
    List.lookup key (record.map (fun kv => if kv.1 = key then (key, value) else kv))
      = some value := by
  induction record with
  | nil => simp at h
  | cons kv rest ih =>
    obtain ⟨k, v⟩ := kv
    have hmap : ((k, v) :: rest).map (fun kv => if kv.1 = key then (key, value) else kv)
        = (if k = key then (key, value) else (k, v))
          :: rest.map (fun kv => if kv.1 = key then (key, value) else kv) := rfl
    rw [hmap]
    by_cases hk : k = key
    · rw [if_pos hk, List.lookup_cons]
      simp
    · have hb : (key == k) = false := by
        simp only [beq_eq_false_iff_ne, ne_eq]
        exact fun hc => hk hc.symm
      have hrest : rest.any (fun kv => decide (kv.1 = key)) = true := by
        rw [List.any_cons] at h
        simpa [hk] using h
      rw [if_neg hk, List.lookup_cons, hb]
      exact ih hrest

/-- A lookup in a record to which a field with a new name was added. -/
theorem lookup_append_fresh (record : Record) (key other : String) (value : JsVal)
    (h : record.any (fun kv => kv.1 = key) = false) :
    List.lookup other (record ++ [(key, value)])
      = if other = key then some value else List.lookup other record := by
  induction record with
  | nil =>
    by_cases ho : other = key
    · subst ho
      simp [List.lookup]
    · have hne : (other == key) = false := by simpa using ho
      simp [List.lookup, hne, ho]
  | cons kv rest ih =>
    obtain ⟨k, v⟩ := kv
    simp only [List.any_cons, Bool.or_eq_false_iff, decide_eq_false_iff_not] at h
    have ih' := ih h.2
    by_cases ho : other = k
    · subst ho
      have hne : ¬ other = key := h.1
      simp [List.lookup, hne]
    · have hne : (other == k) = false := by simpa using ho
      rw [List.cons_append, List.lookup_cons, List.lookup_cons, ih']
      simp [hne]

/-- Reading the field just set gives the value set. -/
theorem getField_setField_same (record : Record) (key : String) (value : JsVal) :
    getField (setField record key value) key = value := by
  unfold getField setField
  by_cases hany : record.any (fun kv => decide (kv.1 = key)) = true
  · simp only [hany, if_true, lookup_replace_same record key value hany]
    rfl
  · have hfalse : record.any (fun kv => decide (kv.1 = key)) = false :=
      Bool.eq_false_iff.mpr hany
    simp only [hfalse, if_false, Bool.false_eq_true,
      lookup_append_fresh record key key value hfalse]
    simp

/-- Reading another field than the one set gives what it held before. -/
theorem getField_setField_other (record : Record) (key other : String) (value : JsVal)
    (h : other ≠ key) :
    getField (setField record key value) other = getField record other := by
  unfold getField setField
  by_cases hany : record.any (fun kv => decide (kv.1 = key)) = true
  · simp only [hany, if_true, lookup_replace_other record key other value h]
  · have hfalse : record.any (fun kv => decide (kv.1 = key)) = false :=
      Bool.eq_false_iff.mpr hany
    simp only [hfalse, if_false, Bool.false_eq_true,
      lookup_append_fresh record key other value hfalse, h]

theorem KeepsContext.refl (ctx : ResultObject) : KeepsContext ctx ctx :=
  ⟨rfl, rfl, fun _ h => h⟩

theorem KeepsContext.trans {a b c : ResultObject} (hab : KeepsContext a b)
    (hbc : KeepsContext b c) : KeepsContext a c :=
  ⟨hbc.1.trans hab.1, hbc.2.1.trans hab.2.1, fun k hk => hbc.2.2 k (hab.2.2 k hk)⟩

/-- A step that only sets a field of the parsed record keeps the context. -/
theorem keepsContext_setField (ctx : ResultObject) (key : String) (value : JsVal) :
    KeepsContext ctx { ctx with parsed := setField ctx.parsed key value } :=
  ⟨rfl, rfl, fieldNames_setField ctx.parsed key value⟩

/-- A step that sets two fields of the parsed record keeps the context. -/
theorem keepsContext_setField₂ (ctx : ResultObject) (k₁ k₂ : String) (v₁ v₂ : JsVal) :
    KeepsContext ctx { ctx with parsed := setField (setField ctx.parsed k₁ v₁) k₂ v₂ } :=
  ⟨rfl, rfl, fun k hk =>
    fieldNames_setField _ k₂ v₂ k (fieldNames_setField ctx.parsed k₁ v₁ k hk)⟩

theorem updateKnowledgePanelTitle_keeps (ctx : ResultObject) :
    KeepsContext ctx (updateKnowledgePanelTitle ctx) := by
  unfold updateKnowledgePanelTitle
  simp only []
  split
  · exact keepsContext_setField ctx "title" _
  · exact KeepsContext.refl ctx

/-- A pipeline of steps that keep the context keeps the context. -/
theorem pipe_keeps (fns : List (ResultObject → ResultObject))
    (h : ∀ step ∈ fns, ∀ ctx, KeepsContext ctx (step ctx)) :
    ∀ ctx, KeepsContext ctx (pipe fns ctx) := by
  induction fns with
  | nil =>
    intro ctx
    exact KeepsContext.refl ctx
  | cons fn rest ih =>
    intro ctx
    have hfn := h fn (by simp) ctx
    have hrest := ih (fun step hs => h step (by simp [hs])) (fn ctx)
    exact KeepsContext.trans hfn hrest

/-- C21: every step of the result pipeline from `addAnswerBox` through `setMetaData` returns a
context with the same element set, the same request and a parsed record that holds every field
name it held before; so does the whole run of these steps, which applies them left to right,
each to the output of the one before. -/
theorem resultSteps_keep_context (c : Collaborators) (engine : Query → Elem → List Node)
    (startIndexOf : Node → Offset) :
    (∀ step ∈ resultSteps c engine startIndexOf,
      ∀ ctx, KeepsContext ctx (step ctx)) ∧
    (∀ ctx, KeepsContext ctx (pipe (resultSteps c engine startIndexOf) ctx)) ∧
    (∀ (fn : ResultObject → ResultObject) (fns : List (ResultObject → ResultObject))
        (ctx : ResultObject), pipe (fn :: fns) ctx = pipe fns (fn ctx)) ∧
    (∀ ctx, pipe (resultSteps c engine startIndexOf) ctx
      = setMetaData startIndexOf (updateKnowledgePanelTitle (addOrganicRichContent c
          (addHasThumbnails engine (addPeopleAlsoAsk c (addHotelPack c (addLocalPack c
            (addSalaryPack c (addJobPack c (addFlightBox c (addEventPack c (addVideoPack c
              (addImagePack c (addNewsPack c (addAnswerBox c ctx))))))))))))))) := by
  have hsteps : ∀ step ∈ resultSteps c engine startIndexOf,
      ∀ ctx, KeepsContext ctx (step ctx) := by
    intro step hstep ctx
    simp only [resultSteps, List.mem_cons, List.mem_singleton, List.not_mem_nil,
      or_false] at hstep
    rcases hstep with h | h | h | h | h | h | h | h | h | h | h | h | h | h | h
    · rw [h]; exact keepsContext_setField₂ ctx _ _ _ _
    · rw [h]; exact keepsContext_setField ctx _ _
    · rw [h]; exact keepsContext_setField ctx _ _
    · rw [h]; exact keepsContext_setField ctx _ _
    · rw [h]; exact keepsContext_setField ctx _ _
    · rw [h]; exact keepsContext_setField ctx _ _
    · rw [h]; exact keepsContext_setField ctx _ _
    · rw [h]; exact keepsContext_setField ctx _ _
    · rw [h]; exact keepsContext_setField ctx _ _
    · rw [h]; exact keepsContext_setField ctx _ _
    · rw [h]; exact keepsContext_setField ctx _ _
    · rw [h]; exact keepsContext_setField₂ ctx _ _ _ _
    · rw [h]; exact keepsContext_setField ctx _ _
    · rw [h]; exact updateKnowledgePanelTitle_keeps ctx
    · rw [h]; exact keepsContext_setField ctx _ _
  exact ⟨hsteps, pipe_keeps _ hsteps, fun _ _ _ => rfl, fun _ => rfl⟩

theorem resultSteps_keep_context_witness :
    addAnswerBox sampleCollaborators ∈ resultSteps sampleCollaborators sampleEngine
      (fun _ => .num 7) ∧
    KeepsContext sampleContext (addAnswerBox sampleCollaborators sampleContext) ∧
    getField (addAnswerBox sampleCollaborators sampleContext).parsed "url"
      = .str "answer.example" :=
  ⟨List.mem_cons_self _ _,
    (resultSteps_keep_context sampleCollaborators sampleEngine (fun _ => .num 7)).1
      (addAnswerBox sampleCollaborators) (List.mem_cons_self _ _) sampleContext,
    rfl⟩

/-- The text of a node list is never the empty string: `!getText(list)` holds exactly when the
text is `null`. -/
theorem textFalsy_getText_list (l : List Node) (o : Options) :
    textFalsy (getText (.list l) o) = true ↔ getText (.list l) o = none := by
  cases h : getText (.list l) o with
  | none => simp [textFalsy]
  | some s =>
    have hs : s ≠ "" := returnText_ne_empty _ _ s h
    simp [textFalsy, hs]

/-- C22: `checkIfEmptyResult` returns `null` exactly when `parsed.title` is empty (falsy),
`parsed.description` is empty (falsy) and `getText` of the element set is `null`; in every
other case it returns the parsed record as it is. -/
theorem checkIfEmptyResult_null_iff (ctx : ResultObject) :
    (checkIfEmptyResult ctx = none ↔
      ((getField ctx.parsed "title").truthy = false ∧
       (getField ctx.parsed "description").truthy = false ∧
       getText (.list ctx.element) = none)) ∧
    (checkIfEmptyResult ctx = none ∨ checkIfEmptyResult ctx = some ctx.parsed) := by
  unfold checkIfEmptyResult
  have ht := textFalsy_getText_list ctx.element {}
  constructor
  · constructor
    · intro h
      split at h
      · rename_i hc
        simp only [Bool.and_eq_true, Bool.not_eq_true'] at hc
        exact ⟨hc.1.1, hc.1.2, ht.mp hc.2⟩
      · cases h
    · rintro ⟨h₁, h₂, h₃⟩
      have h₃' := ht.mpr h₃
      simp [h₁, h₂, h₃']
  · split
    · exact Or.inl rfl
    · exact Or.inr rfl

/-- C24: `updateKnowledgePanelTitle` changes the context only when the request is mobile and
`parsed.isKnowledgeCard` is truthy; it then sets `parsed.title` and nothing else: the old title
followed by `' (Knowledge Card)'` when the old title is a non-empty string, `'Knowledge Card'`
when the old title is empty. In every other case the context is returned as it is. -/
theorem updateKnowledgePanelTitle_spec (ctx : ResultObject) :
    (ctx.request.mobile = some true →
      (getField ctx.parsed "isKnowledgeCard").truthy = true →
      (updateKnowledgePanelTitle ctx).element = ctx.element ∧
      (updateKnowledgePanelTitle ctx).request = ctx.request ∧
      (∀ key, key ≠ "title" →
        getField (updateKnowledgePanelTitle ctx).parsed key = getField ctx.parsed key) ∧
      (∀ s, getField ctx.parsed "title" = .str s → s ≠ "" →
        getField (updateKnowledgePanelTitle ctx).parsed "title"
          = .str (s ++ " (Knowledge Card)")) ∧
      ((getField ctx.parsed "title").truthy = false →
        getField (updateKnowledgePanelTitle ctx).parsed "title" = .str "Knowledge Card")) ∧
    (¬ (ctx.request.mobile = some true ∧
        (getField ctx.parsed "isKnowledgeCard").truthy = true) →
      updateKnowledgePanelTitle ctx = ctx) := by
  constructor
  · intro hm hk
    have hcond : ((ctx.request.mobile.getD false)
        && (getField ctx.parsed "isKnowledgeCard").truthy) = true := by
      simp [hm, hk]
    have hdef : updateKnowledgePanelTitle ctx
        = ResultObject.mk ctx.element ctx.request (setField ctx.parsed "title"
            (if (getField ctx.parsed "title").truthy then
              JsVal.str ((getField ctx.parsed "title").toText ++ " (Knowledge Card)")
            else JsVal.str "Knowledge Card")) := by
      unfold updateKnowledgePanelTitle
      simp only [hcond, if_true]
    rw [hdef]
    refine ⟨rfl, rfl, ?_, ?_, ?_⟩
    · intro key hkey
      exact getField_setField_other _ _ _ _ hkey
    · intro s hs hne
      simp only [getField_setField_same, hs, JsVal.truthy, JsVal.toText]
      simp [hne]
    · intro hf
      simp only [getField_setField_same, hf]
      simp
  · intro hnot
    unfold updateKnowledgePanelTitle
    have hcond : ((ctx.request.mobile.getD false)
        && (getField ctx.parsed "isKnowledgeCard").truthy) = false := by
      cases hm : ctx.request.mobile with
      | none => simp
      | some b =>
        cases b with
        | false => simp
        | true =>
          cases hk : (getField ctx.parsed "isKnowledgeCard").truthy with
          | false => simp
          | true => exact absurd ⟨hm, hk⟩ hnot
    simp only [hcond, Bool.false_eq_true, if_false]

theorem updateKnowledgePanelTitle_spec_witness :
    (sampleContext.request.mobile = some true ∧
      (getField sampleContext.parsed "isKnowledgeCard").truthy = true ∧
      getField sampleContext.parsed "title" = .str "My Title" ∧ ("My Title" : String) ≠ "") ∧
    getField (updateKnowledgePanelTitle sampleContext).parsed "title"
      = .str ("My Title" ++ " (Knowledge Card)") ∧
    (updateKnowledgePanelTitle sampleContext).parsed
      = [("url", .str "myhref.com"), ("title", .str "My Title (Knowledge Card)"),
         ("description", .null), ("isKnowledgeCard", .bool true)] :=
  ⟨⟨rfl, rfl, rfl, by decide⟩,
    ((updateKnowledgePanelTitle_spec sampleContext).1 rfl rfl).2.2.2.1 "My Title" rfl
      (by decide),
    rfl⟩

/-! ### parseResultItem -/

/-- A step that leaves the element set, the request and the field `key` as they were. -/
theorem untouched_setField (ctx : ResultObject) (key k : String) (v : JsVal) (h : key ≠ k) :
    getField (setField ctx.parsed k v) key = getField ctx.parsed key :=
  getField_setField_other ctx.parsed k key v h

/-- A feature step changes neither the element set, nor the request, nor a field it does not
assign. -/
theorem featureSteps_untouched (c : Collaborators) (engine : Query → Elem → List Node)
    (key : String) (hkey : key ∉ featureKeys) :
    ∀ step ∈ featureSteps c engine, ∀ ctx : ResultObject,
      (step ctx).element = ctx.element ∧ (step ctx).request = ctx.request ∧
      getField (step ctx).parsed key = getField ctx.parsed key := by
  simp only [featureKeys, List.mem_cons, List.mem_singleton, List.not_mem_nil, or_false,
    not_or] at hkey
  obtain ⟨h1, h2, h3, h4, h5, h6, h7, h8, h9, h10, h11, h12, h13, h14, h15⟩ := hkey
  intro step hstep ctx
  simp only [featureSteps, List.mem_cons, List.mem_singleton, List.not_mem_nil,
    or_false] at hstep
  rcases hstep with h | h | h | h | h | h | h | h | h | h | h | h | h
  · rw [h]
    refine ⟨rfl, rfl, ?_⟩
    show getField (setField (setField ctx.parsed "url" _) "answerBox" _) key = _
    rw [getField_setField_other _ _ _ _ h2, getField_setField_other _ _ _ _ h1]
  · rw [h]; exact ⟨rfl, rfl, getField_setField_other _ _ _ _ h3⟩
  · rw [h]; exact ⟨rfl, rfl, getField_setField_other _ _ _ _ h4⟩
  · rw [h]; exact ⟨rfl, rfl, getField_setField_other _ _ _ _ h5⟩
  · rw [h]; exact ⟨rfl, rfl, getField_setField_other _ _ _ _ h6⟩
  · rw [h]; exact ⟨rfl, rfl, getField_setField_other _ _ _ _ h7⟩
  · rw [h]; exact ⟨rfl, rfl, getField_setField_other _ _ _ _ h8⟩
  · rw [h]; exact ⟨rfl, rfl, getField_setField_other _ _ _ _ h9⟩
  · rw [h]; exact ⟨rfl, rfl, getField_setField_other _ _ _ _ h10⟩
  · rw [h]; exact ⟨rfl, rfl, getField_setField_other _ _ _ _ h11⟩
  · rw [h]; exact ⟨rfl, rfl, getField_setField_other _ _ _ _ h12⟩
  · rw [h]
    refine ⟨rfl, rfl, ?_⟩
    show getField (setField (setField ctx.parsed "hasThumbnail" _) "hasVideoThumbnail" _) key
      = _
    rw [getField_setField_other _ _ _ _ h14, getField_setField_other _ _ _ _ h13]
  · rw [h]; exact ⟨rfl, rfl, getField_setField_other _ _ _ _ h15⟩

/-- A run of steps that leave the element set, the request and a field as they were does so
too. -/
theorem pipe_untouched (key : String) (fns : List (ResultObject → ResultObject))
    (h : ∀ step ∈ fns, ∀ ctx : ResultObject,
      (step ctx).element = ctx.element ∧ (step ctx).request = ctx.request ∧
      getField (step ctx).parsed key = getField ctx.parsed key) :
    ∀ ctx : ResultObject,
      (pipe fns ctx).element = ctx.element ∧ (pipe fns ctx).request = ctx.request ∧
      getField (pipe fns ctx).parsed key = getField ctx.parsed key := by
  induction fns with
  | nil =>
    intro ctx
    exact ⟨rfl, rfl, rfl⟩
  | cons fn rest ih =>
    intro ctx
    have hfn := h fn (by simp) ctx
    have hrest := ih (fun step hs => h step (by simp [hs])) (fn ctx)
    show (pipe rest (fn ctx)).element = _ ∧ (pipe rest (fn ctx)).request = _ ∧
      getField (pipe rest (fn ctx)).parsed key = _
    exact ⟨hrest.1.trans hfn.1, hrest.2.1.trans hfn.2.1, hrest.2.2.trans hfn.2.2⟩

/-- The whole run of steps is the feature steps, then `updateKnowledgePanelTitle`, then
`setMetaData`. -/
theorem pipe_resultSteps (c : Collaborators) (engine : Query → Elem → List Node)
    (startIndexOf : Node → Offset) (ctx : ResultObject) :
    pipe (resultSteps c engine startIndexOf) ctx
      = setMetaData startIndexOf
          (updateKnowledgePanelTitle (pipe (featureSteps c engine) ctx)) :=
  rfl

theorem updateKnowledgePanelTitle_unchanged (ctx : ResultObject)
    (h : ¬ (ctx.request.mobile = some true ∧
      (getField ctx.parsed "isKnowledgeCard").truthy = true)) :
    updateKnowledgePanelTitle ctx = ctx := by
  unfold updateKnowledgePanelTitle
  have hcond : ((ctx.request.mobile.getD false)
      && (getField ctx.parsed "isKnowledgeCard").truthy) = false := by
    cases hm : ctx.request.mobile with
    | none => simp
    | some b =>
      cases b with
      | false => simp
      | true =>
        cases hk : (getField ctx.parsed "isKnowledgeCard").truthy with
        | false => simp
        | true => exact absurd ⟨hm, hk⟩ h
  simp only [hcond, Bool.false_eq_true, if_false]

theorem updateKnowledgePanelTitle_changed (ctx : ResultObject)
    (hm : ctx.request.mobile = some true)
    (hk : (getField ctx.parsed "isKnowledgeCard").truthy = true) :
    updateKnowledgePanelTitle ctx
      = ResultObject.mk ctx.element ctx.request (setField ctx.parsed "title"
          (if (getField ctx.parsed "title").truthy then
            JsVal.str ((getField ctx.parsed "title").toText ++ " (Knowledge Card)")
          else JsVal.str "Knowledge Card")) := by
  have hcond : ((ctx.request.mobile.getD false)
      && (getField ctx.parsed "isKnowledgeCard").truthy) = true := by
    simp [hm, hk]
  unfold updateKnowledgePanelTitle
  simp only [hcond, if_true]

/-- The configs of `parseUrl` and `getIsAmp` carry no `process`: the calls return. -/
theorem parseUrl_ok (c : Collaborators) (engine : Query → Elem → List Node) (element : Elem) :
    ∃ url, parseUrl c engine element = .ok url := by
  obtain ⟨v, hv, _⟩ :=
    parseByConfig_present (singleQuery engine) noCallbacks urlConfig rfl element
  exact ⟨_, by unfold parseUrl; rw [hv]⟩

theorem getIsAmp_ok (engine : Query → Elem → List Node) (element : Elem) :
    ∃ isAmp, getIsAmp engine element = .ok isAmp := by
  obtain ⟨v, hv, _⟩ :=
    parseByConfig_present (singleQuery engine) noCallbacks ampConfig rfl element
  exact ⟨_, by unfold getIsAmp; rw [hv]⟩

/-- The step `parseCommonProperties` returns, with the record of the six common fields. -/
theorem parseCommonProperties_ok (c : Collaborators) (engine : Query → Elem → List Node)
    (dateMatch : String → Option String) (w : WrappedResult) :
    ∃ url isAmp, parseCommonProperties c engine dateMatch w
      = .ok (ResultObject.mk w.element w.request
          [("url", url),
           ("title", JsVal.ofText
              (parseTitle engine (.list w.element) (w.request.mobile.getD false))),
           ("description", JsVal.ofText (parseDescription engine (.list w.element)).base),
           ("resultDate",
              parseResultDate dateMatch (parseDescription engine (.list w.element)).prefixText),
           ("isAmp", .bool isAmp),
           ("isKnowledgeCard", c.isKnowledgePanelEntry w.element)]) := by
  obtain ⟨amp, hamp⟩ := getIsAmp_ok engine (.list w.element)
  unfold parseCommonProperties
  by_cases hk : (c.isKnowledgePanelEntry w.element).truthy = true
  · refine ⟨.str c.googleFeatureUrl, amp, ?_⟩
    simp only [hk, if_true, hamp]
  · obtain ⟨url, hurl⟩ := parseUrl_ok c engine (.list w.element)
    refine ⟨url, amp, ?_⟩
    simp only [hk, if_false, Bool.false_eq_true, hurl, hamp]

/-- The empty-result test after `setMetaData` reads the title, the description and the element
set of the context `setMetaData` was given. -/
theorem checkIfEmptyResult_setMetaData (startIndexOf : Node → Offset) (ctx : ResultObject) :
    checkIfEmptyResult (setMetaData startIndexOf ctx)
      = if !(getField ctx.parsed "title").truthy
            && !(getField ctx.parsed "description").truthy
            && textFalsy (getText (.list ctx.element)) then none
        else some (setMetaData startIndexOf ctx).parsed := by
  have ht : getField (setMetaData startIndexOf ctx).parsed "title"
      = getField ctx.parsed "title" :=
    getField_setField_other ctx.parsed "_meta" "title" _ (by decide)
  have hd : getField (setMetaData startIndexOf ctx).parsed "description"
      = getField ctx.parsed "description" :=
    getField_setField_other ctx.parsed "_meta" "description" _ (by decide)
  have he : (setMetaData startIndexOf ctx).element = ctx.element := rfl
  unfold checkIfEmptyResult
  rw [ht, hd, he]

/-- C23, as stated, fails: for the blank sample element and a mobile request the extracted
title and description are `null` and the raw text is empty, yet, the element being a knowledge
card, `parseResultItem` returns a record, with the title `'Knowledge Card'`. -/
theorem parseResultItem_blank_knowledge_card :
    parseTitle sampleEngine (.list [sampleBlank]) true = none ∧
    (parseDescription sampleEngine (.list [sampleBlank])).base = none ∧
    getText (.list [sampleBlank]) = none ∧
    (parseResultItem sampleCollaborators sampleEngine (fun _ => .num 7) (fun _ => none)
        sampleBlank { mobile := some true }).map
      (Option.map (fun r => getField r "title")) = .ok (some (.str "Knowledge Card")) :=
  ⟨rfl, rfl, rfl, rfl⟩

/-- C23, amended: when the extracted title is `null`, the extracted description is `null` and
the raw text of the element is empty, `parseResultItem` returns `null`, except for a mobile
request on a knowledge card: there the title becomes `'Knowledge Card'` and the record is
returned. -/
theorem parseResultItem_empty (c : Collaborators) (engine : Query → Elem → List Node)
    (startIndexOf : Node → Offset) (dateMatch : String → Option String)
    (element : Node) (request : Request)
    (htitle : parseTitle engine (.list [element]) (request.mobile.getD false) = none)
    (hdesc : (parseDescription engine (.list [element])).base = none)
    (htext : getText (.list [element]) = none) :
    (¬ (request.mobile = some true ∧
        (c.isKnowledgePanelEntry [element]).truthy = true) →
      parseResultItem c engine startIndexOf dateMatch element request = .ok none) ∧
    (request.mobile = some true → (c.isKnowledgePanelEntry [element]).truthy = true →
      ∃ r, parseResultItem c engine startIndexOf dateMatch element request = .ok (some r) ∧
        getField r "title" = .str "Knowledge Card") := by
  obtain ⟨url, amp, hcp⟩ := parseCommonProperties_ok c engine dateMatch
    (wrapElement { element := element, request := request })
  have hw : (wrapElement { element := element, request := request }).element = [element] :=
    rfl
  have hr : (wrapElement { element := element, request := request }).request = request := rfl
  rw [hw, hr, htitle, hdesc] at hcp
  generalize hctx0 : ResultObject.mk [element] request
      [("url", url), ("title", JsVal.ofText none), ("description", JsVal.ofText none),
       ("resultDate",
          parseResultDate dateMatch (parseDescription engine (.list [element])).prefixText),
       ("isAmp", .bool amp), ("isKnowledgeCard", c.isKnowledgePanelEntry [element])]
      = ctx0 at hcp
  have h0e : ctx0.element = [element] := by rw [← hctx0]
  have h0r : ctx0.request = request := by rw [← hctx0]
  have h0t : getField ctx0.parsed "title" = .null := by rw [← hctx0]; rfl
  have h0d : getField ctx0.parsed "description" = .null := by rw [← hctx0]; rfl
  have h0k : getField ctx0.parsed "isKnowledgeCard" = c.isKnowledgePanelEntry [element] := by
    rw [← hctx0]; rfl
  have h1t := pipe_untouched "title" _
    (featureSteps_untouched c engine "title" (by decide)) ctx0
  have h1d := pipe_untouched "description" _
    (featureSteps_untouched c engine "description" (by decide)) ctx0
  have h1k := pipe_untouched "isKnowledgeCard" _
    (featureSteps_untouched c engine "isKnowledgeCard" (by decide)) ctx0
  generalize hctx1 : pipe (featureSteps c engine) ctx0 = ctx1 at h1t h1d h1k
  have hdef : parseResultItem c engine startIndexOf dateMatch element request
      = .ok (checkIfEmptyResult (setMetaData startIndexOf
          (updateKnowledgePanelTitle ctx1))) := by
    unfold parseResultItem
    rw [hcp]
    simp only []
    rw [pipe_resultSteps, hctx1]
  rw [hdef]
  have e1 : ctx1.element = [element] := h1t.1.trans h0e
  have r1 : ctx1.request = request := h1t.2.1.trans h0r
  have t1 : getField ctx1.parsed "title" = .null := h1t.2.2.trans h0t
  have d1 : getField ctx1.parsed "description" = .null := h1d.2.2.trans h0d
  have k1 : getField ctx1.parsed "isKnowledgeCard" = c.isKnowledgePanelEntry [element] :=
    h1k.2.2.trans h0k
  have hfalsy : textFalsy (getText (.list [element])) = true := by rw [htext]; rfl
  constructor
  · intro hnot
    have hun : updateKnowledgePanelTitle ctx1 = ctx1 := by
      apply updateKnowledgePanelTitle_unchanged
      rw [r1, k1]
      exact hnot
    rw [hun, checkIfEmptyResult_setMetaData, t1, d1, e1, hfalsy]
    rfl
  · intro hm hk
    have hch := updateKnowledgePanelTitle_changed ctx1 (by rw [r1]; exact hm)
      (by rw [k1]; exact hk)
    rw [t1] at hch
    have hch' : updateKnowledgePanelTitle ctx1
        = ResultObject.mk ctx1.element ctx1.request
            (setField ctx1.parsed "title" (.str "Knowledge Card")) := hch
    refine ⟨(setMetaData startIndexOf (updateKnowledgePanelTitle ctx1)).parsed, ?_, ?_⟩
    · rw [checkIfEmptyResult_setMetaData, hch']
      have : getField (setField ctx1.parsed "title" (.str "Knowledge Card")) "title"
          = .str "Knowledge Card" := getField_setField_same _ _ _
      simp only [this]
      rfl
    · rw [hch']
      have h₁ : getField (setMetaData startIndexOf
            (ResultObject.mk ctx1.element ctx1.request
              (setField ctx1.parsed "title" (.str "Knowledge Card")))).parsed "title"
          = getField (setField ctx1.parsed "title" (.str "Knowledge Card")) "title" :=
        getField_setField_other _ "_meta" "title" _ (by decide)
      rw [h₁]
      exact getField_setField_same _ _ _

theorem parseResultItem_empty_witness :
    (parseTitle sampleEngine (.list [sampleBlank])
        ((({ mobile := some false } : Request).mobile).getD false) = none ∧
      (parseDescription sampleEngine (.list [sampleBlank])).base = none ∧
      getText (.list [sampleBlank]) = none ∧
      ¬ (({ mobile := some false } : Request).mobile = some true ∧
        (sampleCollaborators.isKnowledgePanelEntry [sampleBlank]).truthy = true)) ∧
    parseResultItem sampleCollaborators sampleEngine (fun _ => .num 7) (fun _ => none)
      sampleBlank { mobile := some false } = .ok none :=
  ⟨⟨rfl, rfl, rfl, fun h => by cases h.1⟩,
    (parseResultItem_empty sampleCollaborators sampleEngine (fun _ => .num 7)
      (fun _ => none) sampleBlank { mobile := some false } rfl rfl rfl).1
      (fun h => by cases h.1)⟩

/-- C28, evaluated where it fails: the description of the sample element has no lead-in
element, so the lead-in text is `null` and the pattern removed is `'null '`; the base returned
is the description without its first `'null '`. -/
theorem parseDescription_removes_null :
    getText (firstOf (select (singleQuery markEngine) (.alts descriptionQuery)
        (.list [sampleSnippet]))) { separator := some "", trim := some false }
      = some "The value null is not an object" ∧
    select (singleQuery markEngine) (.alts prefixQuery)
        (firstOf (select (singleQuery markEngine) (.alts descriptionQuery)
          (.list [sampleSnippet]))) = [] ∧
    (parseDescription markEngine (.list [sampleSnippet])).base
      = some "The value is not an object" ∧
    (parseDescription markEngine (.list [sampleSnippet])).prefixText = none :=
  ⟨rfl, rfl, rfl, rfl⟩

/-! ### The page -/

/-- C27, evaluated where it fails: the first of the two sample headings contains
`'did not match any documents'`, the second does not, and `parseInvalidSearch` returns `null`;
with the two headings in the other order it returns the record. -/
theorem parseInvalidSearch_resets :
    jsIncludes "Your search - xyzzy - did not match any documents."
      "did not match any documents" = true ∧
    (select (singleQuery markEngine) (.single (.css "div#topstuff [role=heading]"))
      (.list sampleTopStuff)).length = 2 ∧
    parseInvalidSearch markEngine (fun _ => .num 5) (.list sampleTopStuff) = none ∧
    parseInvalidSearch markEngine (fun _ => .num 5) (.list sampleTopStuffReversed)
      = some [("_meta", .obj [("type", .str "NoMatchingSearchResults"),
                ("startIndex", .num 5)]),
              ("value", .str "Your search - xyzzy - did not match any documents.")] :=
  ⟨by decide, by decide, rfl, rfl⟩

/-- The call `parseResultItem` returns: its configs carry no `process`. -/
theorem parseResultItem_ok (c : Collaborators) (engine : Query → Elem → List Node)
    (startIndexOf : Node → Offset) (dateMatch : String → Option String)
    (element : Node) (request : Request) :
    ∃ r, parseResultItem c engine startIndexOf dateMatch element request = .ok r := by
  obtain ⟨url, amp, hcp⟩ := parseCommonProperties_ok c engine dateMatch
    (wrapElement { element := element, request := request })
  exact ⟨_, by unfold parseResultItem; rw [hcp]⟩

theorem parseSearchResultFeatures_ok (c : Collaborators) (page : Page)
    (engine : Query → Elem → List Node) (element : Elem) (request : Request) :
    ∃ l, parseSearchResultFeatures c page engine element request = .ok l := by
  unfold parseSearchResultFeatures
  exact mapM_ok_of_forall _ _
    (fun el _ => parseResultItem_ok c engine page.startIndexOf page.dateMatch el request)

/-- The column set by `setColumnNumber` is the one read back. -/
theorem columnOf_setColumnNumber (n : Int) (r : Record) :
    columnOf (setColumnNumber n r) = .num n := by
  unfold columnOf setColumnNumber
  simp only [getField_setField_same, optionalField]

/-- Every record of a list mapped with `setColumnNumber n` carries the column `n`. -/
theorem columnOf_map (n : Int) (l : List Record) :
    ∀ r ∈ l.map (setColumnNumber n), columnOf r = .num n := by
  intro r hr
  rw [List.mem_map] at hr
  obtain ⟨r₀, _, h⟩ := hr
  rw [← h]
  exact columnOf_setColumnNumber n r₀

/-- The first column is assembled without error, every record with the column `1`. -/
theorem parseColumn1_ok (c : Collaborators) (page : Page)
    (engine : Query → Elem → List Node) (document : Elem) (request : Request) :
    ∃ l, parseColumn1 c page engine document request = .ok l ∧
      ∀ r ∈ l, columnOf r = .num 1 := by
  obtain ⟨features, hf⟩ := parseSearchResultFeatures_ok c page engine
    (Elem.list (select (singleQuery engine) (.single (.css "div#center_col")) document))
    request
  unfold parseColumn1
  simp only [hf]
  exact ⟨_, rfl, columnOf_map 1 _⟩

/-- The array `parsedFeatures` is assembled without error: the app bar records, then those of
the first column, then those of the second. -/
theorem assembleFeatures_ok (c : Collaborators) (page : Page)
    (engine : Query → Elem → List Node) (document : Elem) (request : Request) :
    ∃ column1, parseColumn1 c page engine document request = .ok column1 ∧
      assembleFeatures c page engine document request
        = .ok (parseAppBarFeatures page engine document ++ column1
            ++ parseColumn2 page engine document) := by
  obtain ⟨column1, h1, _⟩ := parseColumn1_ok c page engine document request
  exact ⟨column1, h1, by unfold assembleFeatures; rw [h1]⟩

/-- The first element of an array is truthy exactly when the array is not empty. -/
theorem firstOf_truthy (l : List Node) : (firstOf l).truthy = !l.isEmpty := by
  cases l <;> rfl

/-- C25: `parse` fails with the platform-mismatch error exactly when "the document has no
`body#gsr` element" differs from `request.mobile` (a missing flag counting as `false`),
whatever the parsers and the rest of the page are; in particular markup without the desktop body
marker requested as not mobile raises the error; when the two agree `parse` returns the
formatted features. -/
theorem parse_platform_mismatch (c : Collaborators) (page : Page)
    (engine : Query → Elem → List Node) (html : String) (request : Request) :
    (parse c page engine html request = .error platformMismatch ↔
      (select (singleQuery engine) (.single (.css "body#gsr"))
        (.list (page.parseDOM html))).isEmpty ≠ request.mobile.getD false) ∧
    (select (singleQuery engine) (.single (.css "body#gsr")) (.list (page.parseDOM html)) = [] →
      request.mobile.getD false = false →
      parse c page engine html request = .error platformMismatch) ∧
    ((select (singleQuery engine) (.single (.css "body#gsr"))
        (.list (page.parseDOM html))).isEmpty = request.mobile.getD false →
      ∃ parsedFeatures,
        assembleFeatures c page engine (.list (page.parseDOM html)) request
          = .ok parsedFeatures ∧
        parse c page engine html request
          = .ok (page.format parsedFeatures page.now request)) := by
  obtain ⟨column1, _, hasm⟩ :=
    assembleFeatures_ok c page engine (.list (page.parseDOM html)) request
  have hexp : isExpectedHtmlPlatform engine (.list (page.parseDOM html)) request
      = ((select (singleQuery engine) (.single (.css "body#gsr"))
          (.list (page.parseDOM html))).isEmpty == request.mobile.getD false) := by
    unfold isExpectedHtmlPlatform
    simp only [firstOf_truthy, Bool.not_not]
  have hbad : (select (singleQuery engine) (.single (.css "body#gsr"))
        (.list (page.parseDOM html))).isEmpty ≠ request.mobile.getD false →
      parse c page engine html request = .error platformMismatch := by
    intro hne
    unfold parse
    simp only [hexp]
    have : ((select (singleQuery engine) (.single (.css "body#gsr"))
        (.list (page.parseDOM html))).isEmpty == request.mobile.getD false) = false := by
      simpa using hne
    simp [this]
  have hgood : (select (singleQuery engine) (.single (.css "body#gsr"))
        (.list (page.parseDOM html))).isEmpty = request.mobile.getD false →
      parse c page engine html request
        = .ok (page.format (parseAppBarFeatures page engine (.list (page.parseDOM html))
            ++ column1 ++ parseColumn2 page engine (.list (page.parseDOM html)))
            page.now request) := by
    intro heq
    unfold parse
    simp only [hexp, hasm]
    have : ((select (singleQuery engine) (.single (.css "body#gsr"))
        (.list (page.parseDOM html))).isEmpty == request.mobile.getD false) = true := by
      simpa using heq
    simp [this]
  refine ⟨⟨?_, hbad⟩, ?_, ?_⟩
  · intro herr heq
    rw [hgood heq] at herr
    cases herr
  · intro hnil hm
    apply hbad
    rw [hnil, hm]
    decide
  · intro heq
    exact ⟨_, hasm, hgood heq⟩

theorem parse_platform_mismatch_witness :
    (select (singleQuery markEngine) (.single (.css "body#gsr"))
        (.list (samplePageParams.parseDOM "<div id=main>")) = [] ∧
      ({ mobile := none } : Request).mobile.getD false = false) ∧
    parse sampleCollaborators samplePageParams markEngine "<div id=main>" { mobile := none }
      = .error platformMismatch :=
  ⟨⟨rfl, rfl⟩,
    (parse_platform_mismatch sampleCollaborators samplePageParams markEngine "<div id=main>"
      { mobile := none }).2.1 rfl rfl⟩

/-- C26: the records of `parsedFeatures` are the app bar records, then those of the first
column, then those of the second, carrying `_meta.column` `-1`, `1` and `2`; they are objects,
the `null` features being filtered out before the column is set; and `setColumnNumber` leaves
every other field of a record, and every other field of its `_meta`, as it was. -/
theorem parsedFeatures_columns (c : Collaborators) (page : Page)
    (engine : Query → Elem → List Node) (document : Elem) (request : Request) :
    (∀ r ∈ parseAppBarFeatures page engine document, columnOf r = .num (-1)) ∧
    (∀ l, parseColumn1 c page engine document request = .ok l →
      ∀ r ∈ l, columnOf r = .num 1) ∧
    (∀ r ∈ parseColumn2 page engine document, columnOf r = .num 2) ∧
    (∃ column1, parseColumn1 c page engine document request = .ok column1 ∧
      assembleFeatures c page engine document request
        = .ok (parseAppBarFeatures page engine document ++ column1
            ++ parseColumn2 page engine document)) ∧
    (∀ (n : Int) (r : Record),
      (∀ key, key ≠ "_meta" → getField (setColumnNumber n r) key = getField r key) ∧
      (∀ key ∈ fieldNames r, key ∈ fieldNames (setColumnNumber n r)) ∧
      (∀ fields key, getField r "_meta" = .obj fields → key ≠ "column" →
        optionalField (getField (setColumnNumber n r) "_meta") key = getField fields key) ∧
      (getField r "_meta" = .undefined →
        getField (setColumnNumber n r) "_meta" = .obj [("column", .num n)])) := by
  refine ⟨columnOf_map (-1) _, ?_, columnOf_map 2 _,
    assembleFeatures_ok c page engine document request, ?_⟩
  · intro l hl
    obtain ⟨l', hl', hcol⟩ := parseColumn1_ok c page engine document request
    rw [hl] at hl'
    cases hl'
    exact hcol
  · intro n r
    refine ⟨?_, ?_, ?_, ?_⟩
    · intro key hkey
      exact getField_setField_other r "_meta" key _ hkey
    · exact fieldNames_setField r "_meta" _
    · intro fields key hmeta hkey
      unfold setColumnNumber
      simp only [getField_setField_same, hmeta, optionalField, spreadFields]
      exact getField_setField_other fields "column" key _ hkey
    · intro hmeta
      unfold setColumnNumber
      simp only [getField_setField_same, hmeta, spreadFields]
      rfl

theorem parsedFeatures_columns_witness :
    setColumnNumber 2 samplePanel ∈ parseColumn2 samplePageParams markEngine (.list samplePage) ∧
    columnOf (setColumnNumber 2 samplePanel) = .num 2 ∧
    setColumnNumber 2 samplePanel
      = [("_meta", .obj [("type", .str "knowledgePanel"), ("startIndex", .num 40),
          ("column", .num 2)]),
         ("title", .str "Panel")] :=
  ⟨List.mem_cons_self _ _,
    (parsedFeatures_columns sampleCollaborators samplePageParams markEngine (.list samplePage)
      {}).2.2.1 (setColumnNumber 2 samplePanel) (List.mem_cons_self _ _),
    rfl⟩

end ParserDemo
